import Mathlib

/-!
Verification of the URL-tree core of the router in this repository
(src/@angular/router.js, src/unnamed/part_000, src/esm2020/...).

The data model and every operation below are shallow embeddings of the
JavaScript source.  JS objects used as ordered string-keyed maps (matrix
parameters, query parameters, children of a segment group) are embedded as
insertion-ordered association lists; JS `undefined` is embedded as
`Option.none`; functions that `throw` return `Except String`.
-/

namespace RouterSpec

/-- Embeds the constant PRIMARY_OUTLET = primary from shared.js. -/
def PRIMARY_OUTLET : String := "primary"

/-- Embeds class UrlSegment (router.js line 756): a path plus an ordered map
of matrix parameters (string to string). -/
structure UrlSegment where
  path : String
  parameters : List (String × String)
deriving DecidableEq, Repr

mutual
/-- Embeds class UrlSegmentGroup (router.js line 703): an ordered sequence of
segments plus children keyed by outlet name.  The JS children object is an
insertion-ordered map, embedded as the association list `UrlChildren`.
The mutable back pointer `parent` is not a field of the pure tree; it is
studied separately with a heap model (see `SGHeap` below). -/
inductive UrlSegmentGroup : Type where
  | mk (segments : List UrlSegment) (children : UrlChildren)
/-- Insertion-ordered children map of a UrlSegmentGroup. -/
inductive UrlChildren : Type where
  | nil : UrlChildren
  | cons (name : String) (group : UrlSegmentGroup) (rest : UrlChildren) : UrlChildren
end

mutual
/-- Boolean structural equality of segment groups (segments and children in
insertion order). -/
def UrlSegmentGroup.beq : UrlSegmentGroup → UrlSegmentGroup → Bool
  | .mk s1 c1, .mk s2 c2 => s1 == s2 && UrlChildren.beq c1 c2
/-- Boolean structural equality of children lists. -/
def UrlChildren.beq : UrlChildren → UrlChildren → Bool
  | .nil, .nil => true
  | .cons n1 g1 r1, .cons n2 g2 r2 =>
      n1 == n2 && UrlSegmentGroup.beq g1 g2 && UrlChildren.beq r1 r2
  | _, _ => false
end

instance : BEq UrlSegmentGroup := ⟨UrlSegmentGroup.beq⟩

instance : BEq UrlChildren := ⟨UrlChildren.beq⟩

/-- Segments of a group. -/
def UrlSegmentGroup.segments : UrlSegmentGroup → List UrlSegment
  | .mk s _ => s

/-- Children of a group. -/
def UrlSegmentGroup.children : UrlSegmentGroup → UrlChildren
  | .mk _ c => c

/-- Lookup of an outlet name in a children map. -/
def UrlChildren.lookup : UrlChildren → String → Option UrlSegmentGroup
  | .nil, _ => none
  | .cons n g r, k => if n = k then some g else UrlChildren.lookup r k

/-- Number of entries of a children map. -/
def UrlChildren.length : UrlChildren → Nat
  | .nil => 0
  | .cons _ _ r => r.length + 1

/-- Keys of a children map, in insertion order. -/
def UrlChildren.keys : UrlChildren → List String
  | .nil => []
  | .cons n _ r => n :: r.keys

/-- Append two children maps. -/
def UrlChildren.append : UrlChildren → UrlChildren → UrlChildren
  | .nil, c => c
  | .cons n g r, c => .cons n g (r.append c)

/-- JS object assignment `res[k] = g`: replaces in place if the key exists,
otherwise appends a new entry. -/
def UrlChildren.assign : UrlChildren → String → UrlSegmentGroup → UrlChildren
  | .nil, k, g => .cons k g .nil
  | .cons n g0 r, k, g => if n = k then .cons n g r else .cons n g0 (r.assign k g)

/-- Embeds `hasChildren()` (router.js line 719). -/
def UrlSegmentGroup.hasChildren (g : UrlSegmentGroup) : Bool :=
  g.children.length > 0

/-- Embeds the getter `numberOfChildren` (router.js line 724). -/
def UrlSegmentGroup.numberOfChildren (g : UrlSegmentGroup) : Nat :=
  g.children.length

/-- Query parameter values: a string, or an accumulated array of strings. -/
inductive QueryVal : Type where
  | str (s : String)
  | arr (l : List String)
deriving DecidableEq, Repr

/-- Query parameter map of a UrlTree, insertion ordered. -/
abbrev QueryParams := List (String × QueryVal)

/-- Embeds class UrlTree (router.js line 669): root segment group, query
params (string or string array values) and optional fragment. -/
structure UrlTree where
  root : UrlSegmentGroup
  queryParams : QueryParams
  fragment : Option String

/-- Boolean equality of query values. -/
def QueryVal.beq (a b : QueryVal) : Bool :=
  match a, b with
  | .str s1, .str s2 => s1 == s2
  | .arr l1, .arr l2 => l1 == l2
  | _, _ => false

instance : BEq QueryVal := ⟨QueryVal.beq⟩

/-- Boolean structural equality of url trees. -/
def UrlTree.beq (a b : UrlTree) : Bool :=
  a.root.beq b.root && a.queryParams == b.queryParams && a.fragment == b.fragment

instance : BEq UrlTree := ⟨UrlTree.beq⟩

/-! ## Platform URI encoding

Modelled from the spec: the serializer calls the JS builtins
encodeURIComponent, decodeURIComponent, encodeURI and decodeURI, which are
not part of this repository.  They are modelled here byte-exactly for
ASCII and via UTF-8 percent-encoding for the rest. -/

/-- Characters kept verbatim by encodeURIComponent: ASCII alphanumerics and
the marks - _ . ! ~ * apostrophe ( ). -/
def isUnreservedComponentChar (c : Char) : Bool :=
  c.isAlphanum || c == '-' || c == '_' || c == '.' || c == '!' || c == '~' ||
  c == '*' || c == '\x27' || c == '(' || c == ')'

/-- Characters kept verbatim by encodeURI: those of encodeURIComponent plus
the URI-reserved set and the hash sign. -/
def isEncodeURIPreservedChar (c : Char) : Bool :=
  isUnreservedComponentChar c || c == ';' || c == '/' || c == '?' || c == ':' ||
  c == '@' || c == '&' || c == '=' || c == '+' || c == '$' || c == ',' || c == '#'

/-- UTF-8 bytes of a character, as natural numbers below 256. -/
def utf8BytesOfChar (c : Char) : List Nat :=
  let v := c.toNat
  if v < 128 then [v]
  else if v < 2048 then [192 + v / 64, 128 + v % 64]
  else if v < 65536 then [224 + v / 4096, 128 + (v / 64) % 64, 128 + v % 64]
  else [240 + v / 262144, 128 + (v / 4096) % 64, 128 + (v / 64) % 64, 128 + v % 64]

/-- Uppercase hex digit of a value below 16. -/
def hexDigitChar (n : Nat) : Char :=
  if n < 10 then Char.ofNat (48 + n) else Char.ofNat (55 + n)

/-- Percent-escape of one byte, with uppercase hex digits. -/
def percentEncodeByte (b : Nat) : List Char :=
  ['%', hexDigitChar (b / 16), hexDigitChar (b % 16)]

/-- Modelled from the spec: core of the JS builtin encodeURIComponent. -/
def encodeURIComponentCore (cs : List Char) : List Char :=
  (cs.map fun c =>
    if isUnreservedComponentChar c then [c]
    else ((utf8BytesOfChar c).map percentEncodeByte).flatten).flatten

/-- Modelled from the spec: core of the JS builtin encodeURI. -/
def encodeURICore (cs : List Char) : List Char :=
  (cs.map fun c =>
    if isEncodeURIPreservedChar c then [c]
    else ((utf8BytesOfChar c).map percentEncodeByte).flatten).flatten

/-- Numeric value of a hex digit character, if it is one. -/
def hexVal? (c : Char) : Option Nat :=
  if 48 ≤ c.toNat ∧ c.toNat ≤ 57 then some (c.toNat - 48)
  else if 65 ≤ c.toNat ∧ c.toNat ≤ 70 then some (c.toNat - 55)
  else if 97 ≤ c.toNat ∧ c.toNat ≤ 102 then some (c.toNat - 87)
  else none

/-- Whether a unicode scalar value is valid (not a surrogate, in range). -/
def isValidScalar (v : Nat) : Bool :=
  (v < 55296 || 57343 < v) && v < 1114112

/-- Decode a byte list as UTF-8; fails on malformed or overlong input. -/
def utf8Decode : List Nat → Option (List Char)
  | [] => some []
  | b :: rest =>
    if b < 128 then (utf8Decode rest).map (Char.ofNat b :: ·)
    else if 194 ≤ b && b < 224 then
      match rest with
      | b2 :: rest2 =>
        if 128 ≤ b2 && b2 < 192 then
          (utf8Decode rest2).map (Char.ofNat ((b - 192) * 64 + (b2 - 128)) :: ·)
        else none
      | _ => none
    else if 224 ≤ b && b < 240 then
      match rest with
      | b2 :: b3 :: rest3 =>
        if 128 ≤ b2 && b2 < 192 && 128 ≤ b3 && b3 < 192 then
          let v := (b - 224) * 4096 + (b2 - 128) * 64 + (b3 - 128)
          if 2048 ≤ v && isValidScalar v then
            (utf8Decode rest3).map (Char.ofNat v :: ·)
          else none
        else none
      | _ => none
    else if 240 ≤ b && b < 245 then
      match rest with
      | b2 :: b3 :: b4 :: rest4 =>
        if 128 ≤ b2 && b2 < 192 && 128 ≤ b3 && b3 < 192 && 128 ≤ b4 && b4 < 192 then
          let v := (b - 240) * 262144 + (b2 - 128) * 4096 + (b3 - 128) * 64 + (b4 - 128)
          if 65536 ≤ v && isValidScalar v then
            (utf8Decode rest4).map (Char.ofNat v :: ·)
          else none
        else none
      | _ => none
    else none

/-- Split percent escapes from literal characters.  Each escape is returned
with its byte value and its original three-character spelling. -/
def percentTokens : List Char → Option (List (Char ⊕ (Nat × List Char)))
  | [] => some []
  | c :: rest =>
    if c = '%' then
      match rest with
      | h1 :: h2 :: rest2 =>
        match hexVal? h1, hexVal? h2 with
        | some a, some b =>
          (percentTokens rest2).map (.inr (a * 16 + b, ['%', h1, h2]) :: ·)
        | _, _ => none
      | _ => none
    else (percentTokens rest).map (.inl c :: ·)

/-- Decode a token list, UTF-8-decoding maximal runs of escaped bytes.
The `pending` accumulator holds the bytes of the current run. -/
def decodeTokens : List (Char ⊕ (Nat × List Char)) → List Nat → Option (List Char)
  | [], pending => utf8Decode pending
  | .inl c :: rest, pending => do
    let p ← utf8Decode pending
    let r ← decodeTokens rest []
    pure (p ++ c :: r)
  | .inr bt :: rest, pending => decodeTokens rest (pending ++ [bt.1])

/-- Modelled from the spec: core of the JS builtin decodeURIComponent. -/
def decodeURIComponentCore (cs : List Char) : Option (List Char) :=
  (percentTokens cs).bind (fun ts => decodeTokens ts [])

/-- Bytes whose escapes decodeURI leaves untouched (the URI-reserved set and
the hash sign). -/
def isReservedByte (b : Nat) : Bool :=
  b == 59 || b == 47 || b == 63 || b == 58 || b == 64 || b == 38 || b == 61 ||
  b == 43 || b == 36 || b == 44 || b == 35

/-- Decode a token list for decodeURI: reserved single-byte escapes keep
their original spelling, other runs are UTF-8-decoded. -/
def decodeURITokens : List (Char ⊕ (Nat × List Char)) → List Nat → Option (List Char)
  | [], pending => utf8Decode pending
  | .inl c :: rest, pending => do
    let p ← utf8Decode pending
    let r ← decodeURITokens rest []
    pure (p ++ c :: r)
  | .inr bt :: rest, pending =>
    if bt.1 < 128 && isReservedByte bt.1 then do
      let p ← utf8Decode pending
      let r ← decodeURITokens rest []
      pure (p ++ bt.2 ++ r)
    else decodeURITokens rest (pending ++ [bt.1])

/-- Modelled from the spec: core of the JS builtin decodeURI. -/
def decodeURICore (cs : List Char) : Option (List Char) :=
  (percentTokens cs).bind (fun ts => decodeURITokens ts [])

/-- Embeds `encode` (router.js line 946): plain encodeURIComponent. -/
def encode (s : String) : String :=
  ⟨encodeURIComponentCore s.data⟩

/-- Embeds `decode` (router.js line 953): plain decodeURIComponent; `none`
models the URIError thrown on malformed input. -/
def decode (s : String) : Option String :=
  (decodeURIComponentCore s.data).map (fun cs => ⟨cs⟩)

/-- Modelled from the spec: the JS builtin encodeURI, used for fragments. -/
def encodeURIModel (s : String) : String :=
  ⟨encodeURICore s.data⟩

/-- Modelled from the spec: the JS builtin decodeURI, used for fragments. -/
def decodeURIModel (s : String) : Option String :=
  (decodeURICore s.data).map (fun cs => ⟨cs⟩)

/-! ## Serialization (router.js lines 890 to 1005) -/

/-- Embeds `serializeParams` (router.js line 967). -/
def serializeParams (ps : List (String × String)) : String :=
  String.join (ps.map fun kv => ";" ++ encode kv.1 ++ "=" ++ encode kv.2)

/-- Embeds `serializePath` (router.js line 960). -/
def serializePath (p : UrlSegment) : String :=
  encode p.path ++ serializeParams p.parameters

/-- Embeds `serializePaths` (router.js line 901). -/
def serializePaths (g : UrlSegmentGroup) : String :=
  String.intercalate "/" (g.segments.map serializePath)

mutual
/-- Embeds `serializeSegment` (router.js line 909). -/
def serializeSegment : UrlSegmentGroup → Bool → String
  | .mk segs cs, root =>
    if (UrlSegmentGroup.mk segs cs).hasChildren && root then
      -- the serialization of children[PRIMARY_OUTLET], or the empty string
      -- when the primary outlet is absent (a JS object has one entry per key,
      -- so the first primary block is the only one)
      let primary := (serializePrimaryBlocks cs).headD ""
      let children := serializeNamedBlocks cs
      if children.length > 0 then
        primary ++ "(" ++ String.intercalate "//" children ++ ")"
      else primary
    else if (UrlSegmentGroup.mk segs cs).hasChildren && !root then
      let children := serializePrimaryBlocks cs ++ serializeNamedBlocks cs
      serializePaths (.mk segs cs) ++ "/(" ++ String.intercalate "//" children ++ ")"
    else
      serializePaths (.mk segs cs)
/-- First pass of `mapChildrenIntoArray` (router.js line 816) as used by the
serializer: blocks for entries keyed by the primary outlet. -/
def serializePrimaryBlocks : UrlChildren → List String
  | .nil => []
  | .cons n g r =>
    if n = PRIMARY_OUTLET then serializeSegment g false :: serializePrimaryBlocks r
    else serializePrimaryBlocks r
/-- Second pass of `mapChildrenIntoArray`: named blocks `name:...` for the
non-primary entries, in insertion order. -/
def serializeNamedBlocks : UrlChildren → List String
  | .nil => []
  | .cons n g r =>
    if n = PRIMARY_OUTLET then serializeNamedBlocks r
    else (n ++ ":" ++ serializeSegment g false) :: serializeNamedBlocks r
end

/-- Embeds `serializeQueryParams` (router.js line 974). -/
def serializeQueryParams (params : QueryParams) : String :=
  let strParams := params.map fun kv =>
    match kv.2 with
    | .arr l => String.intercalate "&" (l.map fun v => encode kv.1 ++ "=" ++ encode v)
    | .str v => encode kv.1 ++ "=" ++ encode v
  if strParams.length > 0 then "?" ++ String.intercalate "&" strParams else ""

/-- Embeds `DefaultUrlSerializer.serialize` (router.js line 890). -/
def DefaultUrlSerializer.serialize (tree : UrlTree) : String :=
  let segment := "/" ++ serializeSegment tree.root true
  let query := serializeQueryParams tree.queryParams
  let fragment := match tree.fragment with
    | some f => "#" ++ encodeURIModel f
    | none => ""
  segment ++ query ++ fragment

/-! ## Tokenizers (router.js lines 1006 to 1035, part_000 lines 582 to 613) -/

/-- Character class of SEGMENT_RE (router.js line 1006):
the regex excludes slash, parens, question mark, semicolon, equals,
ampersand and hash. -/
def isSegmentChar (c : Char) : Bool :=
  !(c == '/' || c == '(' || c == ')' || c == '?' || c == ';' || c == '=' ||
    c == '&' || c == '#')

/-- Embeds `matchSegments` (router.js line 1011): the longest prefix of
SEGMENT_RE characters, possibly empty. -/
def matchSegments (cs : List Char) : List Char :=
  cs.takeWhile isSegmentChar

/-- Character class of QUERY_PARAM_RE (router.js line 1016).  The constant
is declared in the source but `matchQueryParams` does not use it. -/
def isQueryParamChar (c : Char) : Bool :=
  !(c == '=' || c == '?' || c == '&' || c == '#')

/-- Embeds `matchQueryParams` (router.js line 1021): the source matches the
input against SEGMENT_RE, not QUERY_PARAM_RE. -/
def matchQueryParams (cs : List Char) : List Char :=
  cs.takeWhile isSegmentChar

/-- Character class of QUERY_PARAM_VALUE_RE (router.js line 1026). -/
def isQueryParamValueChar (c : Char) : Bool :=
  !(c == '?' || c == '&' || c == '#')

/-- Embeds `matchUrlQueryParamValue` (router.js line 1031). -/
def matchUrlQueryParamValue (cs : List Char) : List Char :=
  cs.takeWhile isQueryParamValueChar

namespace UrlTreeJs

/-- Character class of SEGMENT_RE in src/unnamed/part_000 line 582: the
regex excludes slash, parens, question mark, semicolon, equals and hash,
but not the ampersand. -/
def isSegmentChar (c : Char) : Bool :=
  !(c == '/' || c == '(' || c == ')' || c == '?' || c == ';' || c == '=' ||
    c == '#')

/-- Embeds `matchSegments` of src/unnamed/part_000 line 587. -/
def matchSegments (cs : List Char) : List Char :=
  cs.takeWhile UrlTreeJs.isSegmentChar

/-- Embeds `matchQueryParams` of src/unnamed/part_000 line 598, which uses
QUERY_PARAM_RE. -/
def matchQueryParams (cs : List Char) : List Char :=
  cs.takeWhile RouterSpec.isQueryParamChar

/-- Embeds `matchUrlQueryParamValue` of src/unnamed/part_000 line 608. -/
def matchUrlQueryParamValue (cs : List Char) : List Char :=
  cs.takeWhile RouterSpec.isQueryParamValueChar

end UrlTreeJs

/-- Modelled from the spec: the claimed segment-path token class, the
characters matched by the regex class that excludes slash, parens,
question mark, semicolon, equals and hash (but not the ampersand). -/
def specSegmentChar (c : Char) : Bool :=
  !(c == '/' || c == '(' || c == ')' || c == '?' || c == ';' || c == '=' ||
    c == '#')

/-- Modelled from the spec: the claimed query-param key class, the
characters matched by the regex class that excludes equals, question mark,
ampersand and hash. -/
def specQueryKeyChar (c : Char) : Bool :=
  !(c == '=' || c == '?' || c == '&' || c == '#')

/-! ## Parser (router.js class UrlParser, lines 1036 to 1243)

The mutable parser state (the `remaining` string) is threaded explicitly:
each method takes the remaining input and returns the parsed value together
with the remaining input after it.  `throw` is `Except.error`.  The
recursive methods take a fuel argument, decremented at every recursive
call; the top-level `parse` passes five times the length plus eight, which
is never exhausted (every cycle of the recursion consumes at least one
character and is at most five calls long). -/

/-- Embeds `peekStartsWith` (router.js line 1048). -/
def peekStartsWith (s rem : List Char) : Bool :=
  s.isPrefixOf rem

/-- Embeds `capture` (router.js line 1053): expects the given prefix and
drops it. -/
def capture (tok rem : List Char) : Except String (List Char) :=
  if tok.isPrefixOf rem then .ok (rem.drop tok.length)
  else .error "Expected token"

/-- JS object assignment for matrix parameters: replace in place if the key
exists, else append. -/
def assignParam (ps : List (String × String)) (k v : String) : List (String × String) :=
  match ps with
  | [] => [(k, v)]
  | (k0, v0) :: rest =>
    if k0 = k then (k0, v) :: rest else (k0, v0) :: assignParam rest k v

/-- Embeds `parseParam` (router.js line 1157). -/
def parseParam (params : List (String × String)) (rem : List Char) :
    Except String (List (String × String) × List Char) := do
  let key := matchSegments rem
  if key = [] then
    .ok (params, rem)
  else do
    let rem1 ← capture key rem
    let (value, rem2) ←
      if peekStartsWith ['='] rem1 then do
        let rem1b ← capture ['='] rem1
        let valueMatch := matchSegments rem1b
        if valueMatch ≠ [] then do
          let rem1c ← capture valueMatch rem1b
          pure (valueMatch, rem1c)
        else pure (([] : List Char), rem1b)
      else pure (([] : List Char), rem1)
    match decode ⟨key⟩, decode ⟨value⟩ with
    | some dk, some dv => .ok (assignParam params dk dv, rem2)
    | _, _ => .error "URIError: malformed URI sequence"

/-- Embeds the loop of `parseMatrixParams` (router.js line 1145); each
iteration consumes the semicolon, so fuel `length` is always enough. -/
def parseMatrixParamsF (fuel : Nat) (params : List (String × String)) (rem : List Char) :
    Except String (List (String × String) × List Char) :=
  match fuel with
  | 0 => .error "out of fuel"
  | f + 1 =>
    if rem.length > 0 && peekStartsWith [';'] rem then do
      let rem1 ← capture [';'] rem
      let (params1, rem2) ← parseParam params rem1
      parseMatrixParamsF f params1 rem2
    else .ok (params, rem)

/-- Embeds `parseMatrixParams` (router.js line 1145). -/
def parseMatrixParams (rem : List Char) :
    Except String (List (String × String) × List Char) :=
  parseMatrixParamsF (rem.length + 1) [] rem

/-- Embeds `parseSegments` (router.js line 1106). -/
def parseSegments (rem : List Char) : Except String (UrlSegment × List Char) := do
  let path := matchSegments rem
  if path = [] && peekStartsWith [';'] rem then
    .error "Empty path url segment cannot have parameters"
  else do
    let rem1 ← capture path rem
    let (matrixParams, rem2) ←
      if peekStartsWith [';'] rem1 then parseMatrixParams rem1
      else pure (([] : List (String × String)), rem1)
    match decode ⟨path⟩ with
    | some p => .ok (⟨p, matrixParams⟩, rem2)
    | none => .error "URIError: malformed URI sequence"

mutual
/-- Embeds `parseChildren` (router.js line 1074). -/
def parseChildren (fuel : Nat) (rem : List Char) :
    Except String (UrlChildren × List Char) :=
  match fuel with
  | 0 => .error "out of fuel"
  | f + 1 =>
    if rem.length = 0 then .ok (.nil, rem)
    else do
      let rem1 := if peekStartsWith ['/'] rem then rem.drop 1 else rem
      let (paths, rem2) ←
        if !(peekStartsWith ['('] rem1) then do
          let (seg, r) ← parseSegments rem1
          parsePathsLoop f [seg] r
        else pure (([] : List UrlSegment), rem1)
      let (children, rem3) ←
        if peekStartsWith ['/', '('] rem2 then do
          let rem2b ← capture ['/'] rem2
          parseParens f true rem2b
        else pure ((UrlChildren.nil), rem2)
      let (res, rem4) ←
        if peekStartsWith ['('] rem3 then parseParens f false rem3
        else pure ((UrlChildren.nil), rem3)
      if paths.length > 0 || children.length > 0 then
        .ok (res.assign PRIMARY_OUTLET (.mk paths children), rem4)
      else
        .ok (res, rem4)
/-- Embeds the segment loop of `parseChildren` (router.js line 1085). -/
def parsePathsLoop (fuel : Nat) (acc : List UrlSegment) (rem : List Char) :
    Except String (List UrlSegment × List Char) :=
  match fuel with
  | 0 => .error "out of fuel"
  | f + 1 =>
    if peekStartsWith ['/'] rem && !(peekStartsWith ['/', '/'] rem) &&
        !(peekStartsWith ['/', '('] rem) then do
      let rem1 ← capture ['/'] rem
      let (seg, rem2) ← parseSegments rem1
      parsePathsLoop f (acc ++ [seg]) rem2
    else .ok (acc, rem)
/-- Embeds `parseParens` (router.js line 1213): captures the opening paren
and runs the block loop. -/
def parseParens (fuel : Nat) (allowPrimary : Bool) (rem : List Char) :
    Except String (UrlChildren × List Char) :=
  match fuel with
  | 0 => .error "out of fuel"
  | f + 1 => do
    let rem1 ← capture ['('] rem
    parseParensLoop f allowPrimary .nil rem1
/-- Embeds the while loop of `parseParens` (router.js lines 1216 to 1239).
The accumulator is the `segments` object being filled.  When a block has no
outlet name and `allowPrimary` is false, the JS code indexes the object with
`undefined`, which coerces to the property name "undefined"; when the inner
children collapse step reads a missing primary entry it stores `undefined`
in the map, which the typed tree cannot represent and is embedded as a
parse error. -/
def parseParensLoop (fuel : Nat) (allowPrimary : Bool) (acc : UrlChildren)
    (rem : List Char) : Except String (UrlChildren × List Char) :=
  match fuel with
  | 0 => .error "out of fuel"
  | f + 1 =>
    if !(peekStartsWith [')'] rem) && rem.length > 0 then do
      let path := matchSegments rem
      let nextOk :=
        match rem.drop path.length with
        | [] => false
        | c :: _ => c == '/' || c == ')' || c == ';'
      if !nextOk then .error "Cannot parse url"
      else do
        let (name, rem1) ←
          if path.contains ':' then do
            let outletName := path.takeWhile (fun c => !(c == ':'))
            let remA ← capture outletName rem
            let remB ← capture [':'] remA
            pure ((⟨outletName⟩ : String), remB)
          else if allowPrimary then pure (PRIMARY_OUTLET, rem)
          else pure (("undefined" : String), rem)
        let (children, rem2) ← parseChildren f rem1
        let g ←
          if children.length = 1 then
            match children.lookup PRIMARY_OUTLET with
            | some c => pure c
            | none => .error "single non-primary child collapses to undefined"
          else pure (UrlSegmentGroup.mk [] children)
        let acc1 := acc.assign name g
        let rem3 ←
          if peekStartsWith ['/', '/'] rem2 then capture ['/', '/'] rem2
          else pure rem2
        parseParensLoop f allowPrimary acc1 rem3
    else do
      let rem1 ← capture [')'] rem
      .ok (acc, rem1)
end

/-- Embeds `parseRootSegment` (router.js line 1062). -/
def parseRootSegment (fuel : Nat) (rem : List Char) :
    Except String (UrlSegmentGroup × List Char) := do
  let rem1 := if peekStartsWith ['/'] rem then rem.drop 1 else rem
  if rem1.length = 0 || peekStartsWith ['?'] rem1 || peekStartsWith ['#'] rem1 then
    .ok (.mk [] .nil, rem1)
  else do
    let (children, rem2) ← parseChildren fuel rem1
    .ok (.mk [] children, rem2)

/-- Embeds the query accumulation of `parseQueryParam` (router.js lines
1193 to 1207): a repeated key turns its value into an array and appends. -/
def addQueryParam (params : QueryParams) (k v : String) : QueryParams :=
  match params with
  | [] => [(k, .str v)]
  | (k0, v0) :: rest =>
    if k0 = k then
      match v0 with
      | .str old => (k0, .arr [old, v]) :: rest
      | .arr l => (k0, .arr (l ++ [v])) :: rest
    else (k0, v0) :: addQueryParam rest k v

/-- Embeds `parseQueryParam` (router.js line 1178). -/
def parseQueryParam (params : QueryParams) (rem : List Char) :
    Except String (QueryParams × List Char) := do
  let key := matchQueryParams rem
  if key = [] then .ok (params, rem)
  else do
    let rem1 ← capture key rem
    let (value, rem2) ←
      if peekStartsWith ['='] rem1 then do
        let rem1b ← capture ['='] rem1
        let valueMatch := matchUrlQueryParamValue rem1b
        if valueMatch ≠ [] then do
          let rem1c ← capture valueMatch rem1b
          pure (valueMatch, rem1c)
        else pure (([] : List Char), rem1b)
      else pure (([] : List Char), rem1)
    match decode ⟨key⟩, decode ⟨value⟩ with
    | some dk, some dv => .ok (addQueryParam params dk dv, rem2)
    | _, _ => .error "URIError: malformed URI sequence"

/-- Embeds the loop of `parseQueryParams` (router.js line 1126); each
iteration consumes the ampersand. -/
def parseQueryParamsLoop (fuel : Nat) (params : QueryParams) (rem : List Char) :
    Except String (QueryParams × List Char) :=
  match fuel with
  | 0 => .error "out of fuel"
  | f + 1 =>
    if rem.length > 0 && peekStartsWith ['&'] rem then do
      let rem1 ← capture ['&'] rem
      let (params1, rem2) ← parseQueryParam params rem1
      parseQueryParamsLoop f params1 rem2
    else .ok (params, rem)

/-- Embeds `parseQueryParams` (router.js line 1121). -/
def parseQueryParams (rem : List Char) : Except String (QueryParams × List Char) :=
  if peekStartsWith ['?'] rem then do
    let rem1 ← capture ['?'] rem
    let (params, rem2) ← parseQueryParam [] rem1
    parseQueryParamsLoop (rem2.length + 1) params rem2
  else .ok ([], rem)

/-- Embeds `parseFragment` (router.js line 1136). -/
def parseFragment (rem : List Char) : Except String (Option String) :=
  if peekStartsWith ['#'] rem then
    match decodeURIModel ⟨rem.drop 1⟩ with
    | some f => .ok (some f)
    | none => .error "URIError: malformed URI sequence"
  else .ok none

/-- Embeds `DefaultUrlSerializer.parse` (router.js line 881): root segment,
then query params, then fragment. -/
def DefaultUrlSerializer.parse (url : String) : Except String UrlTree := do
  let rem := url.data
  let (root, rem1) ← parseRootSegment (5 * rem.length + 8) rem
  let (qp, rem2) ← parseQueryParams rem1
  let frag ← parseFragment rem2
  .ok ⟨root, qp, frag⟩

/-! ## Round-trip support definitions

The round-trip theorem for claim C1 is stated for well-formed trees.  The
predicates below are Bool-valued so that concrete instances can be checked
by evaluation. -/

/-- Safe characters: kept verbatim by both encoders, not percent signs, and
outside every delimiter class of the tokenizers. -/
def isSafeUrlChar (c : Char) : Bool :=
  c.isAlphanum || c == '-' || c == '_' || c == '.' || c == '~' || c == '!' || c == '*'

/-- Non-empty string of safe characters. -/
def safeStr (s : String) : Bool :=
  !(s.data.isEmpty) && s.data.all isSafeUrlChar

/-- Possibly empty string of safe characters. -/
def safeStrAllowEmpty (s : String) : Bool :=
  s.data.all isSafeUrlChar

/-- Whether a key list has no duplicates. -/
def nodupKeys : List String → Bool
  | [] => true
  | x :: r => !(r.contains x) && nodupKeys r

/-- Well-formed matrix parameters: safe non-empty keys (values may be
empty), distinct keys. -/
def wfParams (ps : List (String × String)) : Bool :=
  ps.all (fun kv => safeStr kv.1 && safeStrAllowEmpty kv.2) &&
  nodupKeys (ps.map Prod.fst)

/-- Well-formed segment: non-empty safe path, well-formed parameters. -/
def wfSegment (s : UrlSegment) : Bool :=
  safeStr s.path && wfParams s.parameters

mutual
/-- Well-formed non-root group: at least one segment, well-formed segments,
safe distinct child names, well-formed children. -/
def wfGroupB : UrlSegmentGroup → Bool
  | .mk segs cs =>
    !segs.isEmpty && segs.all wfSegment && nodupKeys cs.keys && wfChildrenB cs
/-- Well-formed children list: safe names and well-formed groups. -/
def wfChildrenB : UrlChildren → Bool
  | .nil => true
  | .cons n g r => safeStr n && wfGroupB g && wfChildrenB r
end

/-- Well-formed query parameters: safe non-empty distinct keys; plain values
may be empty; array values have at least two elements (a one-element array
parses back as a plain string). -/
def wfQuery (q : QueryParams) : Bool :=
  (q.all fun kv =>
    safeStr kv.1 &&
    (match kv.2 with
     | .str v => safeStrAllowEmpty v
     | .arr l => l.length ≥ 2 && l.all safeStrAllowEmpty)) &&
  nodupKeys (q.map Prod.fst)

/-- Well-formed tree: empty root segments, well-formed children with
distinct names, well-formed query, safe fragment. -/
def wfTree (t : UrlTree) : Bool :=
  t.root.segments.isEmpty && nodupKeys t.root.children.keys &&
  wfChildrenB t.root.children && wfQuery t.queryParams &&
  (match t.fragment with
   | none => true
   | some f => safeStrAllowEmpty f)

mutual
/-- The tree that `parse` rebuilds from the serialization of a well-formed
group: identical except that in every non-root children map the primary
entry is moved to the front (the serializer emits the primary block first
inside parens, and the parser inserts entries in block order). -/
def reparseG : UrlSegmentGroup → UrlSegmentGroup
  | .mk segs cs => .mk segs ((reparsePrimaryEntries cs).append (reparseNamedEntries cs))
/-- Primary-keyed entries of a children map, reparsed, in order. -/
def reparsePrimaryEntries : UrlChildren → UrlChildren
  | .nil => .nil
  | .cons n g r =>
    if n = PRIMARY_OUTLET then .cons n (reparseG g) (reparsePrimaryEntries r)
    else reparsePrimaryEntries r
/-- Non-primary entries of a children map, reparsed, in order. -/
def reparseNamedEntries : UrlChildren → UrlChildren
  | .nil => .nil
  | .cons n g r =>
    if n = PRIMARY_OUTLET then reparseNamedEntries r
    else .cons n (reparseG g) (reparseNamedEntries r)
end

/-- At the root the parser parses the named blocks (from the trailing
parenthesized group) before assigning the primary entry, so the primary
entry ends up last. -/
def reparseRoot (cs : UrlChildren) : UrlChildren :=
  (reparseNamedEntries cs).append (reparsePrimaryEntries cs)

/-- The exact tree produced by `parse (serialize t)` for well-formed `t`. -/
def reparseTree (t : UrlTree) : UrlTree :=
  ⟨.mk [] (reparseRoot t.root.children), t.queryParams, t.fragment⟩

mutual
/-- Structural equality of groups as JS sees it: equal segments and equal
children maps, ignoring the insertion order of the children. -/
def eqvG : UrlSegmentGroup → UrlSegmentGroup → Bool
  | .mk s1 c1, .mk s2 c2 => s1 == s2 && c1.length == c2.length && eqvSub c1 c2
/-- Each entry of the first map is present in the second with an equivalent
group. -/
def eqvSub : UrlChildren → UrlChildren → Bool
  | .nil, _ => true
  | .cons n g r, c2 =>
    (match c2.lookup n with
     | some g2 => eqvG g g2
     | none => false) && eqvSub r c2
end

/-- Structural equality of trees as JS sees it. -/
def eqvTree (a b : UrlTree) : Bool :=
  eqvG a.root b.root && a.queryParams == b.queryParams && a.fragment == b.fragment

mutual
/-- Size of a group, for the round-trip induction. -/
def sizeG : UrlSegmentGroup → Nat
  | .mk _ cs => 1 + sizeC cs
/-- Size of a children map. -/
def sizeC : UrlChildren → Nat
  | .nil => 0
  | .cons _ g r => 1 + sizeG g + sizeC r
end

/-- The groups of the primary-keyed entries, in order. -/
def primaryEntriesL : UrlChildren → List UrlSegmentGroup
  | .nil => []
  | .cons n g r =>
    if n = PRIMARY_OUTLET then g :: primaryEntriesL r else primaryEntriesL r

/-- The non-primary entries, in order. -/
def namedEntriesL : UrlChildren → List (String × UrlSegmentGroup)
  | .nil => []
  | .cons n g r =>
    if n = PRIMARY_OUTLET then namedEntriesL r else (n, g) :: namedEntriesL r

/-- One parenthesised block: an optional outlet name and its group. -/
abbrev BlockEntry := Option String × UrlSegmentGroup

/-- The serialized text of one block. -/
def blockOf : BlockEntry → String
  | (some n, g) => n ++ ":" ++ serializeSegment g false
  | (none, g) => serializeSegment g false

/-- The outlet name under which the parser stores a block. -/
def entryName : BlockEntry → String
  | (some n, _) => n
  | (none, _) => PRIMARY_OUTLET

/-- The children map the parser builds from a block list. -/
def entriesChildren : List BlockEntry → UrlChildren
  | [] => .nil
  | e :: r => .cons (entryName e) (reparseG e.2) (entriesChildren r)

/-- The block entries of a children map as an inner group serializes them:
primary blocks first, then named blocks. -/
def allEntries (cs : UrlChildren) : List BlockEntry :=
  (primaryEntriesL cs).map (fun g => (none, g)) ++
  (namedEntriesL cs).map (fun e => (some e.1, e.2))

/-- The block entries of the trailing root parenthesis: named blocks
only. -/
def namedOnly (cs : UrlChildren) : List BlockEntry :=
  (namedEntriesL cs).map (fun e => (some e.1, e.2))

/-- What may follow a serialized segment. -/
def segEnd (rest : List Char) : Bool :=
  match rest with
  | [] => true
  | c :: _ => c == '/' || c == '(' || c == ')' || c == '?' || c == '#'



/-- What may follow a serialized non-root group body: the end of the url,
the query, the fragment, a closing paren or the block separator. -/
def childEnd (rest : List Char) : Bool :=
  match rest with
  | [] => true
  | c :: rest2 =>
    c == ')' || c == '?' || c == '#' ||
    (c == '/' && peekStartsWith ['/'] rest2)

/-- What may follow the serialized segment list of a group: a group end, an
opening paren at the root, or the own-children marker. -/
def pathsEnd (rest : List Char) : Bool :=
  childEnd rest || peekStartsWith ['('] rest || peekStartsWith ['/', '('] rest

/-- The serialized segments after the first: a slash before each. -/
def printTail (segs : List UrlSegment) : List Char :=
  (segs.map (fun s => '/' :: (serializePath s).data)).flatten

/-- One `key=value` occurrence of the printed query, as characters. -/
def unitData (u : String × String) : List Char :=
  u.1.data ++ '=' :: u.2.data

/-- The `key=value` pairs of the query in print order: one per plain value,
one per array element. -/
def queryUnits (q : QueryParams) : List (String × String) :=
  (q.map (fun kv => match kv.2 with
    | .str v => [(kv.1, v)]
    | .arr l => l.map (fun v => (kv.1, v)))).flatten

/-- Folding the parser accumulator over a unit list. -/
def applyUnits (acc : QueryParams) (us : List (String × String)) : QueryParams :=
  us.foldl (fun a u => addQueryParam a u.1 u.2) acc

/-- Ampersand-joined character fragments. -/
def ampJoin : List (List Char) → List Char
  | [] => []
  | [u] => u
  | u :: v :: r => u ++ '&' :: ampJoin (v :: r)

/-- The fragments after the first, each preceded by an ampersand. -/
def ampTail (l : List (List Char)) : List Char :=
  (l.map (fun u => '&' :: u)).flatten

/-- The entries of a children map as a list of pairs. -/
def UrlChildren.entriesL : UrlChildren → List (String × UrlSegmentGroup)
  | .nil => []
  | .cons n g r => (n, g) :: r.entriesL

/-! ## Route configuration model (spec section 3) -/

/-- Value returned by a guard in the synchronous model: the JS literal
true, the literal false, or a UrlTree. -/
inductive GuardResult : Type where
  | isTrue
  | isFalse
  | tree (t : UrlTree)

/-- The JS strict comparison `result === true` applied to guard results by
`andObservables` and by `every` (router.js lines 441 to 444, 4045). -/
def isTrueResult : GuardResult → Bool
  | .isTrue => true
  | _ => false

/-- Embeds `andObservables` (router.js line 441) over synchronous guard
values: every emitted result must be the literal true. -/
def andGuardResults (l : List GuardResult) : Bool :=
  l.all isTrueResult

/-- Embeds a Route config node.  `none` is JS undefined; components and the
loader token are abstracted to names; guards are their synchronous return
values; `loadedConfig` is the `_loadedConfig` pair (routes, module).  A JS
array or object field is truthy whenever present, a string field only when
non-empty. -/
inductive Route : Type where
  | mk (path : Option String) (pathMatch : Option String)
       (redirectTo : Option String) (outlet : Option String)
       (component : Option String) (matcher : Bool)
       (canActivate : Option (List GuardResult))
       (canLoad : Option (List GuardResult))
       (loadChildren : Bool)
       (children : Option (List Route))
       (loadedConfig : Option (List Route × String))
       (data : List (String × String))

/-- Path field of a route. -/
def Route.path : Route → Option String
  | .mk p _ _ _ _ _ _ _ _ _ _ _ => p

/-- PathMatch field of a route. -/
def Route.pathMatch : Route → Option String
  | .mk _ pm _ _ _ _ _ _ _ _ _ _ => pm

/-- RedirectTo field of a route. -/
def Route.redirectTo : Route → Option String
  | .mk _ _ r _ _ _ _ _ _ _ _ _ => r

/-- Outlet field of a route. -/
def Route.outlet : Route → Option String
  | .mk _ _ _ o _ _ _ _ _ _ _ _ => o

/-- Component field of a route. -/
def Route.component : Route → Option String
  | .mk _ _ _ _ c _ _ _ _ _ _ _ => c

/-- Whether the route has a custom matcher. -/
def Route.matcher : Route → Bool
  | .mk _ _ _ _ _ m _ _ _ _ _ _ => m

/-- CanActivate guards of a route. -/
def Route.canActivate : Route → Option (List GuardResult)
  | .mk _ _ _ _ _ _ ca _ _ _ _ _ => ca

/-- CanLoad guards of a route. -/
def Route.canLoad : Route → Option (List GuardResult)
  | .mk _ _ _ _ _ _ _ cl _ _ _ _ => cl

/-- Whether the route has a loadChildren reference. -/
def Route.loadChildren : Route → Bool
  | .mk _ _ _ _ _ _ _ _ lc _ _ _ => lc

/-- Children field of a route. -/
def Route.children : Route → Option (List Route)
  | .mk _ _ _ _ _ _ _ _ _ cs _ _ => cs

/-- The memoized `_loadedConfig` slot. -/
def Route.loadedConfig : Route → Option (List Route × String)
  | .mk _ _ _ _ _ _ _ _ _ _ lc _ => lc

/-- Data field of a route. -/
def Route.data : Route → List (String × String)
  | .mk _ _ _ _ _ _ _ _ _ _ _ d => d

/-- A route with every optional field absent. -/
def Route.empty : Route :=
  .mk none none none none none false none none false none none []

/-- The route with the `_loadedConfig` slot set. -/
def Route.setLoadedConfig : Route → (List Route × String) → Route
  | .mk p pm r o c m ca cl lc cs _ d, cfg => .mk p pm r o c m ca cl lc cs (some cfg) d

/-- `String.startsWith`, stated over the character lists so that concrete
instances reduce. -/
def strStartsWith (s pre : String) : Bool :=
  pre.toList.isPrefixOf s.toList

/-- Accumulating loop of `splitOnChar`. -/
def splitOnCharAux (c : Char) : List Char → List Char → List String
  | [], acc => [String.mk acc.reverse]
  | x :: xs, acc =>
    if x = c then String.mk acc.reverse :: splitOnCharAux c xs []
    else splitOnCharAux c xs (x :: acc)

/-- JS `String.prototype.split` with a one-character separator, stated over
the character list so that concrete instances reduce; the empty string
splits to a singleton empty part, as in JS. -/
def splitOnChar (c : Char) (s : String) : List String :=
  splitOnCharAux c s.toList []

/-- JS truthiness of an optional string (undefined and the empty string are
falsy). -/
def truthyStr : Option String → Bool
  | some s => !(s == "")
  | none => false

/-! ## Config validation, router.js version (lines 1837 to 1922) -/

namespace RouterJs

/-- Embeds `getFullPath` (router.js line 1910). -/
def getFullPath (parentPath : String) (currentRoute : Route) : String :=
  if parentPath == "" && !(truthyStr currentRoute.path) then ""
  else if !(parentPath == "") && !(truthyStr currentRoute.path) then parentPath ++ "/"
  else if parentPath == "" && truthyStr currentRoute.path then (currentRoute.path.getD "")
  else parentPath ++ "/" ++ (currentRoute.path.getD "")

/-- The non-recursive checks of `validateNode` (router.js lines 1850 to
1900); the recursion into children follows in `validateConfig`. -/
def validateNodeChecks (route : Route) (fullPath : String) : Except String Unit :=
  if route.component.isNone && truthyStr route.outlet &&
      !(route.outlet == some PRIMARY_OUTLET) then
    .error ("Invalid configuration of route \x27" ++ fullPath ++
      "\x27: a componentless route cannot have a named outlet set")
  else if truthyStr route.redirectTo && route.children.isSome then
    .error ("Invalid configuration of route \x27" ++ fullPath ++
      "\x27: redirectTo and children cannot be used together")
  else if truthyStr route.redirectTo && route.loadChildren then
    .error ("Invalid configuration of route \x27" ++ fullPath ++
      "\x27: redirectTo and loadChildren cannot be used together")
  else if route.children.isSome && route.loadChildren then
    .error ("Invalid configuration of route \x27" ++ fullPath ++
      "\x27: children and loadChildren cannot be used together")
  else if truthyStr route.redirectTo && route.component.isSome then
    .error ("Invalid configuration of route \x27" ++ fullPath ++
      "\x27: redirectTo and component cannot be used together")
  else if truthyStr route.path && route.matcher then
    .error ("Invalid configuration of route \x27" ++ fullPath ++
      "\x27: path and matcher cannot be used together")
  else if route.redirectTo.isNone && route.component.isNone &&
      route.children.isNone && !route.loadChildren then
    .error ("Invalid configuration of route \x27" ++ fullPath ++
      "\x27. One of the following must be provided: component, redirectTo, children or loadChildren")
  else if route.path.isNone && !route.matcher then
    .error ("Invalid configuration of route \x27" ++ fullPath ++
      "\x27: routes must have either a path or a matcher specified")
  else if (match route.path with
           | some p => strStartsWith p "/"
           | none => false) then
    .error ("Invalid configuration of route \x27" ++ fullPath ++
      "\x27: path cannot start with a slash")
  else if route.path == some "" && route.redirectTo.isSome &&
      route.pathMatch.isNone then
    .error ("Invalid configuration of route \x27\x7bpath: \x22" ++ fullPath ++
      "\x22, redirectTo: \x22" ++ (route.redirectTo.getD "") ++
      "\x22\x7d\x27: please provide \x27pathMatch\x27.")
  else if route.pathMatch.isSome && !(route.pathMatch == some "full") &&
      !(route.pathMatch == some "prefix") then
    .error ("Invalid configuration of route \x27" ++ fullPath ++
      "\x27: pathMatch can only be set to \x27prefix\x27 or \x27full\x27")
  else .ok ()

/-- Embeds `validateConfig` (router.js line 1837) together with the
children recursion of `validateNode`; the fuel bounds the recursion.  The
undefined-route and array-route checks of the source cannot arise for
typed routes. -/
def validateConfig (fuel : Nat) (config : List Route) (parentPath : String) :
    Except String Unit :=
  match fuel with
  | 0 => .error "out of fuel"
  | f + 1 =>
    match config with
    | [] => .ok ()
    | route :: rest => do
      let fullPath := getFullPath parentPath route
      validateNodeChecks route fullPath
      (match route.children with
       | some cs => validateConfig f cs fullPath
       | none => .ok ())
      validateConfig f rest parentPath
termination_by structural fuel

/-- Embeds `validateNode` (router.js line 1850): the checks, then the
recursion into children. -/
def validateNode (fuel : Nat) (route : Route) (fullPath : String) :
    Except String Unit := do
  validateNodeChecks route fullPath
  match route.children with
  | some cs => validateConfig fuel cs fullPath
  | none => .ok ()

end RouterJs

/-! ## Config validation, esm2020 version (src/esm2020/src/utils/config.mjs) -/

namespace Esm2020

/-- The non-recursive checks of the esm2020 `validateNode`
(src/esm2020/src/utils/config.mjs line 27), which include the
redirectTo-with-canActivate check. -/
def validateNodeChecks (route : Route) (fullPath : String) : Except String Unit :=
  if route.component.isNone && route.children.isNone && !route.loadChildren &&
      truthyStr route.outlet && !(route.outlet == some PRIMARY_OUTLET) then
    .error ("Invalid configuration of route \x27" ++ fullPath ++
      "\x27: a componentless route without children or loadChildren cannot have a named outlet set")
  else if truthyStr route.redirectTo && route.children.isSome then
    .error ("Invalid configuration of route \x27" ++ fullPath ++
      "\x27: redirectTo and children cannot be used together")
  else if truthyStr route.redirectTo && route.loadChildren then
    .error ("Invalid configuration of route \x27" ++ fullPath ++
      "\x27: redirectTo and loadChildren cannot be used together")
  else if route.children.isSome && route.loadChildren then
    .error ("Invalid configuration of route \x27" ++ fullPath ++
      "\x27: children and loadChildren cannot be used together")
  else if truthyStr route.redirectTo && route.component.isSome then
    .error ("Invalid configuration of route \x27" ++ fullPath ++
      "\x27: redirectTo and component cannot be used together")
  else if truthyStr route.redirectTo && route.canActivate.isSome then
    .error ("Invalid configuration of route \x27" ++ fullPath ++
      "\x27: redirectTo and canActivate cannot be used together. Redirects happen before activation so canActivate will never be executed.")
  else if truthyStr route.path && route.matcher then
    .error ("Invalid configuration of route \x27" ++ fullPath ++
      "\x27: path and matcher cannot be used together")
  else if route.redirectTo.isNone && route.component.isNone &&
      route.children.isNone && !route.loadChildren then
    .error ("Invalid configuration of route \x27" ++ fullPath ++
      "\x27. One of the following must be provided: component, redirectTo, children or loadChildren")
  else if route.path.isNone && !route.matcher then
    .error ("Invalid configuration of route \x27" ++ fullPath ++
      "\x27: routes must have either a path or a matcher specified")
  else if (match route.path with
           | some p => strStartsWith p "/"
           | none => false) then
    .error ("Invalid configuration of route \x27" ++ fullPath ++
      "\x27: path cannot start with a slash")
  else if route.path == some "" && route.redirectTo.isSome &&
      route.pathMatch.isNone then
    .error ("Invalid configuration of route \x27\x7bpath: \x22" ++ fullPath ++
      "\x22, redirectTo: \x22" ++ (route.redirectTo.getD "") ++
      "\x22\x7d\x27: please provide \x27pathMatch\x27.")
  else .ok ()

/-- Embeds `validateConfig` of src/esm2020/src/utils/config.mjs line 19,
together with the children recursion of its `validateNode`. -/
def validateConfig (fuel : Nat) (config : List Route) (parentPath : String) :
    Except String Unit :=
  match fuel with
  | 0 => .error "out of fuel"
  | f + 1 =>
    match config with
    | [] => .ok ()
    | route :: rest => do
      let fullPath := RouterJs.getFullPath parentPath route
      validateNodeChecks route fullPath
      (match route.children with
       | some cs => validateConfig f cs fullPath
       | none => .ok ())
      validateConfig f rest parentPath
termination_by structural fuel

/-- Embeds the esm2020 `validateNode`: the checks, then the recursion into
children. -/
def validateNode (fuel : Nat) (route : Route) (fullPath : String) :
    Except String Unit := do
  validateNodeChecks route fullPath
  match route.children with
  | some cs => validateConfig fuel cs fullPath
  | none => .ok ()

end Esm2020

/-! ## Lazy loading guard (router.js lines 1555 to 1575 and 1687 to 1696) -/

/-- Embeds the tagged error of `navigationCancelingError` (router.js lines
246 to 262). -/
structure JsError where
  message : String
  ngNavigationCancelingError : Bool
deriving DecidableEq, Repr

/-- Embeds `navigationCancelingError` (router.js line 251). -/
def navigationCancelingError (message : String) : JsError :=
  ⟨"NavigationCancelingError: " ++ message, true⟩

/-- Embeds `isNavigationCancelingError` (router.js line 260). -/
def isNavigationCancelingError (e : JsError) : Bool :=
  e.ngNavigationCancelingError

namespace ApplyRedirects

/-- Embeds the error built by `canLoadFails` (router.js line 1293); an
undefined path prints as the string undefined in the JS template. -/
def canLoadFails (route : Route) : JsError :=
  navigationCancelingError
    ("Cannot load children because the guard of the route \x22path: \x27" ++
     (match route.path with
      | some p => p
      | none => "undefined") ++ "\x27\x22 returned false")

/-- Embeds `runCanLoadGuard` (router.js line 1687): no guards means true,
otherwise the conjunction of all guard results being the literal true. -/
def runCanLoadGuard (route : Route) : Bool :=
  match route.canLoad with
  | none => true
  | some [] => true
  | some gs => andGuardResults gs

/-- Result of `getChildConfig`: the outcome, the route after the call (the
`_loadedConfig` slot may have been written), and whether the loader ran. -/
structure GetChildConfigResult where
  result : Except JsError (List Route × String)
  route : Route
  loaderInvoked : Bool

/-- Embeds `ApplyRedirects.getChildConfig` (router.js line 1555).  The
`ngModule` name stands for the current module; `loaderResult` is what
`configLoader.load` would produce for this route. -/
def getChildConfig (ngModule : String) (loaderResult : List Route × String)
    (route : Route) : GetChildConfigResult :=
  match route.children with
  | some cs => ⟨.ok (cs, ngModule), route, false⟩
  | none =>
    if route.loadChildren then
      match route.loadedConfig with
      | some cfg => ⟨.ok cfg, route, false⟩
      | none =>
        if runCanLoadGuard route then
          ⟨.ok loaderResult, route.setLoadedConfig loaderResult, true⟩
        else
          ⟨.error (canLoadFails route), route, false⟩
    else ⟨.ok ([], ngModule), route, false⟩

end ApplyRedirects

/-! ## PreActivation guard checking, router.js version (lines 4028 to 4247)

Guards are modelled by their synchronous return values, stored on a
guard-relevant view of an ActivatedRouteSnapshot. -/

/-- Guard-relevant view of an ActivatedRouteSnapshot: the guard arrays of
its `_routeConfig` (none models a missing config or a missing array). -/
structure GuardedNode where
  name : String
  canActivate : Option (List GuardResult)
  canActivateChild : Option (List GuardResult)
  canDeactivate : Option (List GuardResult)

/-- A node with no route config, used where JS would read undefined. -/
def GuardedNode.empty : GuardedNode :=
  ⟨"", none, none, none⟩

namespace PreActivationJs

/-- Embeds the two check kinds CanActivate (a path from the root) and
CanDeactivate (router.js lines 3982 to 4003). -/
inductive Check : Type where
  | canActivateCheck (path : List GuardedNode)
  | canDeactivateCheck (route : GuardedNode)

/-- Embeds `PreActivation.runCanActivate` (router.js line 4173): true when
there are no guards, otherwise every guard result must be the literal
true. -/
def runCanActivate (future : GuardedNode) : Bool :=
  match future.canActivate with
  | none => true
  | some [] => true
  | some gs => andGuardResults gs

/-- Embeds `extractCanActivateChild` (router.js line 4219). -/
def extractCanActivateChild (p : GuardedNode) : Option (List GuardResult) :=
  match p.canActivateChild with
  | none => none
  | some [] => none
  | some gs => some gs

/-- Embeds `runCanActivateChild` (router.js line 4194): the ancestors of
the node (all but the last path element), reversed, each contributing the
conjunction of its canActivateChild guard results. -/
def runCanActivateChild (path : List GuardedNode) : Bool :=
  let canActivateChildGuards := (path.dropLast).reverse.filterMap extractCanActivateChild
  canActivateChildGuards.all andGuardResults

/-- Embeds `runCanDeactivate` (router.js line 4230): every guard result
must be the literal true. -/
def runCanDeactivate (curr : GuardedNode) : Bool :=
  match curr.canDeactivate with
  | none => true
  | some [] => true
  | some gs => andGuardResults gs

/-- Embeds `PreActivation.checkGuards` (router.js line 4028): no checks
means true; otherwise every check must come out as the literal true, a
CanActivate check being the conjunction of its canActivateChild and
canActivate runs.  Any non-true guard value, including a UrlTree, makes
the whole result false. -/
def checkGuards (checks : List Check) : Bool :=
  match checks with
  | [] => true
  | _ =>
    checks.all fun s =>
      match s with
      | .canActivateCheck path =>
        runCanActivateChild path &&
        runCanActivate ((path.getLast?).getD GuardedNode.empty)
      | .canDeactivateCheck route => runCanDeactivate route

end PreActivationJs

/-! ## Navigation pipeline, router.js version (Router.runNavigate, lines
3847 to 3981)

The asynchronous observable pipeline is sequential for synchronous guard
values and is embedded as a function of the stage outcomes.  Urls appear in
their serialized form. -/

/-- Embeds the router events relevant to one transition. -/
inductive RouterEvent : Type where
  | routesRecognized (id : Nat) (url appliedUrl : String)
  | navigationEnd (id : Nat) (url urlAfterRedirects : String)
  | navigationCancel (id : Nat) (url reason : String)
  | navigationError (id : Nat) (url msg : String)
deriving DecidableEq, Repr

namespace RouterJs

/-- Inputs of one `runNavigate` call: the ids, the serialized target and
current urls, the outcome of `applyRedirects`, and the outcome of
`recognize` plus `PreActivation.traverse` (the computed checks). -/
structure RunNavigateInput where
  id : Nat
  navigationId : Nat
  url : String
  currentUrl : String
  redirects : Except JsError String
  recognizeChecks : Except JsError (List PreActivationJs.Check)

/-- Outputs of one `runNavigate` call: the emitted events, the promise
outcome (`Except` models rejection through the rethrowing default error
handler), and the serialized current url afterwards. -/
structure RunNavigateOutput where
  events : List RouterEvent
  promise : Except String Bool
  currentUrl : String

/-- Outcome of the error continuation of `runNavigate` (router.js lines
3951 to 3971): a NavigationCancelingError becomes a NavigationCancel event
with the promise resolving false; any other error becomes a
NavigationError event and the default error handler rethrows.  In both
cases the stored current url is kept. -/
def errorOutcome (id : Nat) (url currentUrl : String) (e : JsError) :
    List RouterEvent → RunNavigateOutput := fun evs =>
  if isNavigationCancelingError e then
    ⟨evs ++ [.navigationCancel id url e.message], .ok false, currentUrl⟩
  else
    ⟨evs ++ [.navigationError id url e.message], .error e.message, currentUrl⟩

/-- Embeds `Router.runNavigate` (router.js line 3847) for a navigation
without a precreated state: apply redirects, recognize (emitting
RoutesRecognized), check the guards, then either commit the new url and
emit NavigationEnd resolving true, or keep the current url and emit
NavigationCancel with an empty reason resolving false.  No further
navigation is initiated in either case. -/
def runNavigate (inp : RunNavigateInput) : RunNavigateOutput :=
  if !(inp.id == inp.navigationId) then
    ⟨[.navigationCancel inp.id inp.url
        ("Navigation ID " ++ toString inp.id ++
         " is not equal to the current navigation id " ++ toString inp.navigationId)],
     .ok false, inp.currentUrl⟩
  else
    match inp.redirects with
    | .error e => errorOutcome inp.id inp.url inp.currentUrl e []
    | .ok appliedUrl =>
      match inp.recognizeChecks with
      | .error e => errorOutcome inp.id inp.url inp.currentUrl e []
      | .ok checks =>
        let evs := [RouterEvent.routesRecognized inp.id inp.url appliedUrl]
        let shouldActivate := PreActivationJs.checkGuards checks
        if shouldActivate then
          ⟨evs ++ [.navigationEnd inp.id inp.url appliedUrl], .ok true, appliedUrl⟩
        else
          ⟨evs ++ [.navigationCancel inp.id inp.url ""], .ok false, inp.currentUrl⟩

end RouterJs

/-! ## Guard checking, esm2020 version
(src/esm2020/src/operators/check_guards.mjs)

This newer generation understands UrlTree guard results.  The model runs
guards synchronously and also returns the trace of fired events and guard
invocations, in order. -/

namespace CheckGuardsOps

/-- Trace entries: the two events forwarded by the check, and each guard
invocation. -/
inductive GuardEvent : Type where
  | childActivationStart (name : String)
  | activationStart (name : String)
  | canDeactivateGuard (node : String) (idx : Nat)
  | canActivateChildGuard (ancestor : String) (idx : Nat)
  | canActivateGuard (node : String) (idx : Nat)
deriving DecidableEq, Repr

/-- Embeds `prioritizedGuardValue` for already-resolved guard values: the
value at the lowest index that is not the literal true, else true.  All
guards have been subscribed, hence all appear in the trace. -/
def prioritizedGuardValue (results : List GuardResult) : GuardResult :=
  match results.find? (fun r => !(isTrueResult r)) with
  | some r => r
  | none => .isTrue

/-- Trace of invoking every guard of a list on a node. -/
def guardTrace (mkEvent : String → Nat → GuardEvent) (name : String)
    (gs : List GuardResult) : List GuardEvent :=
  (List.range gs.length).map (mkEvent name)

/-- Embeds `runCanActivate` of check_guards.mjs: all guards run, the result
is prioritized. -/
def runCanActivate (node : GuardedNode) : GuardResult × List GuardEvent :=
  match node.canActivate with
  | none => (.isTrue, [])
  | some [] => (.isTrue, [])
  | some gs => (prioritizedGuardValue gs, guardTrace .canActivateGuard node.name gs)

/-- Embeds `runCanActivateChild` of check_guards.mjs: ancestors of the node
in reverse (deepest first), each running all its canActivateChild guards;
the result is prioritized across ancestors and guards. -/
def runCanActivateChild (path : List GuardedNode) :
    GuardResult × List GuardEvent :=
  let ds := (path.dropLast).reverse.filterMap
    (fun p =>
      match PreActivationJs.extractCanActivateChild p with
      | some gs => some (p.name, gs)
      | none => none)
  let perAncestor := ds.map (fun d =>
    (prioritizedGuardValue d.2, guardTrace .canActivateChildGuard d.1 d.2))
  (prioritizedGuardValue (perAncestor.map Prod.fst),
   (perAncestor.map Prod.snd).flatten)

/-- Embeds `runCanDeactivate` of check_guards.mjs. -/
def runCanDeactivate (node : GuardedNode) : GuardResult × List GuardEvent :=
  match node.canDeactivate with
  | none => (.isTrue, [])
  | some [] => (.isTrue, [])
  | some gs => (prioritizedGuardValue gs, guardTrace .canDeactivateGuard node.name gs)

/-- Embeds `runCanDeactivateChecks` of check_guards.mjs: the checks run in
order and `first(result !== true, true)` stops at the first non-true one. -/
def runCanDeactivateChecks : List GuardedNode → GuardResult × List GuardEvent
  | [] => (.isTrue, [])
  | c :: rest =>
    if isTrueResult (runCanDeactivate c).1 then
      ((runCanDeactivateChecks rest).1,
       (runCanDeactivate c).2 ++ (runCanDeactivateChecks rest).2)
    else runCanDeactivate c

/-- One canActivate check of check_guards.mjs: the path from the root to
the node being activated. -/
abbrev CanActivateCheck := List GuardedNode

/-- The events fired at the head of one canActivate check: the parent's
ChildActivationStart (when the path has a parent) and the node's
ActivationStart. -/
def fireEvents (check : CanActivateCheck) : List GuardEvent :=
  (if check.length ≥ 2 then
    [GuardEvent.childActivationStart
      (((check.dropLast).getLast?.getD GuardedNode.empty).name)]
   else []) ++
  [GuardEvent.activationStart ((check.getLast?.getD GuardedNode.empty).name)]

/-- Events and result of one check of `runCanActivateChecks`: fire
ChildActivationStart for the parent and ActivationStart for the node,
then the canActivateChild run and, only if it comes out true, the
canActivate run; `first(result !== true, true)` picks the first non-true
value. -/
def runOneCanActivateCheck (check : CanActivateCheck) :
    GuardResult × List GuardEvent :=
  let route := (check.getLast?).getD GuardedNode.empty
  if isTrueResult (runCanActivateChild check).1 then
    ((runCanActivate route).1,
     fireEvents check ++ (runCanActivateChild check).2 ++ (runCanActivate route).2)
  else ((runCanActivateChild check).1, fireEvents check ++ (runCanActivateChild check).2)

/-- Embeds `runCanActivateChecks` of check_guards.mjs: checks run in order
via concatMap, and the outer `first(result !== true, true)` stops the
whole sequence at the first non-true result. -/
def runCanActivateChecks : List CanActivateCheck → GuardResult × List GuardEvent
  | [] => (.isTrue, [])
  | c :: rest =>
    if isTrueResult (runOneCanActivateCheck c).1 then
      ((runCanActivateChecks rest).1,
       (runOneCanActivateCheck c).2 ++ (runCanActivateChecks rest).2)
    else runOneCanActivateCheck c

/-- Embeds `checkGuards` of check_guards.mjs: no checks means true;
otherwise run every canDeactivate check first and start the canActivate
checks only when that result is the boolean true (a false or UrlTree
deactivation result is returned unchanged and no activation check runs). -/
def checkGuards (canDeactivateChecks : List GuardedNode)
    (canActivateChecks : List CanActivateCheck) :
    GuardResult × List GuardEvent :=
  if canDeactivateChecks.isEmpty && canActivateChecks.isEmpty then (.isTrue, [])
  else
    match (runCanDeactivateChecks canDeactivateChecks).1 with
    | .isTrue =>
      ((runCanActivateChecks canActivateChecks).1,
       (runCanDeactivateChecks canDeactivateChecks).2 ++
         (runCanActivateChecks canActivateChecks).2)
    | r => (r, (runCanDeactivateChecks canDeactivateChecks).2)

/-- Whether a trace entry belongs to the canDeactivate phase. -/
def isDeactEvent : GuardEvent → Bool
  | .canDeactivateGuard _ _ => true
  | _ => false

/-- Whether a trace entry belongs to the activation phase. -/
def isActEvent : GuardEvent → Bool
  | .childActivationStart _ => true
  | .activationStart _ => true
  | .canActivateChildGuard _ _ => true
  | .canActivateGuard _ _ => true
  | _ => false

/-- Whether a trace entry is one of the two forwarded start events. -/
def isFireEvent : GuardEvent → Bool
  | .childActivationStart _ => true
  | .activationStart _ => true
  | _ => false

/-- Whether a trace entry is a canActivateChild guard invocation. -/
def isChildGuardEvent : GuardEvent → Bool
  | .canActivateChildGuard _ _ => true
  | _ => false

/-- Whether a trace entry is a canActivate guard invocation. -/
def isOwnGuardEvent : GuardEvent → Bool
  | .canActivateGuard _ _ => true
  | _ => false

end CheckGuardsOps

/-! ## createUrlTree (router.js lines 2555 to 2912)

Navigation commands are strings, numbers, matrix-params objects,
`\x7boutlets: ...\x7d` objects or `\x7bsegmentPath: ...\x7d` objects.  The
`parent` back pointers that `createPositionApplyingDoubleDots` traverses
are passed as the explicit ancestor chain of the starting group. -/

namespace CreateUrlTree

/-- A navigation command.  An outlets map value of `none` is the JS null
(remove the outlet); string shorthand values of the outlets map are
represented pre-split into command lists. -/
inductive NavCommand : Type where
  | str (s : String)
  | num (n : Int)
  | matrix (params : List (String × String))
  | outlets (m : List (String × Option (List NavCommand)))
  | segmentPath (s : String)

/-- Embeds `isMatrixParams` (router.js line 2573): an object that has
neither `outlets` nor `segmentPath`. -/
def isMatrixParams : NavCommand → Bool
  | .matrix _ => true
  | _ => false

/-- Whether a command is an outlets object. -/
def isOutletsCmd : NavCommand → Bool
  | .outlets _ => true
  | _ => false

/-- Embeds `getPath` (router.js line 2739).  `none` is the JS undefined
read of a missing primary entry of an outlets object; a present primary
entry holds a command list, which the string-typed callers never receive
from normalized commands and which is embedded as the empty string; other
objects stringify the JS way. -/
def getPath : NavCommand → Option String
  | .outlets m =>
    match m.lookup PRIMARY_OUTLET with
    | none => none
    | some _ => some ""
  | .str s => some s
  | .num n => some (toString n)
  | .matrix _ => some "[object Object]"
  | .segmentPath _ => some "[object Object]"

/-- Embeds class Navigation (router.js line 2614). -/
structure Navigation where
  isAbsolute : Bool
  numberOfDoubleDots : Nat
  commands : List NavCommand

/-- Embeds the Navigation constructor checks (router.js lines 2624 to
2630).  The source compares the first outlets command with the last
command by object identity; here the first outlets command must sit at the
last position. -/
def mkNavigation (isAbsolute : Bool) (numberOfDoubleDots : Nat)
    (commands : List NavCommand) : Except String Navigation :=
  if isAbsolute && commands.length > 0 &&
      (match commands.head? with
       | some c => isMatrixParams c
       | none => false) then
    .error "Root segment cannot have matrix parameters"
  else
    match commands.findIdx? isOutletsCmd with
    | some i =>
      if !(i == commands.length - 1) then
        .error "\x7boutlets:\x7b\x7d\x7d has to be the last command"
      else .ok ⟨isAbsolute, numberOfDoubleDots, commands⟩
    | none => .ok ⟨isAbsolute, numberOfDoubleDots, commands⟩

/-- Embeds `toRoot` (router.js line 2635): absolute with the single
command the string slash. -/
def Navigation.toRoot (nav : Navigation) : Bool :=
  nav.isAbsolute && nav.commands.length = 1 &&
  (match nav.commands.head? with
   | some (.str s) => s = "/"
   | _ => false)

/-- Processing of the first string command by `computeNavigation`
(router.js lines 2666 to 2680): split on slashes; a leading dot is
dropped, a leading empty part makes the navigation absolute, every
double-dot part counts, other non-empty parts become commands. -/
def processFirstString (s : String) : Bool × Nat × List NavCommand :=
  let parts := splitOnChar '/' s
  let step := fun (acc : Bool × Nat × List NavCommand × Nat) (urlPart : String) =>
    let (isAbs, dd, res, partIndex) := acc
    if partIndex = 0 && urlPart = "." then (isAbs, dd, res, partIndex + 1)
    else if partIndex = 0 && urlPart = "" then (true, dd, res, partIndex + 1)
    else if urlPart = ".." then (isAbs, dd + 1, res, partIndex + 1)
    else if !(urlPart = "") then (isAbs, dd, res ++ [.str urlPart], partIndex + 1)
    else (isAbs, dd, res, partIndex + 1)
  let (isAbs, dd, res, _) := parts.foldl step (false, 0, [], 0)
  (isAbs, dd, res)

/-- The outlets-map normalization of `computeNavigation` (router.js lines
2652 to 2657): string shorthand values are split into command lists; in
this embedding outlets values are already command lists, so the map is
unchanged. -/
def normalizeOutlets (m : List (String × Option (List NavCommand))) :
    List (String × Option (List NavCommand)) := m

/-- The reduce of `computeNavigation` (router.js lines 2650 to 2683). -/
def computeNavigationGeneral (commands : List NavCommand) : Except String Navigation :=
  let step := fun (acc : Bool × Nat × List NavCommand × Nat) (cmd : NavCommand) =>
    let (isAbs, dd, res, cmdIdx) := acc
    match cmd with
    | .outlets m => (isAbs, dd, res ++ [.outlets (normalizeOutlets m)], cmdIdx + 1)
    | .segmentPath s => (isAbs, dd, res ++ [.str s], cmdIdx + 1)
    | .num n => (isAbs, dd, res ++ [.num n], cmdIdx + 1)
    | .matrix p => (isAbs, dd, res ++ [.matrix p], cmdIdx + 1)
    | .str s =>
      if cmdIdx = 0 then
        let (isAbs2, dd2, res2) := processFirstString s
        (isAbs || isAbs2, dd + dd2, res ++ res2, cmdIdx + 1)
      else (isAbs, dd, res ++ [.str s], cmdIdx + 1)
  let (isAbs, dd, res, _) := commands.foldl step (false, 0, [], 0)
  mkNavigation isAbs dd res

/-- Embeds `computeNavigation` (router.js line 2644). -/
def computeNavigation (commands : List NavCommand) : Except String Navigation :=
  match commands with
  | [.str s] =>
    if s = "/" then mkNavigation true 0 [.str s]
    else computeNavigationGeneral commands
  | _ => computeNavigationGeneral commands

/-- Embeds class Position (router.js line 2686); the `segmentGroup` field
keeps the group at which editing starts. -/
structure Position where
  segmentGroup : UrlSegmentGroup
  processChildren : Bool
  index : Nat

/-- Embeds `createPositionApplyingDoubleDots` (router.js line 2721): walk
up the parent chain while the double-dot count exceeds the index; a null
parent throws. -/
def createPositionApplyingDoubleDots (g : UrlSegmentGroup)
    (parents : List UrlSegmentGroup) (ci : Nat) (dd : Nat) :
    Except String Position :=
  if dd > ci then
    match parents with
    | [] => .error "Invalid number of \x27../\x27"
    | p :: rest =>
      createPositionApplyingDoubleDots p rest p.segments.length (dd - ci)
  else .ok ⟨g, false, ci - dd⟩

/-- The slice of an ActivatedRoute used by createUrlTree: the snapshot
fields `_urlSegment` (with its ancestor chain standing for the parent
pointers) and `_lastPathIndex`. -/
structure ActivatedRouteModel where
  urlSegment : UrlSegmentGroup
  urlSegmentParents : List UrlSegmentGroup
  lastPathIndex : Int

/-- Embeds `findStartingPosition` (router.js line 2704). -/
def findStartingPosition (nav : Navigation) (urlTree : UrlTree)
    (route : ActivatedRouteModel) : Except String Position :=
  if nav.isAbsolute then .ok ⟨urlTree.root, true, 0⟩
  else if route.lastPathIndex = -1 then .ok ⟨route.urlSegment, true, 0⟩
  else
    let modifier : Int :=
      if (match nav.commands.head? with
          | some c => isMatrixParams c
          | none => false) then 0 else 1
    let index := route.lastPathIndex + modifier
    createPositionApplyingDoubleDots route.urlSegment route.urlSegmentParents
      index.toNat nav.numberOfDoubleDots

/-- Embeds `shallowEqual` (router.js line 324) for string maps; the
association lists have distinct keys, modelling JS objects. -/
def shallowEqualParams (a b : List (String × String)) : Bool :=
  a.length == b.length && a.all (fun kv => b.lookup kv.1 == some kv.2)

/-- Embeds `compare` (router.js line 2910). -/
def compare (path : String) (params : List (String × String))
    (segment : UrlSegment) : Bool :=
  path == segment.path && shallowEqualParams params segment.parameters

/-- Result record of `prefixedWith` (router.js line 2822). -/
structure PrefixMatch where
  matched : Bool
  pathIndex : Nat
  commandIndex : Nat
deriving DecidableEq, Repr

/-- The while loop of `prefixedWith` (router.js lines 2826 to 2845).  A
segmentPath object in `next` position cannot occur: computeNavigation has
already replaced those by strings. -/
def prefixedWithLoop (fuel : Nat) (segs : List UrlSegment) (commands : List NavCommand)
    (cpi cci : Nat) : PrefixMatch :=
  match fuel with
  | 0 => ⟨false, 0, 0⟩
  | f + 1 =>
    if h : cpi < segs.length then
      if cci ≥ commands.length then ⟨false, 0, 0⟩
      else
        let path := segs.get ⟨cpi, h⟩
        let curr := (commands[cci]?).bind getPath
        let next := if cci < commands.length - 1 then commands[cci + 1]? else none
        if cpi > 0 && curr.isNone then ⟨true, cpi, cci⟩
        else
          match next with
          | some (.matrix ps) =>
            if truthyStr curr then
              if compare (curr.getD "") ps path then
                prefixedWithLoop f segs commands (cpi + 1) (cci + 2)
              else ⟨false, 0, 0⟩
            else
              if compare (curr.getD "") [] path then
                prefixedWithLoop f segs commands (cpi + 1) (cci + 1)
              else ⟨false, 0, 0⟩
          | _ =>
            if compare (curr.getD "") [] path then
              prefixedWithLoop f segs commands (cpi + 1) (cci + 1)
            else ⟨false, 0, 0⟩
    else ⟨true, cpi, cci⟩
termination_by structural fuel

/-- Embeds `prefixedWith` (router.js line 2822).  The loop runs at most
once per segment past the start index, so segments.length + 1 steps of
fuel always complete it. -/
def prefixedWith (segmentGroup : UrlSegmentGroup) (startIndex : Nat)
    (commands : List NavCommand) : PrefixMatch :=
  prefixedWithLoop (segmentGroup.segments.length + 1) segmentGroup.segments
    commands startIndex 0

/-- Embeds `stringify` (router.js line 2899); matrix values are already
strings in this embedding. -/
def stringify (params : List (String × String)) : List (String × String) :=
  params

/-- Embeds `getOutlets` (router.js line 2749). -/
def getOutlets (commands : List NavCommand) :
    List (String × Option (List NavCommand)) :=
  match commands.head? with
  | some (.outlets m) => m
  | _ => [(PRIMARY_OUTLET, some commands)]

/-- The second forEach of `updateSegmentGroupChildren` (router.js lines
2808 to 2812): children of the group whose outlet is absent from the
outlets object (a null entry counts as present) are kept. -/
def keepUntouchedChildren (children : UrlChildren)
    (outlets : List (String × Option (List NavCommand))) : UrlChildren :=
  match children with
  | .nil => .nil
  | .cons n g r =>
    if (outlets.lookup n).isNone then .cons n g (keepUntouchedChildren r outlets)
    else keepUntouchedChildren r outlets

mutual
/-- Embeds `updateSegmentGroup` (router.js line 2762). -/
def updateSegmentGroup (fuel : Nat) (segmentGroup : Option UrlSegmentGroup)
    (startIndex : Nat) (commands : List NavCommand) :
    Except String UrlSegmentGroup :=
  match fuel with
  | 0 => .error "out of fuel"
  | f + 1 =>
    let g := segmentGroup.getD (.mk [] .nil)
    if g.segments.length = 0 && g.hasChildren then
      updateSegmentGroupChildren f g startIndex commands
    else
      let m := prefixedWith g startIndex commands
      let slicedCommands := commands.drop m.commandIndex
      if m.matched && m.pathIndex < g.segments.length then
        let g2 : UrlSegmentGroup := .mk (g.segments.take m.pathIndex)
          (.cons PRIMARY_OUTLET (.mk (g.segments.drop m.pathIndex) g.children) .nil)
        updateSegmentGroupChildren f g2 0 slicedCommands
      else if m.matched && slicedCommands.length = 0 then
        .ok (.mk g.segments .nil)
      else if m.matched && !g.hasChildren then
        createNewSegmentGroup f g startIndex commands
      else if m.matched then
        updateSegmentGroupChildren f g 0 slicedCommands
      else
        createNewSegmentGroup f g startIndex commands
termination_by structural fuel
/-- Embeds `updateSegmentGroupChildren` (router.js line 2796). -/
def updateSegmentGroupChildren (fuel : Nat) (segmentGroup : UrlSegmentGroup)
    (startIndex : Nat) (commands : List NavCommand) :
    Except String UrlSegmentGroup :=
  match fuel with
  | 0 => .error "out of fuel"
  | f + 1 =>
    if commands.length = 0 then .ok (.mk segmentGroup.segments .nil)
    else
      let outlets := getOutlets commands
      do
        let children1 ← buildOutletChildren f segmentGroup startIndex outlets
        let children2 := keepUntouchedChildren segmentGroup.children outlets
        .ok (.mk segmentGroup.segments (children1.append children2))
termination_by structural fuel
/-- The first forEach of `updateSegmentGroupChildren` (router.js lines
2803 to 2807): build a child for each non-null outlets entry, in order. -/
def buildOutletChildren (fuel : Nat) (segmentGroup : UrlSegmentGroup)
    (startIndex : Nat) (outlets : List (String × Option (List NavCommand))) :
    Except String UrlChildren :=
  match fuel with
  | 0 => .error "out of fuel"
  | f + 1 =>
    match outlets with
    | [] => .ok .nil
    | (outlet, cmds?) :: rest =>
      match cmds? with
      | none => buildOutletChildren f segmentGroup startIndex rest
      | some cmds => do
        let child ← updateSegmentGroup f (segmentGroup.children.lookup outlet)
          startIndex cmds
        let restChildren ← buildOutletChildren f segmentGroup startIndex rest
        .ok (.cons outlet child restChildren)
termination_by structural fuel
/-- Embeds `createNewSegmentGroup` (router.js line 2854). -/
def createNewSegmentGroup (fuel : Nat) (segmentGroup : UrlSegmentGroup)
    (startIndex : Nat) (commands : List NavCommand) :
    Except String UrlSegmentGroup :=
  match fuel with
  | 0 => .error "out of fuel"
  | f + 1 =>
    createNewSegmentGroupLoop f segmentGroup startIndex commands 0
      (segmentGroup.segments.take startIndex)
termination_by structural fuel
/-- The while loop of `createNewSegmentGroup` (router.js lines 2856 to
2879).  Reading a missing segment for a leading matrix-params command is
the JS TypeError. -/
def createNewSegmentGroupLoop (fuel : Nat) (segmentGroup : UrlSegmentGroup)
    (startIndex : Nat) (commands : List NavCommand) (i : Nat)
    (paths : List UrlSegment) : Except String UrlSegmentGroup :=
  match fuel with
  | 0 => .error "out of fuel"
  | f + 1 =>
    if i < commands.length then
      match commands[i]? with
      | none => .ok (.mk paths .nil)
      | some cmd =>
        match cmd with
        | .outlets m => do
          let children ← createNewSegmentChildren f m
          .ok (.mk paths children)
        | _ =>
          if i = 0 && (match commands.head? with
                       | some c => isMatrixParams c
                       | none => false) then
            match segmentGroup.segments[startIndex]? with
            | none => .error "TypeError: cannot read properties of undefined"
            | some p =>
              let ps := match commands.head? with
                | some (.matrix mp) => mp
                | _ => []
              createNewSegmentGroupLoop f segmentGroup startIndex commands (i + 1)
                (paths ++ [⟨p.path, ps⟩])
          else
            let curr := getPath cmd
            let next := if i < commands.length - 1 then commands[i + 1]? else none
            match next with
            | some (.matrix mp) =>
              if truthyStr curr then
                createNewSegmentGroupLoop f segmentGroup startIndex commands (i + 2)
                  (paths ++ [⟨curr.getD "", stringify mp⟩])
              else
                createNewSegmentGroupLoop f segmentGroup startIndex commands (i + 1)
                  (paths ++ [⟨curr.getD "", []⟩])
            | _ =>
              createNewSegmentGroupLoop f segmentGroup startIndex commands (i + 1)
                (paths ++ [⟨curr.getD "", []⟩])
    else .ok (.mk paths .nil)
termination_by structural fuel
/-- Embeds `createNewSegmentChildren` (router.js line 2886). -/
def createNewSegmentChildren (fuel : Nat)
    (outlets : List (String × Option (List NavCommand))) :
    Except String UrlChildren :=
  match fuel with
  | 0 => .error "out of fuel"
  | f + 1 =>
    match outlets with
    | [] => .ok .nil
    | (outlet, cmds?) :: rest =>
      match cmds? with
      | none => createNewSegmentChildren f rest
      | some cmds => do
        let g ← createNewSegmentGroup f (.mk [] .nil) 0 cmds
        let r ← createNewSegmentChildren f rest
        .ok (.cons outlet g r)
termination_by structural fuel
end

mutual
/-- Embeds `replaceSegment` (router.js line 2602).  The source replaces by
object identity; here by structural equality. -/
def replaceSegment (current oldSegment newSegment : UrlSegmentGroup) :
    UrlSegmentGroup :=
  match current with
  | .mk segs cs => .mk segs (replaceChildren cs oldSegment newSegment)
/-- Children map of `replaceSegment`. -/
def replaceChildren (cs : UrlChildren) (oldSegment newSegment : UrlSegmentGroup) :
    UrlChildren :=
  match cs with
  | .nil => .nil
  | .cons n c r =>
    if c.beq oldSegment then .cons n newSegment (replaceChildren r oldSegment newSegment)
    else .cons n (replaceSegment c oldSegment newSegment)
      (replaceChildren r oldSegment newSegment)
end

/-- Embeds `tree` (router.js line 2584); query param values are already
strings in this embedding, so the stringifying copy is the map itself. -/
def tree (oldSegmentGroup newSegmentGroup : UrlSegmentGroup)
    (urlTree : UrlTree) (queryParams : Option QueryParams)
    (fragment : Option String) : UrlTree :=
  let qp : QueryParams :=
    match queryParams with
    | none => []
    | some q => q
  if urlTree.root.beq oldSegmentGroup then ⟨newSegmentGroup, qp, fragment⟩
  else ⟨replaceSegment urlTree.root oldSegmentGroup newSegmentGroup, qp, fragment⟩

/-- Embeds `createUrlTree` (router.js line 2555).  The fuel bounds the
rewrite recursion; the concrete theorems pass a sufficient value. -/
def createUrlTree (fuel : Nat) (route : ActivatedRouteModel) (urlTree : UrlTree)
    (commands : List NavCommand) (queryParams : Option QueryParams)
    (fragment : Option String) : Except String UrlTree :=
  if commands.length = 0 then
    .ok (tree urlTree.root urlTree.root urlTree queryParams fragment)
  else do
    let nav ← computeNavigation commands
    if nav.toRoot then
      .ok (tree urlTree.root (.mk [] .nil) urlTree queryParams fragment)
    else do
      let startingPosition ← findStartingPosition nav urlTree route
      let segmentGroup ←
        if startingPosition.processChildren then
          updateSegmentGroupChildren fuel startingPosition.segmentGroup
            startingPosition.index nav.commands
        else
          updateSegmentGroup fuel (some startingPosition.segmentGroup)
            startingPosition.index nav.commands
      .ok (tree startingPosition.segmentGroup segmentGroup urlTree queryParams fragment)

end CreateUrlTree

/-! ## Recognizer (router.js lines 2921 to 3281)

Custom matcher functions are outside the model (routes carry only the
presence bit), and the `_sourceSegment` / `_segmentIndexShift` bookkeeping
of `split$1` is dropped together with the ARS fields `_urlSegment` and
`_lastPathIndex` it feeds (those fields are exercised through
`CreateUrlTree.ActivatedRouteModel`). -/

/-- Result of a url matcher: consumed segments and positional params. -/
structure UrlMatchResult where
  consumed : List UrlSegment
  posParams : List (String × UrlSegment)

/-- Loop of `defaultUrlMatcher` (router.js lines 275 to 288). -/
def defaultUrlMatcherLoop (parts : List String) (segments : List UrlSegment)
    (currentIndex : Nat) (posParams : List (String × UrlSegment))
    (consumed : List UrlSegment) :
    Option (List (String × UrlSegment) × List UrlSegment × Nat) :=
  match parts with
  | [] => some (posParams, consumed, currentIndex)
  | p :: rest =>
    match segments[currentIndex]? with
    | none => none
    | some current =>
      let isPosParam := strStartsWith p ":"
      if !isPosParam && !(p == current.path) then none
      else
        let posParams2 :=
          if isPosParam then posParams ++ [(p.drop 1, current)] else posParams
        defaultUrlMatcherLoop rest segments (currentIndex + 1) posParams2
          (consumed ++ [current])

/-- Embeds `defaultUrlMatcher` (router.js line 269); an absent path matches
the empty string, as the JS template would. -/
def defaultUrlMatcher (segments : List UrlSegment) (segmentGroup : UrlSegmentGroup)
    (route : Route) : Option UrlMatchResult :=
  let parts := splitOnChar '/' (route.path.getD "")
  match defaultUrlMatcherLoop parts segments 0 [] [] with
  | none => none
  | some (posParams, consumed, currentIndex) =>
    if route.pathMatch == some "full" &&
        (segmentGroup.hasChildren || currentIndex < segments.length) then none
    else some ⟨consumed, posParams⟩

/-- Embeds `merge` (router.js line 378): the first map copied, then the
second assigned over it. -/
def mergeParams (m1 m2 : List (String × String)) : List (String × String) :=
  m2.foldl (fun acc kv => assignParam acc kv.1 kv.2) m1

namespace Recognizer

/-- Recognition failures: the internal NoMatch signal or a thrown error. -/
inductive RecError : Type where
  | noMatch
  | fail (msg : String)

/-- Message carried by a recognition failure once it escapes `recognize`
(a NoMatch object stringifies as an object). -/
def RecError.message : RecError → String
  | .noMatch => "[object Object]"
  | .fail msg => msg

/-- Embeds ActivatedRouteSnapshot as built by the recognizer (router.js
line 3046); `_urlSegment`, `_lastPathIndex` and `_resolve` are dropped. -/
structure ActivatedRouteSnapshot where
  url : List UrlSegment
  params : List (String × String)
  queryParams : QueryParams
  fragment : Option String
  data : List (String × String)
  outlet : String
  component : Option String
  routeConfig : Option Route

/-- Tree of snapshots (the TreeNode shape of router.js). -/
inductive ARSTree : Type where
  | node (value : ActivatedRouteSnapshot) (children : List ARSTree)

/-- Value of a tree node. -/
def ARSTree.value : ARSTree → ActivatedRouteSnapshot
  | .node v _ => v

/-- Children of a tree node. -/
def ARSTree.childNodes : ARSTree → List ARSTree
  | .node _ cs => cs

/-- Embeds `getOutlet$2` (router.js line 3265): the outlet or primary when
falsy. -/
def getOutlet (route : Route) : String :=
  match route.outlet with
  | some o => if o == "" then PRIMARY_OUTLET else o
  | none => PRIMARY_OUTLET

/-- Result of `match$1` (router.js line 3101). -/
structure MatchResult where
  consumedSegments : List UrlSegment
  lastChild : Nat
  parameters : List (String × String)

/-- Embeds `match$1` (router.js line 3101). -/
def matchRoute (segmentGroup : UrlSegmentGroup) (route : Route)
    (segments : List UrlSegment) : Except RecError MatchResult :=
  if route.path == some "" then
    if route.pathMatch == some "full" &&
        (segmentGroup.hasChildren || segments.length > 0) then
      .error .noMatch
    else .ok ⟨[], 0, []⟩
  else if route.matcher then .error .noMatch
  else
    match defaultUrlMatcher segments segmentGroup route with
    | none => .error .noMatch
    | some res =>
      let posParams := res.posParams.map (fun kv => (kv.1, kv.2.path))
      let lastParams :=
        match res.consumed.getLast? with
        | some s => s.parameters
        | none => []
      .ok ⟨res.consumed, res.consumed.length, mergeParams posParams lastParams⟩

/-- Embeds the recognizer `getChildConfig` (router.js line 3084); reading
`.routes` of an unset `_loadedConfig` is the JS TypeError. -/
def getChildConfig (route : Route) : Except RecError (List Route) :=
  match route.children with
  | some cs => .ok cs
  | none =>
    if route.loadChildren then
      match route.loadedConfig with
      | some cfg => .ok cfg.1
      | none => .error (.fail "TypeError: cannot read routes of undefined")
    else .ok []

/-- Embeds `emptyPathMatch` (router.js line 3256). -/
def emptyPathMatch (segmentGroup : UrlSegmentGroup)
    (slicedSegments : List UrlSegment) (r : Route) : Bool :=
  if (segmentGroup.hasChildren || slicedSegments.length > 0) &&
      r.pathMatch == some "full" then false
  else r.path == some "" && r.redirectTo.isNone

/-- Embeds `containsEmptyPathMatchesWithNamedOutlets` (router.js line
3235). -/
def containsEmptyPathMatchesWithNamedOutlets (segmentGroup : UrlSegmentGroup)
    (slicedSegments : List UrlSegment) (routes : List Route) : Bool :=
  (routes.filter fun r =>
    emptyPathMatch segmentGroup slicedSegments r &&
    !(getOutlet r == PRIMARY_OUTLET)).length > 0

/-- Embeds `containsEmptyPathMatches` (router.js line 3247). -/
def containsEmptyPathMatches (segmentGroup : UrlSegmentGroup)
    (slicedSegments : List UrlSegment) (routes : List Route) : Bool :=
  (routes.filter fun r => emptyPathMatch segmentGroup slicedSegments r).length > 0

/-- JS `merge` of two children objects: the first copied, the second
assigned over it. -/
def mergeChildren (m1 m2 : UrlChildren) : UrlChildren :=
  match m2 with
  | .nil => m1
  | .cons n g r => mergeChildren (m1.assign n g) r

/-- Embeds `addEmptyPathsToChildrenIfNeeded` (router.js line 3195). -/
def addEmptyPathsToChildrenIfNeeded (segmentGroup : UrlSegmentGroup)
    (slicedSegments : List UrlSegment) (routes : List Route)
    (children : UrlChildren) : UrlChildren :=
  let res := routes.foldl
    (fun acc r =>
      if emptyPathMatch segmentGroup slicedSegments r &&
          (children.lookup (getOutlet r)).isNone then
        acc.assign (getOutlet r) (.mk [] .nil)
      else acc)
    UrlChildren.nil
  mergeChildren children res

/-- Embeds `createChildrenForEmptyPaths` (router.js line 3214). -/
def createChildrenForEmptyPaths (routes : List Route)
    (primarySegment : UrlSegmentGroup) : UrlChildren :=
  routes.foldl
    (fun acc r =>
      if r.path == some "" && !(getOutlet r == PRIMARY_OUTLET) then
        acc.assign (getOutlet r) (.mk [] .nil)
      else acc)
    (UrlChildren.cons PRIMARY_OUTLET primarySegment .nil)

/-- Result of `split$1`. -/
structure SplitResult where
  segmentGroup : UrlSegmentGroup
  slicedSegments : List UrlSegment

/-- Embeds `split$1` (router.js line 3166) without the source-segment
bookkeeping. -/
def splitRec (segmentGroup : UrlSegmentGroup) (consumedSegments : List UrlSegment)
    (slicedSegments : List UrlSegment) (config : List Route) : SplitResult :=
  if slicedSegments.length > 0 &&
      containsEmptyPathMatchesWithNamedOutlets segmentGroup slicedSegments config then
    ⟨.mk consumedSegments
      (createChildrenForEmptyPaths config (.mk slicedSegments segmentGroup.children)),
     []⟩
  else if slicedSegments.length = 0 &&
      containsEmptyPathMatches segmentGroup slicedSegments config then
    ⟨.mk segmentGroup.segments
      (addEmptyPathsToChildrenIfNeeded segmentGroup slicedSegments config
        segmentGroup.children),
     slicedSegments⟩
  else ⟨.mk segmentGroup.segments segmentGroup.children, slicedSegments⟩

/-- Loop of `checkOutletNameUniqueness` (router.js line 3123) with its
accumulated names map. -/
def checkOutletNameUniquenessLoop (nodes : List ARSTree)
    (names : List (String × ActivatedRouteSnapshot)) : Except RecError Unit :=
  match nodes with
  | [] => .ok ()
  | n :: rest =>
    match names.lookup n.value.outlet with
    | some prev =>
      .error (.fail ("Two segments cannot have the same outlet name: \x27" ++
        String.intercalate "/" (prev.url.map serializePath) ++
        "\x27 and \x27" ++
        String.intercalate "/" (n.value.url.map serializePath) ++ "\x27."))
    | none =>
      checkOutletNameUniquenessLoop rest (names ++ [(n.value.outlet, n.value)])

/-- Embeds `checkOutletNameUniqueness` (router.js line 3123). -/
def checkOutletNameUniqueness (nodes : List ARSTree) : Except RecError Unit :=
  checkOutletNameUniquenessLoop nodes []

/-- Comparator of `sortActivatedRouteSnapshots` (router.js line 3071):
primary first, then outlet names in order. -/
def snapshotCmpLe (a b : ARSTree) : Bool :=
  if a.value.outlet == PRIMARY_OUTLET then true
  else if b.value.outlet == PRIMARY_OUTLET then false
  else a.value.outlet ≤ b.value.outlet

/-- Stable insertion for the sort. -/
def insertSorted (x : ARSTree) : List ARSTree → List ARSTree
  | [] => [x]
  | y :: r => if snapshotCmpLe y x then y :: insertSorted x r else x :: y :: r

/-- Embeds `sortActivatedRouteSnapshots` (router.js line 3071) as a stable
sort under the source comparator. -/
def sortActivatedRouteSnapshots (nodes : List ARSTree) : List ARSTree :=
  nodes.foldl (fun acc x => insertSorted x acc) []

/-- Embeds `noLeftoversInUrl` (router.js line 3029). -/
def noLeftoversInUrl (segmentGroup : UrlSegmentGroup)
    (segments : List UrlSegment) (outlet : String) : Bool :=
  segments.length = 0 && (segmentGroup.children.lookup outlet).isNone

mutual
/-- Embeds `Recognizer.processSegmentGroup` (router.js line 2980). -/
def processSegmentGroup (fuel : Nat) (config : List Route)
    (segmentGroup : UrlSegmentGroup) (outlet : String) (qp : QueryParams)
    (frag : Option String) : Except RecError (List ARSTree) :=
  match fuel with
  | 0 => .error (.fail "out of fuel")
  | f + 1 =>
    if segmentGroup.segments.length = 0 && segmentGroup.hasChildren then
      processChildren f config segmentGroup qp frag
    else
      processSegment f config segmentGroup segmentGroup.segments outlet qp frag
termination_by structural fuel
/-- Embeds `Recognizer.processChildren` (router.js line 2993): children
mapped primary first, the outlet-uniqueness check and the sort. -/
def processChildren (fuel : Nat) (config : List Route)
    (segmentGroup : UrlSegmentGroup) (qp : QueryParams) (frag : Option String) :
    Except RecError (List ARSTree) :=
  match fuel with
  | 0 => .error (.fail "out of fuel")
  | f + 1 => do
    let primaryNodes ← processChildrenPass f config segmentGroup.children true qp frag
    let namedNodes ← processChildrenPass f config segmentGroup.children false qp frag
    let children := primaryNodes ++ namedNodes
    match checkOutletNameUniqueness children with
    | .error e => .error e
    | .ok _ => .ok (sortActivatedRouteSnapshots children)
termination_by structural fuel
/-- One pass of `mapChildrenIntoArray` over the children (router.js line
816): the primary entries or the named entries, in insertion order. -/
def processChildrenPass (fuel : Nat) (config : List Route) (cs : UrlChildren)
    (primaryPass : Bool) (qp : QueryParams) (frag : Option String) :
    Except RecError (List ARSTree) :=
  match fuel with
  | 0 => .error (.fail "out of fuel")
  | f + 1 =>
    match cs with
    | .nil => .ok []
    | .cons n g r =>
      let selected := if primaryPass then n == PRIMARY_OUTLET else !(n == PRIMARY_OUTLET)
      if selected then do
        let nodes ← processSegmentGroup f config g n qp frag
        let rest ← processChildrenPass f config r primaryPass qp frag
        .ok (nodes ++ rest)
      else processChildrenPass f config r primaryPass qp frag
termination_by structural fuel
/-- Embeds `Recognizer.processSegment` (router.js line 3006): first route
that does not signal NoMatch wins; if none matches, an exhausted group
with no leftovers yields no snapshots, otherwise NoMatch. -/
def processSegment (fuel : Nat) (config : List Route)
    (segmentGroup : UrlSegmentGroup) (segments : List UrlSegment)
    (outlet : String) (qp : QueryParams) (frag : Option String) :
    Except RecError (List ARSTree) :=
  match fuel with
  | 0 => .error (.fail "out of fuel")
  | f + 1 =>
    match config with
    | [] =>
      if noLeftoversInUrl segmentGroup segments outlet then .ok []
      else .error .noMatch
    | r :: rest =>
      match processSegmentAgainstRoute f r segmentGroup segments outlet qp frag with
      | .ok res => .ok res
      | .error .noMatch => processSegment f rest segmentGroup segments outlet qp frag
      | .error e => .error e
termination_by structural fuel
/-- Embeds `Recognizer.processSegmentAgainstRoute` (router.js line 3039). -/
def processSegmentAgainstRoute (fuel : Nat) (route : Route)
    (rawSegment : UrlSegmentGroup) (segments : List UrlSegment) (outlet : String)
    (qp : QueryParams) (frag : Option String) : Except RecError (List ARSTree) :=
  match fuel with
  | 0 => .error (.fail "out of fuel")
  | f + 1 =>
    if truthyStr route.redirectTo then .error .noMatch
    else if !(getOutlet route == outlet) then .error .noMatch
    else if route.path == some "**" then
      let params :=
        if segments.length > 0 then
          (match segments.getLast? with
           | some s => s.parameters
           | none => [])
        else []
      .ok [.node ⟨segments, params, qp, frag, route.data, outlet,
        route.component, some route⟩ []]
    else do
      let m ← matchRoute rawSegment route segments
      let rawSlicedSegments := segments.drop m.lastChild
      let childConfig ← getChildConfig route
      let sr := splitRec rawSegment m.consumedSegments rawSlicedSegments childConfig
      let snapshot : ActivatedRouteSnapshot :=
        ⟨m.consumedSegments, m.parameters, qp, frag, route.data, outlet,
         route.component, some route⟩
      if sr.slicedSegments.length = 0 && sr.segmentGroup.hasChildren then do
        let children ← processChildren f childConfig sr.segmentGroup qp frag
        .ok [.node snapshot children]
      else if childConfig.length = 0 && sr.slicedSegments.length = 0 then
        .ok [.node snapshot []]
      else do
        let children ← processSegment f childConfig sr.segmentGroup
          sr.slicedSegments PRIMARY_OUTLET qp frag
        .ok [.node snapshot children]
termination_by structural fuel
end

/-- Loop finding `inheritingStartingFrom` in `inheritedParamsDataResolve`
(router.js lines 2223 to 2239). -/
def inheritStartLoop (pathToRoot : List ActivatedRouteSnapshot) (i : Nat) : Nat :=
  if i ≥ 1 then
    match pathToRoot[i]?, pathToRoot[i - 1]? with
    | some current, some parent =>
      if (match current.routeConfig with
          | some rc => rc.path == some ""
          | none => false) then inheritStartLoop pathToRoot (i - 1)
      else if parent.component.isNone then inheritStartLoop pathToRoot (i - 1)
      else i
    | _, _ => i
  else i

/-- Embeds the reduce of `inheritedParamsDataResolve` (router.js lines
2240 to 2246), restricted to params and data. -/
def inheritedParamsDataResolve (pathToRoot : List ActivatedRouteSnapshot) :
    List (String × String) × List (String × String) :=
  let start := inheritStartLoop pathToRoot (pathToRoot.length - 1)
  (pathToRoot.drop start).foldl
    (fun acc curr => (mergeParams acc.1 curr.params, mergeParams acc.2 curr.data))
    ([], [])

/-- Embeds `inheriteParamsAndData` (router.js line 2967): each node gets
the merged params and data of its inheritance chain; children see the
updated ancestors. -/
def inheritTree (fuel : Nat) (ancestors : List ActivatedRouteSnapshot)
    (t : ARSTree) : ARSTree :=
  match fuel with
  | 0 => t
  | f + 1 =>
    match t with
    | .node v cs =>
      let (params, data) := inheritedParamsDataResolve (ancestors ++ [v])
      let v2 := { v with params := params, data := data }
      .node v2 (cs.map (inheritTree f (ancestors ++ [v2])))

/-- Embeds RouterStateSnapshot (router.js line 2291) as its url and root
node. -/
structure RouterStateSnapshot where
  url : String
  root : ARSTree

/-- Embeds `Recognizer.recognize` (router.js line 2949). -/
def recognize (fuel : Nat) (rootComponentType : Option String)
    (config : List Route) (urlTree : UrlTree) (url : String) :
    Except RecError RouterStateSnapshot := do
  let rootSegmentGroup := (splitRec urlTree.root [] [] config).segmentGroup
  let children ← processSegmentGroup fuel config rootSegmentGroup PRIMARY_OUTLET
    urlTree.queryParams urlTree.fragment
  let root : ActivatedRouteSnapshot :=
    ⟨[], [], urlTree.queryParams, urlTree.fragment, [], PRIMARY_OUTLET,
     rootComponentType, none⟩
  .ok ⟨url, inheritTree fuel [] (.node root children)⟩

end Recognizer

/-! ## The UrlSegmentGroup constructor and its parent pointers
(router.js lines 703 to 714, part_000 lines 206 to 219)

The mutation `forEach(children, v => v.parent = this)` needs object
identity, so it is modelled on a heap: nodes live at indices of a list,
children maps hold indices, and construction appends a node and overwrites
the parent field of its children. -/

namespace SGHeap

/-- A segment group node in the heap: segments, children as (outlet name,
node id) pairs, and the mutable parent pointer. -/
structure SGNode where
  segments : List UrlSegment
  children : List (String × Nat)
  parent : Option Nat
deriving DecidableEq, Repr

/-- The heap: node ids are list indices. -/
abbrev Heap := List SGNode

/-- Overwrite the parent field of the node at an id (no-op when absent). -/
def setParent (h : Heap) (cid pid : Nat) : Heap :=
  match h[cid]? with
  | some n => h.set cid ⟨n.segments, n.children, some pid⟩
  | none => h

/-- Embeds the UrlSegmentGroup constructor: allocate the node with parent
null, then set the parent of every child in the children map to the new
node. -/
def newUrlSegmentGroup (h : Heap) (segments : List UrlSegment)
    (children : List (String × Nat)) : Heap × Nat :=
  let id := h.length
  let h1 := h ++ [⟨segments, children, none⟩]
  (children.foldl (fun acc kv => setParent acc kv.2 id) h1, id)

/-- Bottom-up construction discipline: every constructor call takes its
children from the current roots (groups not yet installed in a parent),
each at most once.  The parser and the tree rewrites build their result
trees this way. -/
inductive Built : Heap → List Nat → Prop where
  | nil : Built [] []
  | node {h : Heap} {roots : List Nat} (segments : List UrlSegment)
      (children : List (String × Nat))
      (hb : Built h roots)
      (hmem : ∀ kv ∈ children, kv.2 ∈ roots)
      (hnodup : (children.map Prod.snd).Nodup) :
      Built (newUrlSegmentGroup h segments children).1
        ((newUrlSegmentGroup h segments children).2 ::
          roots.filter (fun r => r ∉ children.map Prod.snd))

end SGHeap

end RouterSpec

namespace RouterSpec

/-! # Theorems -/

/-- Every guard list containing a literal-false result fails the
conjunction. -/
theorem andGuardResults_eq_false_of_mem_isFalse {gs : List GuardResult}
    (h : GuardResult.isFalse ∈ gs) : andGuardResults gs = false := by
  induction gs with
  | nil => cases h
  | cons g rest ih =>
    cases h with
    | head => simp [andGuardResults, isTrueResult]
    | tail _ hmem =>
      have hrest := ih hmem
      simp only [andGuardResults, List.all_cons] at hrest ⊢
      simp [hrest]

/-- Truthiness of the absent string. -/
theorem truthyStr_none : truthyStr none = false := rfl

/-- A truthy optional string is not `none`. -/
theorem eq_none_false_of_truthyStr (o : Option String) (h : truthyStr o = true) :
    (o = none) = False := by
  cases o with
  | none => simp [truthyStr] at h
  | some s => simp

/-- Setting the loaded config writes the slot. -/
theorem setLoadedConfig_loadedConfig (r : Route) (cfg : List Route × String) :
    (r.setLoadedConfig cfg).loadedConfig = some cfg := by
  cases r
  rfl

/-- C4: for a lazily loaded route guarded by canLoad whose config is not
yet loaded: if some guard returns false, getChildConfig fails with the
tagged NavigationCancelingError built by canLoadFails, the loader is not
invoked and the loadedConfig slot stays unset; if every guard returns the
literal true, the loader runs and its result is memoized on the route. -/
theorem C4_canLoad_guard (ngModule : String) (loaderResult : List Route × String)
    (route : Route) (gs : List GuardResult)
    (hchildren : route.children = none) (hload : route.loadChildren = true)
    (hcfg : route.loadedConfig = none) (hguards : route.canLoad = some gs) :
    (GuardResult.isFalse ∈ gs →
      (ApplyRedirects.getChildConfig ngModule loaderResult route).result =
        .error (ApplyRedirects.canLoadFails route) ∧
      isNavigationCancelingError (ApplyRedirects.canLoadFails route) = true ∧
      (ApplyRedirects.getChildConfig ngModule loaderResult route).loaderInvoked = false ∧
      (ApplyRedirects.getChildConfig ngModule loaderResult route).route.loadedConfig = none) ∧
    (andGuardResults gs = true →
      (ApplyRedirects.getChildConfig ngModule loaderResult route).result = .ok loaderResult ∧
      (ApplyRedirects.getChildConfig ngModule loaderResult route).loaderInvoked = true ∧
      (ApplyRedirects.getChildConfig ngModule loaderResult route).route.loadedConfig =
        some loaderResult) := by
  constructor
  · intro h
    have hne : gs ≠ [] := by
      intro he
      rw [he] at h
      cases h
    have hguard : ApplyRedirects.runCanLoadGuard route = false := by
      unfold ApplyRedirects.runCanLoadGuard
      rw [hguards]
      cases gs with
      | nil => exact absurd rfl hne
      | cons g rest =>
        simpa using andGuardResults_eq_false_of_mem_isFalse h
    unfold ApplyRedirects.getChildConfig
    rw [hchildren, hload, hcfg, hguard]
    simp [navigationCancelingError, isNavigationCancelingError,
      ApplyRedirects.canLoadFails, hcfg]
  · intro h
    have hguard : ApplyRedirects.runCanLoadGuard route = true := by
      unfold ApplyRedirects.runCanLoadGuard
      rw [hguards]
      cases gs with
      | nil => rfl
      | cons g rest => simpa using h
    unfold ApplyRedirects.getChildConfig
    rw [hchildren, hload, hcfg, hguard]
    simp [setLoadedConfig_loadedConfig]

/-- C4 (witness): a concrete lazy route with a failing guard, and one with
passing guards. -/
theorem C4_canLoad_guard_witness :
    ((ApplyRedirects.getChildConfig "root" ([], "child")
        (.mk (some "lazy") none none none none false none
          (some [GuardResult.isFalse]) true none none [])).loaderInvoked = false ∧
      (ApplyRedirects.getChildConfig "root" ([], "child")
        (.mk (some "lazy") none none none none false none
          (some [GuardResult.isFalse]) true none none [])).route.loadedConfig = none) ∧
    (ApplyRedirects.getChildConfig "root" ([], "child")
      (.mk (some "lazy") none none none none false none
        (some [GuardResult.isTrue, GuardResult.isTrue]) true none none
        [])).route.loadedConfig = some ([], "child") := by
  constructor
  · have h := (C4_canLoad_guard "root" ([], "child")
      (.mk (some "lazy") none none none none false none
        (some [GuardResult.isFalse]) true none none [])
      [GuardResult.isFalse] rfl rfl rfl rfl).1 (List.Mem.head _)
    exact ⟨h.2.2.1, h.2.2.2⟩
  · exact ((C4_canLoad_guard "root" ([], "child")
      (.mk (some "lazy") none none none none false none
        (some [GuardResult.isTrue, GuardResult.isTrue]) true none none [])
      [GuardResult.isTrue, GuardResult.isTrue] rfl rfl rfl rfl).2 rfl).2.2

/-- C6 (counterexample): the router.js validator accepts a route that
combines redirectTo with canActivate, so validation does not throw for
every such route. -/
theorem C6_counterexample :
    RouterJs.validateConfig 10
      [.mk (some "a") none (some "b") none none false (some []) none false
        none none []] "" = .ok () := by
  rfl

/-- C6 (amended): the router.js validator rejects redirectTo combined with
children, loadChildren or component, naming the full path; the esm2020
validator additionally rejects redirectTo combined with canActivate; and
the router.js validator accepts a plain redirectTo route (with or without
canActivate). -/
theorem C6_validation (f : Nat) (route : Route) (fullPath : String) :
    (route.outlet = none → truthyStr route.redirectTo = true →
      route.children.isSome = true →
      RouterJs.validateNode (f + 1) route fullPath =
        .error ("Invalid configuration of route \x27" ++ fullPath ++
          "\x27: redirectTo and children cannot be used together")) ∧
    (route.outlet = none → truthyStr route.redirectTo = true →
      route.children = none → route.loadChildren = true →
      RouterJs.validateNode (f + 1) route fullPath =
        .error ("Invalid configuration of route \x27" ++ fullPath ++
          "\x27: redirectTo and loadChildren cannot be used together")) ∧
    (route.outlet = none → truthyStr route.redirectTo = true →
      route.children = none → route.loadChildren = false →
      route.component.isSome = true →
      RouterJs.validateNode (f + 1) route fullPath =
        .error ("Invalid configuration of route \x27" ++ fullPath ++
          "\x27: redirectTo and component cannot be used together")) ∧
    (route.outlet = none → route.component = none → route.children = none →
      route.loadChildren = false → truthyStr route.redirectTo = true →
      route.canActivate.isSome = true →
      Esm2020.validateNode (f + 1) route fullPath =
        .error ("Invalid configuration of route \x27" ++ fullPath ++
          "\x27: redirectTo and canActivate cannot be used together. Redirects happen before activation so canActivate will never be executed.")) ∧
    (∀ p, route.outlet = none → route.component = none → route.children = none →
      route.loadChildren = false → truthyStr route.redirectTo = true →
      route.matcher = false → route.pathMatch = none → route.path = some p →
      (p = "") = False → strStartsWith p "/" = false →
      RouterJs.validateNode (f + 1) route fullPath = .ok ()) := by
  refine ⟨?_, ?_, ?_, ?_, ?_⟩
  · intro h1 h2 h3
    unfold RouterJs.validateNode RouterJs.validateNodeChecks
    simp [h1, h2, h3, truthyStr_none]
    rfl
  · intro h1 h2 h3 h4
    unfold RouterJs.validateNode RouterJs.validateNodeChecks
    simp [h1, h2, h3, h4, truthyStr_none]
    rfl
  · intro h1 h2 h3 h4 h5
    unfold RouterJs.validateNode RouterJs.validateNodeChecks
    simp [h1, h2, h3, h4, h5, truthyStr_none]
    rfl
  · intro h1 h2 h3 h4 h5 h6
    unfold Esm2020.validateNode Esm2020.validateNodeChecks
    simp [h1, h2, h3, h4, h5, h6, truthyStr_none]
    rfl
  · intro p h1 h2 h3 h4 h5 h6 h7 h8 h9 h10
    unfold RouterJs.validateNode RouterJs.validateNodeChecks
    simp [h1, h2, h3, h4, h5, h6, h7, h8, h9, h10, truthyStr_none, truthyStr,
      eq_none_false_of_truthyStr _ h5]
    rfl

/-- C6 (witness): the combination errors and the acceptance at concrete
routes. -/
theorem C6_validation_witness :
    RouterJs.validateNode 3
      (.mk (some "a") none (some "b") none none false none none false
        (some []) none []) "a" =
      .error ("Invalid configuration of route \x27a\x27: redirectTo and children cannot be used together") ∧
    Esm2020.validateNode 3
      (.mk (some "a") none (some "b") none none false (some []) none false
        none none []) "a" =
      .error ("Invalid configuration of route \x27a\x27: redirectTo and canActivate cannot be used together. Redirects happen before activation so canActivate will never be executed.") ∧
    RouterJs.validateNode 3
      (.mk (some "a") none (some "b") none none false none none false
        none none []) "a" = .ok () := by
  refine ⟨?_, ?_, ?_⟩
  · exact (C6_validation 2
      (.mk (some "a") none (some "b") none none false none none false
        (some []) none []) "a").1 rfl rfl rfl
  · exact (C6_validation 2
      (.mk (some "a") none (some "b") none none false (some []) none false
        none none []) "a").2.2.2.1 rfl rfl rfl rfl rfl rfl
  · exact (C6_validation 2
      (.mk (some "a") none (some "b") none none false none none false
        none none []) "a").2.2.2.2 "a" rfl rfl rfl rfl rfl rfl rfl rfl
      (eq_false (by decide)) rfl

/-- C7: the relative-navigation evaluations of createUrlTree from an
ActivatedRoute whose source group covers team/33/user/bob with
lastPathIndex three.  One double-dot followed by 22 gives
/team/33/user/22 as the claim says; two double-dots followed by
team/44/user/22 give /team/33/team/44/user/22, not the /team/44/user/22
promised by the claim and by the doc comment of Router.createUrlTree
(router.js lines 3631 to 3632); five double-dots exceed the available
depth and throw. -/
theorem C7_createUrlTree_relative :
    (CreateUrlTree.createUrlTree 100
        ⟨.mk [⟨"team", []⟩, ⟨"33", []⟩, ⟨"user", []⟩, ⟨"bob", []⟩] .nil,
         [.mk []
           (.cons "primary"
             (.mk [⟨"team", []⟩, ⟨"33", []⟩, ⟨"user", []⟩, ⟨"bob", []⟩] .nil)
             .nil)], 3⟩
        ⟨.mk []
          (.cons "primary"
            (.mk [⟨"team", []⟩, ⟨"33", []⟩, ⟨"user", []⟩, ⟨"bob", []⟩] .nil)
            .nil), [], none⟩
        [.str "../22"] none none).map DefaultUrlSerializer.serialize =
      .ok "/team/33/user/22" ∧
    (CreateUrlTree.createUrlTree 100
        ⟨.mk [⟨"team", []⟩, ⟨"33", []⟩, ⟨"user", []⟩, ⟨"bob", []⟩] .nil,
         [.mk []
           (.cons "primary"
             (.mk [⟨"team", []⟩, ⟨"33", []⟩, ⟨"user", []⟩, ⟨"bob", []⟩] .nil)
             .nil)], 3⟩
        ⟨.mk []
          (.cons "primary"
            (.mk [⟨"team", []⟩, ⟨"33", []⟩, ⟨"user", []⟩, ⟨"bob", []⟩] .nil)
            .nil), [], none⟩
        [.str "../../team/44/user/22"] none none).map DefaultUrlSerializer.serialize =
      .ok "/team/33/team/44/user/22" ∧
    (CreateUrlTree.createUrlTree 100
        ⟨.mk [⟨"team", []⟩, ⟨"33", []⟩, ⟨"user", []⟩, ⟨"bob", []⟩] .nil,
         [.mk []
           (.cons "primary"
             (.mk [⟨"team", []⟩, ⟨"33", []⟩, ⟨"user", []⟩, ⟨"bob", []⟩] .nil)
             .nil)], 3⟩
        ⟨.mk []
          (.cons "primary"
            (.mk [⟨"team", []⟩, ⟨"33", []⟩, ⟨"user", []⟩, ⟨"bob", []⟩] .nil)
            .nil), [], none⟩
        [.str "../../../../../x"] none none).map DefaultUrlSerializer.serialize =
      .error "Invalid number of \x27../\x27" := by
  exact ⟨rfl, rfl, rfl⟩

/-- C8 (counterexample): the primary child of the parsed tree exists but
its children map does not contain popup (the popup group is a sibling of
the primary group directly under the root). -/
theorem C8_counterexample :
    (DefaultUrlSerializer.parse "/inbox/33(popup:compose)?debug=true#frag").map
      (fun t => (t.root.children.lookup PRIMARY_OUTLET).map
        (fun g => (g.children.lookup "popup").isSome)) = .ok (some false) := by
  rfl

/-- C8 (amended): the example url parses to the root whose children map
holds the popup group with the single segment compose next to the primary
group with segments inbox and 33 (the primary group itself has no
children), with query debug true and fragment frag; serializing that tree
returns exactly the input string. -/
theorem C8_parse_example :
    DefaultUrlSerializer.parse "/inbox/33(popup:compose)?debug=true#frag" =
      .ok ⟨.mk [] (.cons "popup" (.mk [⟨"compose", []⟩] .nil)
          (.cons PRIMARY_OUTLET (.mk [⟨"inbox", []⟩, ⟨"33", []⟩] .nil) .nil)),
        [("debug", .str "true")], some "frag"⟩ ∧
    DefaultUrlSerializer.serialize
      ⟨.mk [] (.cons "popup" (.mk [⟨"compose", []⟩] .nil)
          (.cons PRIMARY_OUTLET (.mk [⟨"inbox", []⟩, ⟨"33", []⟩] .nil) .nil)),
        [("debug", .str "true")], some "frag"⟩ =
      "/inbox/33(popup:compose)?debug=true#frag" := by
  exact ⟨rfl, rfl⟩

/-- The character right after the prefix taken by `takeWhile` fails the
predicate: the taken prefix is maximal. -/
theorem takeWhileBoundary (p : Char → Bool) (cs : List Char) (c : Char)
    (h : (cs.drop (cs.takeWhile p).length).head? = some c) : p c = false := by
  induction cs with
  | nil => simp at h
  | cons x xs ih =>
    rw [List.takeWhile_cons] at h
    by_cases hp : p x
    · simp only [hp, if_true, List.length_cons, List.drop_succ_cons] at h
      exact ih h
    · simp only [hp, Bool.false_eq_true, if_false, List.length_nil,
        List.drop_zero, List.head?_cons, Option.some.injEq] at h
      rw [← h]
      exact Bool.eq_false_iff.mpr hp

/-- `takeWhile` yields a prefix, in the boolean sense. -/
theorem takeWhilePrefix (p : Char → Bool) (cs : List Char) :
    ((cs.takeWhile p).isPrefixOf cs) = true :=
  List.isPrefixOf_iff_prefix.mpr (List.takeWhile_prefix p)

/-- C3 (counterexample): on the input a&b the router.js segment tokenizer
stops at the ampersand although the claimed segment class takes the whole
string, and on a;b the router.js query-key tokenizer stops at the
semicolon although the claimed query-key class takes the whole string. -/
theorem C3_counterexample :
    matchSegments ("a&b".toList) = "a".toList ∧
    ("a&b".toList).takeWhile specSegmentChar = "a&b".toList ∧
    matchQueryParams ("a;b".toList) = "a".toList ∧
    ("a;b".toList).takeWhile specQueryKeyChar = "a;b".toList := by
  exact ⟨rfl, rfl, rfl, rfl⟩

/-- C3 (amended): each tokenizer returns the maximal prefix of its actual
character class, but the classes differ from the claim: the router.js
segment class additionally excludes the ampersand; the router.js query-key
tokenizer reuses the segment class (SEGMENT_RE) instead of the declared
QUERY_PARAM_RE; the part_000 tokenizers match the claimed classes exactly;
and `parseSegments` consumes exactly the segment token (when no matrix
parameters follow, the remaining input is the input with the token
dropped). -/
theorem C3_tokenizers (cs : List Char) (c : Char) :
    ((matchSegments cs).isPrefixOf cs = true ∧
      (∀ d ∈ matchSegments cs, isSegmentChar d = true) ∧
      ((cs.drop (matchSegments cs).length).head? = some c →
        isSegmentChar c = false)) ∧
    matchQueryParams cs = matchSegments cs ∧
    ((matchUrlQueryParamValue cs).isPrefixOf cs = true ∧
      (∀ d ∈ matchUrlQueryParamValue cs, isQueryParamValueChar d = true) ∧
      ((cs.drop (matchUrlQueryParamValue cs).length).head? = some c →
        isQueryParamValueChar c = false)) ∧
    (UrlTreeJs.matchSegments cs = cs.takeWhile specSegmentChar ∧
      UrlTreeJs.matchQueryParams cs = cs.takeWhile specQueryKeyChar) ∧
    (isSegmentChar '&' = false ∧ specSegmentChar '&' = true) ∧
    (∀ seg rem2, parseSegments cs = .ok (seg, rem2) →
      peekStartsWith [';'] (cs.drop (matchSegments cs).length) = false →
      rem2 = cs.drop (matchSegments cs).length) := by
  refine ⟨⟨takeWhilePrefix _ _, ?_, takeWhileBoundary _ _ _⟩, rfl,
    ⟨takeWhilePrefix _ _, ?_, takeWhileBoundary _ _ _⟩, ⟨rfl, rfl⟩,
    ⟨rfl, rfl⟩, ?_⟩
  · intro d hd
    exact List.mem_takeWhile_imp hd
  · intro d hd
    exact List.mem_takeWhile_imp hd
  · intro seg rem2 hok hsemi
    unfold parseSegments at hok
    have hpre : (matchSegments cs).isPrefixOf cs = true := takeWhilePrefix _ _
    have hfirst : (matchSegments cs = [] && peekStartsWith [';'] cs) = false := by
      by_cases hp : matchSegments cs = []
      · have hdz : cs.drop (matchSegments cs).length = cs := by simp [hp]
        rw [hdz] at hsemi
        simp [hp, hsemi]
      · simp [hp]
    simp only [hfirst, Bool.false_eq_true, if_false, capture, hpre, if_true,
      bind, Except.bind, hsemi, pure, Except.pure] at hok
    cases hdec : decode (String.mk (matchSegments cs)) with
    | none => rw [hdec] at hok; cases hok
    | some p =>
      rw [hdec] at hok
      injection hok with h1
      injection h1 with h2 h3
      exact h3.symm

/-- C3 (witness): the amended tokenizer theorem applied at concrete
inputs. -/
theorem C3_tokenizers_witness :
    isSegmentChar '&' = false ∧ isSegmentChar 'a' = true ∧
    isQueryParamValueChar '#' = false ∧
    "&b".toList = ("a&b".toList).drop (matchSegments ("a&b".toList)).length :=
  ⟨(C3_tokenizers ("a&b".toList) '&').1.2.2 rfl,
   (C3_tokenizers ("ab".toList) 'x').1.2.1 'a' (by decide),
   (C3_tokenizers ("a#".toList) '#').2.2.1.2.2 rfl,
   (C3_tokenizers ("a&b".toList) '&').2.2.2.2.2 ⟨"a", []⟩ ("&b".toList) rfl rfl⟩

namespace CheckGuardsOps

/-- Every entry of a guard trace is an application of its constructor. -/
theorem mem_guardTrace {mk : String → Nat → GuardEvent} {name : String}
    {gs : List GuardResult} {e : GuardEvent} (h : e ∈ guardTrace mk name gs) :
    ∃ i, e = mk name i := by
  simp only [guardTrace, List.mem_map, List.mem_range] at h
  obtain ⟨i, _, h⟩ := h
  exact ⟨i, h.symm⟩

/-- Every event of a canDeactivate run is a canDeactivate invocation. -/
theorem runCanDeactivate_events (c : GuardedNode) (e : GuardEvent)
    (h : e ∈ (runCanDeactivate c).2) : isDeactEvent e = true := by
  unfold runCanDeactivate at h
  cases hc : c.canDeactivate with
  | none => rw [hc] at h; simp at h
  | some gs =>
    rw [hc] at h
    cases gs with
    | nil => simp at h
    | cons g rest =>
      obtain ⟨i, rfl⟩ := mem_guardTrace h
      rfl

/-- Every event of a canActivate run is a canActivate invocation. -/
theorem runCanActivate_events (c : GuardedNode) (e : GuardEvent)
    (h : e ∈ (runCanActivate c).2) : isOwnGuardEvent e = true := by
  unfold runCanActivate at h
  cases hc : c.canActivate with
  | none => rw [hc] at h; simp at h
  | some gs =>
    rw [hc] at h
    cases gs with
    | nil => simp at h
    | cons g rest =>
      obtain ⟨i, rfl⟩ := mem_guardTrace h
      rfl

/-- Every event of a canActivateChild run is a canActivateChild
invocation. -/
theorem runCanActivateChild_events (path : List GuardedNode) (e : GuardEvent)
    (h : e ∈ (runCanActivateChild path).2) : isChildGuardEvent e = true := by
  unfold runCanActivateChild at h
  simp only [List.mem_flatten, List.mem_map] at h
  obtain ⟨pr, hpr, hel⟩ := h
  obtain ⟨d, hd, rfl⟩ := hpr
  obtain ⟨a, ha, rfl⟩ := hd
  obtain ⟨i, rfl⟩ := mem_guardTrace hel
  rfl

/-- Every event of the canDeactivate phase is a canDeactivate
invocation. -/
theorem runCanDeactivateChecks_events (d : List GuardedNode) (e : GuardEvent)
    (h : e ∈ (runCanDeactivateChecks d).2) : isDeactEvent e = true := by
  induction d with
  | nil => simp [runCanDeactivateChecks] at h
  | cons c rest ih =>
    unfold runCanDeactivateChecks at h
    by_cases hr : isTrueResult (runCanDeactivate c).1
    · rw [if_pos hr] at h
      rcases List.mem_append.mp h with h | h
      · exact runCanDeactivate_events c e h
      · exact ih h
    · rw [if_neg hr] at h
      exact runCanDeactivate_events c e h

/-- Every fired start event is a start event. -/
theorem fireEvents_events (check : CanActivateCheck) (e : GuardEvent)
    (h : e ∈ fireEvents check) : isFireEvent e = true := by
  unfold fireEvents at h
  rcases List.mem_append.mp h with h | h
  · by_cases hl : check.length ≥ 2
    · rw [if_pos hl] at h
      simp only [List.mem_singleton] at h
      rw [h]; rfl
    · rw [if_neg hl] at h
      simp at h
  · simp only [List.mem_singleton] at h
    rw [h]; rfl

/-- A start event is in the activation phase. -/
theorem fire_act (e : GuardEvent) (h : isFireEvent e = true) :
    isActEvent e = true := by
  cases e <;> simp [isFireEvent, isActEvent] at *

/-- A canActivateChild invocation is in the activation phase. -/
theorem child_act (e : GuardEvent) (h : isChildGuardEvent e = true) :
    isActEvent e = true := by
  cases e <;> simp [isChildGuardEvent, isActEvent] at *

/-- A canActivate invocation is in the activation phase. -/
theorem own_act (e : GuardEvent) (h : isOwnGuardEvent e = true) :
    isActEvent e = true := by
  cases e <;> simp [isOwnGuardEvent, isActEvent] at *

/-- Every event of one canActivate check is in the activation phase. -/
theorem runOneCanActivateCheck_events (check : CanActivateCheck) (e : GuardEvent)
    (h : e ∈ (runOneCanActivateCheck check).2) : isActEvent e = true := by
  unfold runOneCanActivateCheck at h
  by_cases hr : isTrueResult (runCanActivateChild check).1
  · simp only [hr, if_true] at h
    rcases List.mem_append.mp h with h | h
    · rcases List.mem_append.mp h with h | h
      · exact fire_act e (fireEvents_events check e h)
      · exact child_act e (runCanActivateChild_events check e h)
    · exact own_act e (runCanActivate_events _ e h)
  · simp only [hr, Bool.false_eq_true, if_false] at h
    rcases List.mem_append.mp h with h | h
    · exact fire_act e (fireEvents_events check e h)
    · exact child_act e (runCanActivateChild_events check e h)

/-- Every event of the activation phase is in the activation phase. -/
theorem runCanActivateChecks_events (a : List CanActivateCheck) (e : GuardEvent)
    (h : e ∈ (runCanActivateChecks a).2) : isActEvent e = true := by
  induction a with
  | nil => simp [runCanActivateChecks] at h
  | cons c rest ih =>
    unfold runCanActivateChecks at h
    by_cases hr : isTrueResult (runOneCanActivateCheck c).1
    · rw [if_pos hr] at h
      rcases List.mem_append.mp h with h | h
      · exact runOneCanActivateCheck_events c e h
      · exact ih h
    · rw [if_neg hr] at h
      exact runOneCanActivateCheck_events c e h

/-- A canDeactivate invocation is not in the activation phase. -/
theorem deact_not_act (e : GuardEvent) (h : isDeactEvent e = true) :
    isActEvent e = false := by
  cases e <;> simp [isDeactEvent, isActEvent] at *

/-- An activation-phase event is not a canDeactivate invocation. -/
theorem act_not_deact (e : GuardEvent) (h : isActEvent e = true) :
    isDeactEvent e = false := by
  cases e <;> simp [isDeactEvent, isActEvent] at *

/-- A start event is not a guard invocation. -/
theorem fire_not_guard (e : GuardEvent) (h : isFireEvent e = true) :
    isChildGuardEvent e = false ∧ isOwnGuardEvent e = false := by
  cases e <;> simp [isFireEvent, isChildGuardEvent, isOwnGuardEvent] at *

/-- A canActivateChild invocation is neither a start event nor a
canActivate invocation. -/
theorem child_not_other (e : GuardEvent) (h : isChildGuardEvent e = true) :
    isFireEvent e = false ∧ isOwnGuardEvent e = false := by
  cases e <;> simp [isFireEvent, isChildGuardEvent, isOwnGuardEvent] at *

/-- A canActivate invocation is neither a start event nor a
canActivateChild invocation. -/
theorem own_not_other (e : GuardEvent) (h : isOwnGuardEvent e = true) :
    isFireEvent e = false ∧ isChildGuardEvent e = false := by
  cases e <;> simp [isFireEvent, isChildGuardEvent, isOwnGuardEvent] at *

/-- A list all of whose elements satisfy the predicate filters to
itself. -/
theorem filter_of_forall {α} (p : α → Bool) (l : List α)
    (h : ∀ e ∈ l, p e = true) : l.filter p = l :=
  List.filter_eq_self.mpr h

/-- A list none of whose elements satisfies the predicate filters to
nothing. -/
theorem filter_of_forall_not {α} (p : α → Bool) (l : List α)
    (h : ∀ e ∈ l, p e = false) : l.filter p = [] := by
  rw [List.filter_eq_nil_iff]
  intro a ha
  simp [h a ha]

/-- C5: in `checkGuards` of check_guards.mjs, the emitted trace is the
canDeactivate phase followed by the activation phase (every canDeactivate
invocation precedes every activation event); a non-true canDeactivate
result is returned unchanged and suppresses the whole activation phase;
within one activation check the events come in block order, the
ChildActivationStart/ActivationStart fires, then the canActivateChild
invocations, then the node\x27s own canActivate invocations; the check
sequence short-circuits at the first non-true check result; and on a
three-node path the canActivateChild ancestors run deepest-first (the
parent before the root). -/
theorem C5_guard_ordering (d : List GuardedNode) (a : List CanActivateCheck)
    (check : CanActivateCheck) :
    ((checkGuards d a).2 =
      (checkGuards d a).2.filter isDeactEvent ++
        (checkGuards d a).2.filter isActEvent) ∧
    (¬ isTrueResult (runCanDeactivateChecks d).1 = true →
      (checkGuards d a).1 = (runCanDeactivateChecks d).1 ∧
      ∀ e ∈ (checkGuards d a).2, isDeactEvent e = true) ∧
    ((runOneCanActivateCheck check).2 =
      (runOneCanActivateCheck check).2.filter isFireEvent ++
        (runOneCanActivateCheck check).2.filter isChildGuardEvent ++
        (runOneCanActivateCheck check).2.filter isOwnGuardEvent) ∧
    (¬ isTrueResult (runOneCanActivateCheck check).1 = true →
      runCanActivateChecks (check :: a) = runOneCanActivateCheck check) ∧
    (runOneCanActivateCheck
        [⟨"root", none, some [.isTrue], none⟩,
         ⟨"mid", none, some [.isTrue], none⟩,
         ⟨"leaf", some [.isTrue], none, none⟩] =
      (.isTrue,
       [.childActivationStart "mid", .activationStart "leaf",
        .canActivateChildGuard "mid" 0, .canActivateChildGuard "root" 0,
        .canActivateGuard "leaf" 0])) := by
  have hdeact : ∀ e ∈ (runCanDeactivateChecks d).2, isDeactEvent e = true :=
    runCanDeactivateChecks_events d
  have hact : ∀ e ∈ (runCanActivateChecks a).2, isActEvent e = true :=
    runCanActivateChecks_events a
  have h1 : (runCanDeactivateChecks d).2.filter isDeactEvent =
      (runCanDeactivateChecks d).2 := filter_of_forall _ _ hdeact
  have h2 : (runCanActivateChecks a).2.filter isDeactEvent = [] :=
    filter_of_forall_not _ _ (fun e he => act_not_deact e (hact e he))
  have h3 : (runCanDeactivateChecks d).2.filter isActEvent = [] :=
    filter_of_forall_not _ _ (fun e he => deact_not_act e (hdeact e he))
  have h4 : (runCanActivateChecks a).2.filter isActEvent =
      (runCanActivateChecks a).2 := filter_of_forall _ _ hact
  refine ⟨?_, ?_, ?_, ?_, rfl⟩
  · by_cases hde : (d.isEmpty && a.isEmpty) = true
    · unfold checkGuards
      rw [if_pos hde]
      simp
    · unfold checkGuards
      rw [if_neg hde]
      cases hrd : (runCanDeactivateChecks d).1 with
      | isTrue =>
        simp only
        rw [List.filter_append, List.filter_append, h1, h2, h3, h4]
        simp
      | isFalse =>
        simp only
        rw [h1, h3]
        simp
      | tree t =>
        simp only
        rw [h1, h3]
        simp
  · intro hrd
    by_cases hde : (d.isEmpty && a.isEmpty) = true
    · exfalso
      have hd0 : d.isEmpty = true := (Bool.and_eq_true _ _ |>.mp hde).1
      have hd1 : d = [] := List.isEmpty_iff.mp hd0
      rw [hd1] at hrd
      exact hrd rfl
    · unfold checkGuards
      rw [if_neg hde]
      cases hrd2 : (runCanDeactivateChecks d).1 with
      | isTrue => exact absurd (by rw [hrd2]; rfl) hrd
      | isFalse =>
        refine ⟨rfl, ?_⟩
        intro e he
        exact hdeact e he
      | tree t =>
        refine ⟨rfl, ?_⟩
        intro e he
        exact hdeact e he
  · have hfire : ∀ e ∈ fireEvents check, isFireEvent e = true :=
      fireEvents_events check
    have hchild : ∀ e ∈ (runCanActivateChild check).2, isChildGuardEvent e = true :=
      runCanActivateChild_events check
    have hf1 : (fireEvents check).filter isFireEvent = fireEvents check :=
      filter_of_forall _ _ hfire
    have hf2 : (runCanActivateChild check).2.filter isFireEvent = [] :=
      filter_of_forall_not _ _ (fun e he => (child_not_other e (hchild e he)).1)
    have hf3 : (fireEvents check).filter isChildGuardEvent = [] :=
      filter_of_forall_not _ _ (fun e he => (fire_not_guard e (hfire e he)).1)
    have hf4 : (runCanActivateChild check).2.filter isChildGuardEvent =
        (runCanActivateChild check).2 := filter_of_forall _ _ hchild
    have hf5 : (fireEvents check).filter isOwnGuardEvent = [] :=
      filter_of_forall_not _ _ (fun e he => (fire_not_guard e (hfire e he)).2)
    have hf6 : (runCanActivateChild check).2.filter isOwnGuardEvent = [] :=
      filter_of_forall_not _ _ (fun e he => (child_not_other e (hchild e he)).2)
    unfold runOneCanActivateCheck
    by_cases hr : isTrueResult (runCanActivateChild check).1 = true
    · simp only [hr, if_true]
      have hown : ∀ e ∈ (runCanActivate ((check.getLast?).getD GuardedNode.empty)).2,
          isOwnGuardEvent e = true :=
        runCanActivate_events ((check.getLast?).getD GuardedNode.empty)
      have ho1 : (runCanActivate ((check.getLast?).getD GuardedNode.empty)).2.filter
          isFireEvent = [] :=
        filter_of_forall_not _ _ (fun e he => (own_not_other e (hown e he)).1)
      have ho2 : (runCanActivate ((check.getLast?).getD GuardedNode.empty)).2.filter
          isChildGuardEvent = [] :=
        filter_of_forall_not _ _ (fun e he => (own_not_other e (hown e he)).2)
      have ho3 : (runCanActivate ((check.getLast?).getD GuardedNode.empty)).2.filter
          isOwnGuardEvent = (runCanActivate ((check.getLast?).getD GuardedNode.empty)).2 :=
        filter_of_forall _ _ hown
      rw [List.filter_append, List.filter_append, List.filter_append,
        List.filter_append, List.filter_append, List.filter_append,
        hf1, hf2, hf3, hf4, hf5, hf6, ho1, ho2, ho3]
      simp
    · simp only [hr, Bool.false_eq_true, if_false]
      rw [List.filter_append, List.filter_append, List.filter_append,
        hf1, hf2, hf3, hf4, hf5, hf6]
      simp
  · intro hr
    unfold runCanActivateChecks
    rw [if_neg hr]

/-- C5 (witness): the ordering theorem applied at concrete check lists: a
false canDeactivate result is returned as the overall result with a
deactivation-only trace, and a false activation check stops the check
sequence. -/
theorem C5_guard_ordering_witness :
    (checkGuards [⟨"d1", none, none, some [.isFalse]⟩]
        [[⟨"a1", some [.isTrue], none, none⟩]]).1 =
      (runCanDeactivateChecks [⟨"d1", none, none, some [.isFalse]⟩]).1 ∧
    isDeactEvent (.canDeactivateGuard "d1" 0) = true ∧
    runCanActivateChecks
        ([⟨"c1", some [.isFalse], none, none⟩] ::
          [[⟨"a1", some [.isTrue], none, none⟩]]) =
      runOneCanActivateCheck [⟨"c1", some [.isFalse], none, none⟩] :=
  ⟨((C5_guard_ordering [⟨"d1", none, none, some [.isFalse]⟩]
      [[⟨"a1", some [.isTrue], none, none⟩]]
      [⟨"c1", some [.isFalse], none, none⟩]).2.1 (by decide)).1,
   ((C5_guard_ordering [⟨"d1", none, none, some [.isFalse]⟩]
      [[⟨"a1", some [.isTrue], none, none⟩]]
      [⟨"c1", some [.isFalse], none, none⟩]).2.1 (by decide)).2
     (.canDeactivateGuard "d1" 0) (by decide),
   (C5_guard_ordering [⟨"d1", none, none, some [.isFalse]⟩]
      [[⟨"a1", some [.isTrue], none, none⟩]]
      [⟨"c1", some [.isFalse], none, none⟩]).2.2.2.1 (by decide)⟩

end CheckGuardsOps

namespace SGHeap

/-- An index holding a node is in bounds. -/
theorem lt_of_getElem?_some {l : Heap} {i : Nat} {n : SGNode}
    (h : l[i]? = some n) : i < l.length := by
  by_contra hlt
  rw [List.getElem?_eq_none (by omega)] at h
  cases h

/-- `setParent` keeps the heap size. -/
theorem length_setParent (h : Heap) (cid pid : Nat) :
    (setParent h cid pid).length = h.length := by
  unfold setParent
  cases hc : h[cid]? with
  | none => rfl
  | some n => simp

/-- `setParent` leaves other indices unchanged. -/
theorem setParent_ne (h : Heap) (cid pid j : Nat) (hj : j ≠ cid) :
    (setParent h cid pid)[j]? = h[j]? := by
  unfold setParent
  cases hc : h[cid]? with
  | none => rfl
  | some n => exact List.getElem?_set_ne (fun he => hj he.symm)

/-- `setParent` writes the parent field at its index. -/
theorem setParent_eq (h : Heap) (cid pid : Nat) (n : SGNode)
    (hc : h[cid]? = some n) :
    (setParent h cid pid)[cid]? = some ⟨n.segments, n.children, some pid⟩ := by
  unfold setParent
  rw [hc]
  exact List.getElem?_set_eq_of_lt _ (lt_of_getElem?_some hc)

/-- `setParent` never changes segments or children, at any index. -/
theorem setParent_sc (h : Heap) (cid pid j : Nat) :
    ((setParent h cid pid)[j]?).map (fun n => (n.segments, n.children)) =
      (h[j]?).map (fun n => (n.segments, n.children)) := by
  by_cases hj : j = cid
  · subst hj
    cases hc : h[j]? with
    | none => simp [setParent, hc]
    | some n => simp [setParent_eq h j pid n hc, hc]
  · rw [setParent_ne h cid pid j hj]

/-- The parent-setting fold keeps the heap size. -/
theorem foldl_setParent_length (cs : List (String × Nat)) (g : Heap) (id : Nat) :
    (cs.foldl (fun acc kv => setParent acc kv.2 id) g).length = g.length := by
  induction cs generalizing g with
  | nil => rfl
  | cons kv rest ih => rw [List.foldl_cons, ih, length_setParent]

/-- The parent-setting fold leaves indices outside the child list
unchanged. -/
theorem foldl_setParent_not_mem (cs : List (String × Nat)) (g : Heap)
    (id j : Nat) (hj : j ∉ cs.map Prod.snd) :
    (cs.foldl (fun acc kv => setParent acc kv.2 id) g)[j]? = g[j]? := by
  induction cs generalizing g with
  | nil => rfl
  | cons kv rest ih =>
    rw [List.map_cons, List.mem_cons] at hj
    push_neg at hj
    rw [List.foldl_cons, ih _ hj.2, setParent_ne _ _ _ _ hj.1]

/-- The parent-setting fold never changes segments or children. -/
theorem foldl_setParent_sc (cs : List (String × Nat)) (g : Heap) (id j : Nat) :
    ((cs.foldl (fun acc kv => setParent acc kv.2 id) g)[j]?).map
        (fun n => (n.segments, n.children)) =
      (g[j]?).map (fun n => (n.segments, n.children)) := by
  induction cs generalizing g with
  | nil => rfl
  | cons kv rest ih => rw [List.foldl_cons, ih, setParent_sc]

/-- After the parent-setting fold, every listed child index has the new
parent. -/
theorem foldl_setParent_parent (cs : List (String × Nat)) (g : Heap)
    (id j : Nat) (hj : j ∈ cs.map Prod.snd) (hlt : j < g.length) :
    ((cs.foldl (fun acc kv => setParent acc kv.2 id) g)[j]?).map
      SGNode.parent = some (some id) := by
  induction cs generalizing g with
  | nil => simp at hj
  | cons c rest ih =>
    rw [List.foldl_cons]
    by_cases hr : j ∈ rest.map Prod.snd
    · exact ih _ hr (by rw [length_setParent]; exact hlt)
    · have hjc : j = c.2 := by
        rw [List.map_cons, List.mem_cons] at hj
        rcases hj with h | h
        · exact h
        · exact absurd h hr
      subst hjc
      rw [foldl_setParent_not_mem rest _ id _ hr]
      cases hc : g[c.2]? with
      | none =>
        exfalso
        rw [List.getElem?_eq_getElem hlt] at hc
        cases hc
      | some n =>
        rw [setParent_eq g c.2 id n hc]
        rfl

/-- The constructor stores the new node, with parent null, at the fresh
id. -/
theorem newUrlSegmentGroup_self (h : Heap) (segments : List UrlSegment)
    (children : List (String × Nat))
    (hvalid : ∀ kv ∈ children, kv.2 < h.length) :
    ((newUrlSegmentGroup h segments children).1)[h.length]? =
      some ⟨segments, children, none⟩ := by
  show (children.foldl (fun acc kv => setParent acc kv.2 h.length)
      (h ++ [⟨segments, children, none⟩]))[h.length]? =
    some ⟨segments, children, none⟩
  rw [foldl_setParent_not_mem]
  · rw [List.getElem?_append, if_neg (lt_irrefl _)]
    simp
  · intro hmem
    obtain ⟨kv, hkv, h2⟩ := List.mem_map.mp hmem
    have := hvalid kv hkv
    omega

/-- The constructor sets the parent of every child in the children map to
the fresh id. -/
theorem newUrlSegmentGroup_child (h : Heap) (segments : List UrlSegment)
    (children : List (String × Nat))
    (hvalid : ∀ kv ∈ children, kv.2 < h.length)
    (j : Nat) (hj : j ∈ children.map Prod.snd) :
    (((newUrlSegmentGroup h segments children).1)[j]?).map SGNode.parent =
      some (some h.length) := by
  show ((children.foldl (fun acc kv => setParent acc kv.2 h.length)
      (h ++ [⟨segments, children, none⟩]))[j]?).map SGNode.parent =
    some (some h.length)
  apply foldl_setParent_parent children _ h.length j hj
  rw [List.length_append]
  obtain ⟨kv, hkv, he⟩ := List.mem_map.mp hj
  have := hvalid kv hkv
  omega

/-- The parent-pointer invariant of bottom-up built heaps: roots are in
bounds and unparented, contained children point back at their container,
containers are unique, and every node is a root or contained. -/
theorem built_invariant {h : Heap} {roots : List Nat} (hb : Built h roots) :
    (∀ r ∈ roots, r < h.length) ∧
    (∀ r ∈ roots, (h[r]?).map SGNode.parent = some none) ∧
    (∀ (id : Nat) (node : SGNode), h[id]? = some node →
      ∀ kv ∈ node.children, kv.2 < h.length) ∧
    (∀ (id : Nat) (node : SGNode) (kv : String × Nat), h[id]? = some node → kv ∈ node.children →
      (h[kv.2]?).map SGNode.parent = some (some id)) ∧
    (∀ r ∈ roots, ∀ (id : Nat) (node : SGNode) (kv : String × Nat), h[id]? = some node → kv ∈ node.children →
      kv.2 ≠ r) ∧
    (∀ (id1 id2 : Nat) (n1 n2 : SGNode) (kv1 kv2 : String × Nat), h[id1]? = some n1 → h[id2]? = some n2 →
      kv1 ∈ n1.children → kv2 ∈ n2.children → kv1.2 = kv2.2 → id1 = id2) ∧
    (∀ j, j < h.length → j ∈ roots ∨
      ∃ (id : Nat) (node : SGNode) (kv : String × Nat), h[id]? = some node ∧ kv ∈ node.children ∧ kv.2 = j) := by
  induction hb with
  | nil =>
    refine ⟨?_, ?_, ?_, ?_, ?_, ?_, ?_⟩ <;> intros <;> simp_all
  | node segments children hb hmem hnodup ih =>
    obtain ⟨i1, i2, i3, i4, i5, i6, i7⟩ := ih
    rename_i h roots
    have f0 : ∀ kv ∈ children, kv.2 < h.length := fun kv hkv => i1 _ (hmem kv hkv)
    have hid : (newUrlSegmentGroup h segments children).2 = h.length := rfl
    have hlen : (newUrlSegmentGroup h segments children).1.length = h.length + 1 := by
      show (children.foldl (fun acc kv => setParent acc kv.2 h.length)
        (h ++ [⟨segments, children, none⟩])).length = h.length + 1
      rw [foldl_setParent_length, List.length_append]
      rfl
    have hself : ((newUrlSegmentGroup h segments children).1)[h.length]? =
        some ⟨segments, children, none⟩ :=
      newUrlSegmentGroup_self h segments children f0
    have hpar_new : ∀ j, j ∈ children.map Prod.snd →
        (((newUrlSegmentGroup h segments children).1)[j]?).map SGNode.parent =
          some (some h.length) :=
      fun j hj => newUrlSegmentGroup_child h segments children f0 j hj
    have hpar_old : ∀ j, j < h.length → j ∉ children.map Prod.snd →
        ((newUrlSegmentGroup h segments children).1)[j]? = h[j]? := by
      intro j hjl hjm
      show (children.foldl (fun acc kv => setParent acc kv.2 h.length)
        (h ++ [⟨segments, children, none⟩]))[j]? = h[j]?
      rw [foldl_setParent_not_mem _ _ _ _ hjm, List.getElem?_append, if_pos hjl]
    have hsc2 : ∀ j node, ((newUrlSegmentGroup h segments children).1)[j]? =
          some node →
        (j = h.length ∧ node.segments = segments ∧ node.children = children) ∨
        (j < h.length ∧ ∃ nh, h[j]? = some nh ∧ node.segments = nh.segments ∧
          node.children = nh.children) := by
      intro j node hj
      have hb1 : j < h.length + 1 := by
        have := lt_of_getElem?_some hj
        rw [hlen] at this
        exact this
      by_cases hje : j = h.length
      · subst hje
        left
        rw [hself] at hj
        injection hj with he
        rw [← he]
        exact ⟨rfl, rfl, rfl⟩
      · right
        have hjlt : j < h.length := by omega
        have hmsc : (((newUrlSegmentGroup h segments children).1)[j]?).map
            (fun n => (n.segments, n.children)) =
            ((h ++ [⟨segments, children, none⟩])[j]?).map
              (fun n => (n.segments, n.children)) :=
          foldl_setParent_sc children
            (h ++ [(⟨segments, children, none⟩ : SGNode)]) h.length j
        rw [List.getElem?_append, if_pos hjlt] at hmsc
        rw [hj] at hmsc
        cases hh : h[j]? with
        | none => rw [hh] at hmsc; cases hmsc
        | some nh =>
          rw [hh] at hmsc
          injection hmsc with hp
          rw [Prod.mk.injEq] at hp
          exact ⟨hjlt, nh, rfl, hp.1, hp.2⟩
    refine ⟨?_, ?_, ?_, ?_, ?_, ?_, ?_⟩
    · intro r hr
      rw [hlen]
      rcases List.mem_cons.mp hr with rfl | hrf
      · rw [hid]
        omega
      · have := i1 r (List.mem_filter.mp hrf).1
        omega
    · intro r hr
      rcases List.mem_cons.mp hr with rfl | hrf
      · show (((newUrlSegmentGroup h segments children).1)[h.length]?).map
          SGNode.parent = some none
        rw [hself]
        rfl
      · obtain ⟨hrr, hrd⟩ := List.mem_filter.mp hrf
        have hrni : r ∉ children.map Prod.snd := by simpa using hrd
        rw [hpar_old r (i1 r hrr) hrni]
        exact i2 r hrr
    · intro id' node hnode kv hkv
      rw [hlen]
      rcases hsc2 id' node hnode with ⟨he, hs, hc⟩ | ⟨hl, nh, hh, hs, hc⟩
      · rw [hc] at hkv
        have := f0 kv hkv
        omega
      · rw [hc] at hkv
        have := i3 id' nh hh kv hkv
        omega
    · intro id' node kv hnode hkv
      rcases hsc2 id' node hnode with ⟨he, hs, hc⟩ | ⟨hl, nh, hh, hs, hc⟩
      · subst he
        rw [hc] at hkv
        exact hpar_new kv.2 (List.mem_map.mpr ⟨kv, hkv, rfl⟩)
      · rw [hc] at hkv
        have hnotin : kv.2 ∉ children.map Prod.snd := by
          intro hin
          obtain ⟨kv2, hkv2, he2⟩ := List.mem_map.mp hin
          have hroot := hmem kv2 hkv2
          rw [he2] at hroot
          exact i5 kv.2 hroot id' nh kv hh hkv rfl
        rw [hpar_old _ (i3 id' nh hh kv hkv) hnotin]
        exact i4 id' nh kv hh hkv
    · intro r hr id' node kv hnode hkv
      have hklt : kv.2 < h.length := by
        rcases hsc2 id' node hnode with ⟨he, hs, hc⟩ | ⟨hl, nh, hh, hs, hc⟩
        · rw [hc] at hkv
          exact f0 kv hkv
        · rw [hc] at hkv
          exact i3 id' nh hh kv hkv
      rcases List.mem_cons.mp hr with rfl | hrf
      · intro he
        rw [hid] at he
        omega
      · obtain ⟨hrr, hrd⟩ := List.mem_filter.mp hrf
        have hrni : r ∉ children.map Prod.snd := by simpa using hrd
        rcases hsc2 id' node hnode with ⟨he, hs, hc⟩ | ⟨hl, nh, hh, hs, hc⟩
        · rw [hc] at hkv
          intro he2
          exact hrni (he2 ▸ List.mem_map.mpr ⟨kv, hkv, rfl⟩)
        · rw [hc] at hkv
          exact i5 r hrr id' nh kv hh hkv
    · intro id1 id2 n1 n2 kv1 kv2 h1 h2 hk1 hk2 he
      rcases hsc2 id1 n1 h1 with ⟨e1, hs1, c1⟩ | ⟨l1, nh1, hh1, hs1, c1⟩ <;>
        rcases hsc2 id2 n2 h2 with ⟨e2, hs2, c2⟩ | ⟨l2, nh2, hh2, hs2, c2⟩
      · rw [e1, e2]
      · exfalso
        rw [c1] at hk1
        rw [c2] at hk2
        have hroot : kv1.2 ∈ roots := by
          have := hmem kv1 hk1
          exact this
        exact i5 kv1.2 hroot id2 nh2 kv2 hh2 hk2 he.symm
      · exfalso
        rw [c1] at hk1
        rw [c2] at hk2
        have hroot : kv2.2 ∈ roots := by
          have := hmem kv2 hk2
          exact this
        exact i5 kv2.2 hroot id1 nh1 kv1 hh1 hk1 he
      · rw [c1] at hk1
        rw [c2] at hk2
        exact i6 id1 id2 nh1 nh2 kv1 kv2 hh1 hh2 hk1 hk2 he
    · intro j hj
      rw [hlen] at hj
      by_cases hje : j = h.length
      · left
        rw [List.mem_cons]
        left
        rw [hid]
        exact hje
      · have hjl : j < h.length := by omega
        rcases i7 j hjl with hroot | ⟨cid, cnode, ckv, hcn, hck, hce⟩
        · by_cases hin : j ∈ children.map Prod.snd
          · right
            obtain ⟨kv, hkv, he⟩ := List.mem_map.mp hin
            exact ⟨h.length, ⟨segments, children, none⟩, kv, hself, hkv, he⟩
          · left
            rw [List.mem_cons]
            right
            rw [List.mem_filter]
            exact ⟨hroot, by simpa using hin⟩
        · right
          have hcl : cid < h.length := lt_of_getElem?_some hcn
          have hmsc : (((newUrlSegmentGroup h segments children).1)[cid]?).map
              (fun n => (n.segments, n.children)) =
              ((h ++ [⟨segments, children, none⟩])[cid]?).map
                (fun n => (n.segments, n.children)) :=
            foldl_setParent_sc children
              (h ++ [(⟨segments, children, none⟩ : SGNode)]) h.length cid
          rw [List.getElem?_append, if_pos hcl] at hmsc
          rw [hcn, Option.map_some'] at hmsc
          rcases Option.map_eq_some'.mp hmsc with ⟨node2, hn2, hp⟩
          rw [Prod.mk.injEq] at hp
          refine ⟨cid, node2, ckv, hn2, ?_, hce⟩
          rw [hp.2]
          exact hck

/-- C10: the UrlSegmentGroup constructor writes the new group with a null
parent and redirects every child of the children map to point at the new
group; and in every heap built bottom-up (as the parser and the tree
rewrites build theirs) roots are unparented, each contained group\x27s
parent field is exactly the group whose children map contains it, the
containing group is unique, and every group is a root or contained. -/
theorem C10_parent_pointers (h : Heap) (segments : List UrlSegment)
    (children : List (String × Nat)) (roots : List Nat)
    (hvalid : ∀ kv ∈ children, kv.2 < h.length) (hb : Built h roots) :
    (((newUrlSegmentGroup h segments children).1)[
        (newUrlSegmentGroup h segments children).2]? =
      some ⟨segments, children, none⟩) ∧
    (∀ kv ∈ children,
      (((newUrlSegmentGroup h segments children).1)[kv.2]?).map SGNode.parent =
        some (some (newUrlSegmentGroup h segments children).2)) ∧
    (∀ r ∈ roots, (h[r]?).map SGNode.parent = some none) ∧
    (∀ (id : Nat) (node : SGNode) (kv : String × Nat), h[id]? = some node → kv ∈ node.children →
      (h[kv.2]?).map SGNode.parent = some (some id)) ∧
    (∀ (id1 id2 : Nat) (n1 n2 : SGNode) (kv1 kv2 : String × Nat), h[id1]? = some n1 → h[id2]? = some n2 →
      kv1 ∈ n1.children → kv2 ∈ n2.children → kv1.2 = kv2.2 → id1 = id2) ∧
    (∀ j, j < h.length → j ∈ roots ∨
      ∃ (id : Nat) (node : SGNode) (kv : String × Nat), h[id]? = some node ∧ kv ∈ node.children ∧ kv.2 = j) := by
  obtain ⟨i1, i2, i3, i4, i5, i6, i7⟩ := built_invariant hb
  exact ⟨newUrlSegmentGroup_self h segments children hvalid,
    fun kv hkv => newUrlSegmentGroup_child h segments children hvalid kv.2
      (List.mem_map.mpr ⟨kv, hkv, rfl⟩),
    i2, i4, i6, i7⟩

/-- C10 (witness): the invariant read off a concretely built two-node
heap (a primary child under a root), and the constructor facts at a
further allocation on top of it. -/
theorem C10_parent_pointers_witness :
    (([⟨[⟨"a", []⟩], [], some 1⟩, ⟨[], [("primary", 0)], none⟩] :
        Heap)[0]?).map SGNode.parent = some (some 1) ∧
    (([⟨[⟨"a", []⟩], [], some 1⟩, ⟨[], [("primary", 0)], none⟩] :
        Heap)[1]?).map SGNode.parent = some none ∧
    ((newUrlSegmentGroup
        [⟨[⟨"a", []⟩], [], some 1⟩, ⟨[], [("primary", 0)], none⟩]
        [⟨"x", []⟩] []).1)[(newUrlSegmentGroup
        [⟨[⟨"a", []⟩], [], some 1⟩, ⟨[], [("primary", 0)], none⟩]
        [⟨"x", []⟩] []).2]? = some ⟨[⟨"x", []⟩], [], none⟩ :=
  ⟨(C10_parent_pointers
      [⟨[⟨"a", []⟩], [], some 1⟩, ⟨[], [("primary", 0)], none⟩]
      [⟨"x", []⟩] [] [1] (by decide)
      (Built.node [] [("primary", 0)]
        (Built.node [⟨"a", []⟩] [] Built.nil (by decide) (by decide))
        (by decide) (by decide))).2.2.2.1 1 ⟨[], [("primary", 0)], none⟩
      ("primary", 0) rfl (by decide),
   (C10_parent_pointers
      [⟨[⟨"a", []⟩], [], some 1⟩, ⟨[], [("primary", 0)], none⟩]
      [⟨"x", []⟩] [] [1] (by decide)
      (Built.node [] [("primary", 0)]
        (Built.node [⟨"a", []⟩] [] Built.nil (by decide) (by decide))
        (by decide) (by decide))).2.2.1 1 (by decide),
   (C10_parent_pointers
      [⟨[⟨"a", []⟩], [], some 1⟩, ⟨[], [("primary", 0)], none⟩]
      [⟨"x", []⟩] [] [1] (by decide)
      (Built.node [] [("primary", 0)]
        (Built.node [⟨"a", []⟩] [] Built.nil (by decide) (by decide))
        (by decide) (by decide))).1⟩

end SGHeap

namespace Recognizer

/-- Appending a fresh entry to a lookup table misses a key iff the table
missed it and the key differs from the new entry. -/
theorem lookup_append_singleton (l : List (String × ActivatedRouteSnapshot))
    (p : String × ActivatedRouteSnapshot) (k : String) :
    ((l ++ [p]).lookup k = none) ↔
      (l.lookup k = none ∧ (k == p.1) = false) := by
  induction l with
  | nil =>
    cases p with
    | mk a b =>
      by_cases hk : (k == a) = true
      · simp [List.lookup, hk]
      · simp [List.lookup, hk]
  | cons q rest ih =>
    cases q with
    | mk a b =>
      by_cases hk : (k == a) = true
      · simp [List.lookup, hk]
      · rw [Bool.not_eq_true] at hk
        simp only [List.cons_append, List.lookup, hk]
        exact ih

/-- The uniqueness loop succeeds iff the remaining outlets are distinct
and none collides with the accumulated names. -/
theorem checkOutletLoop_ok_iff (nodes : List ARSTree) :
    ∀ names : List (String × ActivatedRouteSnapshot),
      ((checkOutletNameUniquenessLoop nodes names).isOk = true) ↔
      ((nodes.map (fun t => t.value.outlet)).Nodup ∧
        ∀ t ∈ nodes, names.lookup t.value.outlet = none) := by
  induction nodes with
  | nil =>
    intro names
    simp [checkOutletNameUniquenessLoop, Except.isOk, Except.toBool]
  | cons n rest ih =>
    intro names
    unfold checkOutletNameUniquenessLoop
    cases hl : names.lookup n.value.outlet with
    | some prev =>
      simp only [Except.isOk, Except.toBool]
      constructor
      · intro hfalse
        cases hfalse
      · intro ⟨hnd, hall⟩
        have := hall n (List.mem_cons_self n rest)
        rw [hl] at this
        cases this
    | none =>
      rw [ih (names ++ [(n.value.outlet, n.value)])]
      constructor
      · intro ⟨hnd, hall⟩
        constructor
        · rw [List.map_cons, List.nodup_cons]
          refine ⟨?_, hnd⟩
          intro hmem
          obtain ⟨t, ht, he⟩ := List.mem_map.mp hmem
          have := (lookup_append_singleton names
            (n.value.outlet, n.value) t.value.outlet).mp (hall t ht)
          rw [he] at this
          simp at this
        · intro t ht
          rcases List.mem_cons.mp ht with rfl | htr
          · exact hl
          · exact ((lookup_append_singleton names
              (n.value.outlet, n.value) t.value.outlet).mp (hall t htr)).1
      · intro ⟨hnd, hall⟩
        rw [List.map_cons, List.nodup_cons] at hnd
        refine ⟨hnd.2, ?_⟩
        intro t ht
        rw [lookup_append_singleton]
        refine ⟨hall t (List.mem_cons_of_mem n ht), ?_⟩
        simp only [beq_eq_false_iff_ne, ne_eq]
        intro he
        exact hnd.1 (List.mem_map.mpr ⟨t, ht, he⟩)

/-- Every failure of the uniqueness loop carries the outlet-uniqueness
message. -/
theorem checkOutletLoop_error_shape (nodes : List ARSTree) :
    ∀ names e, checkOutletNameUniquenessLoop nodes names = .error e →
      ∃ p c, e = .fail ("Two segments cannot have the same outlet name: \x27" ++
        p ++ "\x27 and \x27" ++ c ++ "\x27.") := by
  induction nodes with
  | nil => intro names e h; cases h
  | cons n rest ih =>
    intro names e h
    unfold checkOutletNameUniquenessLoop at h
    cases hl : names.lookup n.value.outlet with
    | some prev =>
      rw [hl] at h
      injection h with he
      exact ⟨String.intercalate "/" (prev.url.map serializePath),
        String.intercalate "/" (n.value.url.map serializePath), he.symm⟩
    | none =>
      rw [hl] at h
      exact ih _ e h

/-- C9 (amended): the outlet-uniqueness check of recognition succeeds
exactly when all sibling outlet names are distinct; its failures carry the
two-segments message; `processChildren` propagates the failure; and a
recognition failure surfaces through runNavigate as a NavigationError
event whose promise rejects with the message.  The scenario of the claim
(two empty-path routes with the same outlet for the URL /) does not reach
the error: split materialises at most one child per outlet name, so
recognition succeeds with a single snapshot from the first route. -/
theorem C9_outlet_uniqueness (nodes : List ARSTree) (fuel : Nat)
    (config : List Route) (sg : UrlSegmentGroup) (qp : QueryParams)
    (frag : Option String) (i : Nat) (url curr appliedUrl msg : String) :
    ((checkOutletNameUniqueness nodes).isOk = true ↔
      (nodes.map (fun t => t.value.outlet)).Nodup) ∧
    (∀ e, checkOutletNameUniqueness nodes = .error e →
      ∃ p c, e = .fail ("Two segments cannot have the same outlet name: \x27" ++
        p ++ "\x27 and \x27" ++ c ++ "\x27.")) ∧
    (∀ primaryNodes namedNodes e,
      processChildrenPass fuel config sg.children true qp frag = .ok primaryNodes →
      processChildrenPass fuel config sg.children false qp frag = .ok namedNodes →
      checkOutletNameUniqueness (primaryNodes ++ namedNodes) = .error e →
      processChildren (fuel + 1) config sg qp frag = .error e) ∧
    ((RouterJs.runNavigate
        ⟨i, i, url, curr, .ok appliedUrl, .error ⟨msg, false⟩⟩).events =
      [.navigationError i url msg] ∧
     (RouterJs.runNavigate
        ⟨i, i, url, curr, .ok appliedUrl, .error ⟨msg, false⟩⟩).promise =
      .error msg) := by
  refine ⟨?_, ?_, ?_, ?_⟩
  · rw [checkOutletNameUniqueness, checkOutletLoop_ok_iff nodes []]
    simp [List.lookup]
  · intro e h
    exact checkOutletLoop_error_shape nodes [] e h
  · intro primaryNodes namedNodes e h1 h2 h3
    unfold processChildren
    rw [h1]
    simp only [bind, Except.bind]
    rw [h2]
    simp only [h3]
  · constructor <;>
      simp [RouterJs.runNavigate, RouterJs.errorOutcome,
        isNavigationCancelingError]

/-- C9 (counterexample): for the URL / against two empty-path routes that
both use the outlet x, recognition does not throw: it succeeds, producing
exactly one child snapshot at outlet x (from the first route). -/
theorem C9_counterexample :
    (Recognizer.recognize 100 (some "Root")
        [.mk (some "") none none (some "x") (some "CompA") false none none
          false none none [],
         .mk (some "") none none (some "x") (some "CompB") false none none
          false none none []]
        ⟨.mk [] .nil, [], none⟩ "/").map
      (fun s => s.root.childNodes.map (fun t => t.value.outlet)) =
      .ok ["x"] := by
  rfl

/-- C9 (witness): the amended theorem applied at a duplicated outlet x:
the error shape, the propagation through processChildren, and the
NavigationError surfacing. -/
theorem C9_outlet_uniqueness_witness :
    (∃ p c,
      RecError.fail
          "Two segments cannot have the same outlet name: \x27a\x27 and \x27a\x27." =
        .fail ("Two segments cannot have the same outlet name: \x27" ++ p ++
          "\x27 and \x27" ++ c ++ "\x27.")) ∧
    processChildren 51
        [.mk (some "a") none none (some "x") (some "C") false none none
          false none none []]
        (.mk [] (.cons "x" (.mk [⟨"a", []⟩] .nil)
          (.cons "x" (.mk [⟨"a", []⟩] .nil) .nil))) [] none =
      .error (.fail
        "Two segments cannot have the same outlet name: \x27a\x27 and \x27a\x27.") ∧
    (RouterJs.runNavigate ⟨1, 1, "/u", "/c", .ok "/u",
        .error ⟨"boom", false⟩⟩).events = [.navigationError 1 "/u" "boom"] :=
  ⟨(C9_outlet_uniqueness
      [.node ⟨[⟨"a", []⟩], [], [], none, [], "x", some "C",
        some (.mk (some "a") none none (some "x") (some "C") false none none
          false none none [])⟩ [],
       .node ⟨[⟨"a", []⟩], [], [], none, [], "x", some "C",
        some (.mk (some "a") none none (some "x") (some "C") false none none
          false none none [])⟩ []] 50
      [.mk (some "a") none none (some "x") (some "C") false none none
        false none none []]
      (.mk [] (.cons "x" (.mk [⟨"a", []⟩] .nil)
        (.cons "x" (.mk [⟨"a", []⟩] .nil) .nil))) [] none
      1 "/u" "/c" "/u" "boom").2.1 _ rfl,
   (C9_outlet_uniqueness
      [.node ⟨[⟨"a", []⟩], [], [], none, [], "x", some "C",
        some (.mk (some "a") none none (some "x") (some "C") false none none
          false none none [])⟩ [],
       .node ⟨[⟨"a", []⟩], [], [], none, [], "x", some "C",
        some (.mk (some "a") none none (some "x") (some "C") false none none
          false none none [])⟩ []] 50
      [.mk (some "a") none none (some "x") (some "C") false none none
        false none none []]
      (.mk [] (.cons "x" (.mk [⟨"a", []⟩] .nil)
        (.cons "x" (.mk [⟨"a", []⟩] .nil) .nil))) [] none
      1 "/u" "/c" "/u" "boom").2.2.1 []
      [.node ⟨[⟨"a", []⟩], [], [], none, [], "x", some "C",
        some (.mk (some "a") none none (some "x") (some "C") false none none
          false none none [])⟩ [],
       .node ⟨[⟨"a", []⟩], [], [], none, [], "x", some "C",
        some (.mk (some "a") none none (some "x") (some "C") false none none
          false none none [])⟩ []] _ rfl rfl rfl,
   (C9_outlet_uniqueness
      [.node ⟨[⟨"a", []⟩], [], [], none, [], "x", some "C",
        some (.mk (some "a") none none (some "x") (some "C") false none none
          false none none [])⟩ [],
       .node ⟨[⟨"a", []⟩], [], [], none, [], "x", some "C",
        some (.mk (some "a") none none (some "x") (some "C") false none none
          false none none [])⟩ []] 50
      [.mk (some "a") none none (some "x") (some "C") false none none
        false none none []]
      (.mk [] (.cons "x" (.mk [⟨"a", []⟩] .nil)
        (.cons "x" (.mk [⟨"a", []⟩] .nil) .nil))) [] none
      1 "/u" "/c" "/u" "boom").2.2.2.1⟩

end Recognizer

/-- A guard list containing any non-true result fails the conjunction. -/
theorem andGuardResults_eq_false_of_mem_not_true {gs : List GuardResult}
    {r : GuardResult} (h : r ∈ gs) (hr : isTrueResult r = false) :
    andGuardResults gs = false := by
  rw [andGuardResults, List.all_eq_false]
  exact ⟨r, h, by simp [hr]⟩

/-- C2 (counterexample): with a canActivate guard of /a returning the
UrlTree of /login, runNavigate ends the transition with RoutesRecognized
then NavigationCancel (empty reason), the promise resolves false and the
stored current url stays the old one: no second navigation is initiated,
no NavigationEnd at /login is emitted and the state does not reflect
/login. -/
theorem C2_counterexample :
    RouterJs.runNavigate ⟨7, 7, "/a", "/", .ok "/a",
        .ok [.canActivateCheck [⟨"a",
          some [.tree ⟨.mk [] (.cons "primary" (.mk [⟨"login", []⟩] .nil) .nil),
            [], none⟩], none, none⟩]]⟩ =
      ⟨[.routesRecognized 7 "/a" "/a", .navigationCancel 7 "/a" ""],
       .ok false, "/"⟩ := by
  rfl

/-- C2 (amended): in this router generation a guard returning a UrlTree is
just a non-true result: a canActivate list containing a UrlTree makes
checkGuards false, and a false guard outcome makes runNavigate emit
RoutesRecognized then NavigationCancel with an empty reason, resolve the
promise to false and keep the current url; no navigation to the returned
tree is scheduled. -/
theorem C2_urltree_guard (i : Nat) (url curr appliedUrl : String)
    (checks : List PreActivationJs.Check) (path : List GuardedNode)
    (node : GuardedNode) (gs : List GuardResult) (t : UrlTree) :
    (PreActivationJs.Check.canActivateCheck path ∈ checks →
      path.getLast? = some node → node.canActivate = some gs →
      GuardResult.tree t ∈ gs →
      PreActivationJs.checkGuards checks = false) ∧
    (PreActivationJs.checkGuards checks = false →
      RouterJs.runNavigate ⟨i, i, url, curr, .ok appliedUrl, .ok checks⟩ =
        ⟨[.routesRecognized i url appliedUrl, .navigationCancel i url ""],
         .ok false, curr⟩) := by
  constructor
  · intro hmem hlast hca htree
    have hrun : PreActivationJs.runCanActivate node = false := by
      unfold PreActivationJs.runCanActivate
      rw [hca]
      cases gs with
      | nil => cases htree
      | cons g rest =>
        exact andGuardResults_eq_false_of_mem_not_true htree rfl
    cases checks with
    | nil => cases hmem
    | cons c rest =>
      unfold PreActivationJs.checkGuards
      rw [List.all_eq_false]
      refine ⟨.canActivateCheck path, hmem, ?_⟩
      simp only [hlast, Option.getD_some, hrun, Bool.and_false,
        Bool.false_eq_true, not_false_eq_true]
  · intro hguards
    unfold RouterJs.runNavigate
    simp [hguards]

/-- C2 (witness): the amended theorem at the concrete navigation where the
canActivate guard of route a returns the login tree. -/
theorem C2_urltree_guard_witness :
    PreActivationJs.checkGuards [.canActivateCheck [⟨"a",
        some [.tree ⟨.mk [] (.cons "primary" (.mk [⟨"login", []⟩] .nil) .nil),
          [], none⟩], none, none⟩]] = false ∧
    RouterJs.runNavigate ⟨3, 3, "/a", "/", .ok "/a",
        .ok [.canActivateCheck [⟨"a",
          some [.tree ⟨.mk [] (.cons "primary" (.mk [⟨"login", []⟩] .nil) .nil),
            [], none⟩], none, none⟩]]⟩ =
      ⟨[.routesRecognized 3 "/a" "/a", .navigationCancel 3 "/a" ""],
       .ok false, "/"⟩ :=
  ⟨(C2_urltree_guard 3 "/a" "/" "/a"
      [.canActivateCheck [⟨"a",
        some [.tree ⟨.mk [] (.cons "primary" (.mk [⟨"login", []⟩] .nil) .nil),
          [], none⟩], none, none⟩]]
      [⟨"a", some [.tree ⟨.mk [] (.cons "primary"
        (.mk [⟨"login", []⟩] .nil) .nil), [], none⟩], none, none⟩]
      ⟨"a", some [.tree ⟨.mk [] (.cons "primary"
        (.mk [⟨"login", []⟩] .nil) .nil), [], none⟩], none, none⟩
      [.tree ⟨.mk [] (.cons "primary" (.mk [⟨"login", []⟩] .nil) .nil),
        [], none⟩]
      ⟨.mk [] (.cons "primary" (.mk [⟨"login", []⟩] .nil) .nil), [], none⟩).1
      (List.Mem.head _) rfl rfl (List.Mem.head _),
   (C2_urltree_guard 3 "/a" "/" "/a"
      [.canActivateCheck [⟨"a",
        some [.tree ⟨.mk [] (.cons "primary" (.mk [⟨"login", []⟩] .nil) .nil),
          [], none⟩], none, none⟩]]
      [⟨"a", some [.tree ⟨.mk [] (.cons "primary"
        (.mk [⟨"login", []⟩] .nil) .nil), [], none⟩], none, none⟩]
      ⟨"a", some [.tree ⟨.mk [] (.cons "primary"
        (.mk [⟨"login", []⟩] .nil) .nil), [], none⟩], none, none⟩
      [.tree ⟨.mk [] (.cons "primary" (.mk [⟨"login", []⟩] .nil) .nil),
        [], none⟩]
      ⟨.mk [] (.cons "primary" (.mk [⟨"login", []⟩] .nil) .nil), [], none⟩).2
      rfl⟩

/-! ## Round-trip lemmas for C1 -/

/-- A safe character differs from every unsafe character. -/
theorem safe_char_ne (c d : Char) (h : isSafeUrlChar c = true)
    (hd : isSafeUrlChar d = false) : (c == d) = false := by
  by_cases hc : c = d
  · subst hc
    rw [h] at hd
    cases hd
  · exact beq_eq_false_iff_ne.mpr hc

/-- Safe characters are kept verbatim by encodeURIComponent. -/
theorem safe_unreserved {c : Char} (h : isSafeUrlChar c = true) :
    isUnreservedComponentChar c = true := by
  simp only [isSafeUrlChar, Bool.or_eq_true] at h
  simp only [isUnreservedComponentChar, Bool.or_eq_true]
  tauto

/-- Safe characters are kept verbatim by encodeURI. -/
theorem safe_uriPreserved {c : Char} (h : isSafeUrlChar c = true) :
    isEncodeURIPreservedChar c = true := by
  simp only [isEncodeURIPreservedChar, Bool.or_eq_true]
  exact Or.inl (Or.inl (Or.inl (Or.inl (Or.inl (Or.inl (Or.inl (Or.inl
    (Or.inl (Or.inl (Or.inl (safe_unreserved h)))))))))))

/-- Safe characters are segment characters. -/
theorem safe_isSegmentChar {c : Char} (h : isSafeUrlChar c = true) :
    isSegmentChar c = true := by
  unfold isSegmentChar
  rw [safe_char_ne c '/' h (by decide), safe_char_ne c '(' h (by decide),
    safe_char_ne c ')' h (by decide), safe_char_ne c '?' h (by decide),
    safe_char_ne c ';' h (by decide), safe_char_ne c '=' h (by decide),
    safe_char_ne c '&' h (by decide), safe_char_ne c '#' h (by decide)]
  rfl

/-- Safe characters are query-value characters. -/
theorem safe_isQueryParamValueChar {c : Char} (h : isSafeUrlChar c = true) :
    isQueryParamValueChar c = true := by
  unfold isQueryParamValueChar
  rw [safe_char_ne c '?' h (by decide), safe_char_ne c '&' h (by decide),
    safe_char_ne c '#' h (by decide)]
  rfl

/-- A list of safe characters contains no colon. -/
theorem safe_not_contains_colon {cs : List Char}
    (h : ∀ c ∈ cs, isSafeUrlChar c = true) : cs.contains ':' = false := by
  induction cs with
  | nil => rfl
  | cons c rest ih =>
    simp only [List.contains_cons]
    rw [show ((':' : Char) == c) = (c == ':') from Bool.beq_comm,
      safe_char_ne c ':' (h c (List.mem_cons_self c rest)) (by decide)]
    exact ih (fun d hd => h d (List.mem_cons_of_mem c hd))

/-- encodeURIComponent keeps a safe character list unchanged. -/
theorem encodeURIComponentCore_safe {cs : List Char}
    (h : ∀ c ∈ cs, isSafeUrlChar c = true) : encodeURIComponentCore cs = cs := by
  induction cs with
  | nil => rfl
  | cons c rest ih =>
    unfold encodeURIComponentCore
    rw [List.map_cons, List.flatten_cons,
      if_pos (safe_unreserved (h c (List.mem_cons_self c rest)))]
    have := ih (fun d hd => h d (List.mem_cons_of_mem c hd))
    unfold encodeURIComponentCore at this
    rw [this]
    rfl

/-- encodeURI keeps a safe character list unchanged. -/
theorem encodeURICore_safe {cs : List Char}
    (h : ∀ c ∈ cs, isSafeUrlChar c = true) : encodeURICore cs = cs := by
  induction cs with
  | nil => rfl
  | cons c rest ih =>
    unfold encodeURICore
    rw [List.map_cons, List.flatten_cons,
      if_pos (safe_uriPreserved (h c (List.mem_cons_self c rest)))]
    have := ih (fun d hd => h d (List.mem_cons_of_mem c hd))
    unfold encodeURICore at this
    rw [this]
    rfl

/-- A percent-free character list tokenizes to plain characters. -/
theorem percentTokens_safe {cs : List Char}
    (h : ∀ c ∈ cs, (c == '%') = false) :
    percentTokens cs = some (cs.map Sum.inl) := by
  induction cs with
  | nil => rfl
  | cons c rest ih =>
    unfold percentTokens
    rw [if_neg (by
      have := h c (List.mem_cons_self c rest)
      simpa using this)]
    rw [ih (fun d hd => h d (List.mem_cons_of_mem c hd))]
    rfl

/-- Decoding plain tokens gives back the characters. -/
theorem decodeTokens_inl (cs : List Char) :
    decodeTokens (cs.map Sum.inl) [] = some cs := by
  induction cs with
  | nil => rfl
  | cons c rest ih =>
    unfold decodeTokens
    rw [List.map_cons]
    show (do
      let p ← utf8Decode []
      let r ← decodeTokens (rest.map Sum.inl) []
      pure (p ++ c :: r)) = some (c :: rest)
    rw [ih]
    rfl

/-- Decoding plain tokens for decodeURI gives back the characters. -/
theorem decodeURITokens_inl (cs : List Char) :
    decodeURITokens (cs.map Sum.inl) [] = some cs := by
  induction cs with
  | nil => rfl
  | cons c rest ih =>
    unfold decodeURITokens
    rw [List.map_cons]
    show (do
      let p ← utf8Decode []
      let r ← decodeURITokens (rest.map Sum.inl) []
      pure (p ++ c :: r)) = some (c :: rest)
    rw [ih]
    rfl

/-- `encode` is the identity on safe strings. -/
theorem encode_safe {s : String} (h : ∀ c ∈ s.data, isSafeUrlChar c = true) :
    encode s = s := by
  unfold encode
  rw [encodeURIComponentCore_safe h]

/-- `decode` is the identity on safe strings. -/
theorem decode_safe {s : String} (h : ∀ c ∈ s.data, isSafeUrlChar c = true) :
    decode s = some s := by
  unfold decode decodeURIComponentCore
  rw [percentTokens_safe (fun c hc => safe_char_ne c '%' (h c hc) (by decide))]
  show (decodeTokens (s.data.map Sum.inl) []).map (fun cs => String.mk cs) = some s
  rw [decodeTokens_inl]
  rfl

/-- `encodeURIModel` is the identity on safe strings. -/
theorem encodeURIModel_safe {s : String}
    (h : ∀ c ∈ s.data, isSafeUrlChar c = true) : encodeURIModel s = s := by
  unfold encodeURIModel
  rw [encodeURICore_safe h]

/-- `decodeURIModel` is the identity on safe strings. -/
theorem decodeURIModel_safe {s : String}
    (h : ∀ c ∈ s.data, isSafeUrlChar c = true) : decodeURIModel s = some s := by
  unfold decodeURIModel decodeURICore
  rw [percentTokens_safe (fun c hc => safe_char_ne c '%' (h c hc) (by decide))]
  show (decodeURITokens (s.data.map Sum.inl) []).map (fun cs => String.mk cs) =
    some s
  rw [decodeURITokens_inl]
  rfl

/-- `takeWhile` over a satisfied prefix with a failing boundary. -/
theorem takeWhile_append_bound (p : Char → Bool) (xs rest : List Char)
    (h1 : ∀ c ∈ xs, p c = true)
    (h2 : ∀ c, rest.head? = some c → p c = false) :
    (xs ++ rest).takeWhile p = xs := by
  induction xs with
  | nil =>
    cases rest with
    | nil => rfl
    | cons c r =>
      simp only [List.nil_append, List.takeWhile_cons]
      rw [h2 c rfl]
      rfl
  | cons x xs ih =>
    simp only [List.cons_append, List.takeWhile_cons,
      h1 x (List.mem_cons_self x xs), if_true]
    rw [ih (fun c hc => h1 c (List.mem_cons_of_mem x hc))]

/-- `capture` of an exact prefix. -/
theorem capture_print (xs rest : List Char) :
    capture xs (xs ++ rest) = .ok rest := by
  unfold capture
  rw [if_pos (List.isPrefixOf_iff_prefix.mpr (List.prefix_append xs rest))]
  rw [List.drop_left]

/-- `capture` of a single leading character. -/
theorem capture_cons (c : Char) (rest : List Char) :
    capture [c] (c :: rest) = .ok rest :=
  capture_print [c] rest

/-- `capture` of two leading characters. -/
theorem capture_cons2 (c1 c2 : Char) (rest : List Char) :
    capture [c1, c2] (c1 :: c2 :: rest) = .ok rest :=
  capture_print [c1, c2] rest

/-- A safe string: its data is nonempty and all safe. -/
theorem safeStr_spec {s : String} (h : safeStr s = true) :
    s.data ≠ [] ∧ ∀ c ∈ s.data, isSafeUrlChar c = true := by
  unfold safeStr at h
  rw [Bool.and_eq_true] at h
  constructor
  · intro he
    rw [he] at h
    cases h.1
  · intro c hc
    exact (List.all_eq_true.mp h.2) c hc

/-- A possibly-empty safe string: all its characters are safe. -/
theorem safeStrAllowEmpty_spec {s : String} (h : safeStrAllowEmpty s = true) :
    ∀ c ∈ s.data, isSafeUrlChar c = true := by
  unfold safeStrAllowEmpty at h
  exact List.all_eq_true.mp h

/-- A list contains an element it visibly holds. -/
theorem contains_append_cons_self (r l2 : List String) (x : String) :
    (r ++ x :: l2).contains x = true := by
  induction r with
  | nil => simp [List.contains_cons]
  | cons y yr ih => simp [List.contains_cons, ih]

/-- In a duplicate-free key list, the keys before an occurrence differ from
it. -/
theorem nodupKeys_split {l1 l2 : List String} {k : String}
    (h : nodupKeys (l1 ++ k :: l2) = true) : l1.contains k = false := by
  induction l1 with
  | nil => rfl
  | cons x r ih =>
    rw [List.cons_append] at h
    unfold nodupKeys at h
    rw [Bool.and_eq_true] at h
    rw [List.contains_cons]
    have hx : (k == x) = false := by
      by_cases he : x = k
      · subst he
        exfalso
        rw [contains_append_cons_self r l2 x] at h
        simp at h
      · exact beq_eq_false_iff_ne.mpr (fun hk => he hk.symm)
    rw [hx, ih h.2]
    rfl

/-- Suffixes of a duplicate-free key list are duplicate-free. -/
theorem nodupKeys_append_right {l1 l2 : List String}
    (h : nodupKeys (l1 ++ l2) = true) : nodupKeys l2 = true := by
  induction l1 with
  | nil => exact h
  | cons x r ih =>
    rw [List.cons_append] at h
    unfold nodupKeys at h
    rw [Bool.and_eq_true] at h
    exact ih h.2

/-- Assigning a fresh matrix-param key appends. -/
theorem assignParam_fresh {acc : List (String × String)} {k : String}
    (v : String) (h : ∀ kv ∈ acc, (kv.1 == k) = false) :
    assignParam acc k v = acc ++ [(k, v)] := by
  induction acc with
  | nil => rfl
  | cons kv rest ih =>
    unfold assignParam
    have := h kv (List.mem_cons_self kv rest)
    rw [if_neg (by simpa using this)]
    rw [ih (fun kv2 h2 => h kv2 (List.mem_cons_of_mem kv h2))]
    rfl

/-- Assigning a fresh outlet name appends the entry. -/
theorem assign_fresh : ∀ (cs : UrlChildren) (k : String) (g : UrlSegmentGroup),
    (cs.keys).contains k = false →
    cs.assign k g = cs.append (.cons k g .nil)
  | .nil, k, g, h => rfl
  | .cons n g0 r, k, g, h => by
    unfold UrlChildren.assign UrlChildren.append
    rw [UrlChildren.keys, List.contains_cons, Bool.or_eq_false_iff] at h
    rw [if_neg (by
      intro he
      subst he
      simp at h)]
    rw [assign_fresh r k g h.2]

/-- The head after a segment end is not a segment character. -/
theorem segEnd_head_not_segment {rest : List Char} (h : segEnd rest = true) :
    ∀ c, rest.head? = some c → isSegmentChar c = false := by
  cases rest with
  | nil => intro c hc; cases hc
  | cons c0 r =>
    intro c hc
    rw [List.head?_cons, Option.some.injEq] at hc
    subst hc
    unfold segEnd at h
    simp only [Bool.or_eq_true, beq_iff_eq] at h
    rcases h with (((rfl | rfl) | rfl) | rfl) | rfl <;> decide

/-- A segment end does not begin with a semicolon. -/
theorem segEnd_not_semicolon {rest : List Char} (h : segEnd rest = true) :
    peekStartsWith [';'] rest = false := by
  cases rest with
  | nil => rfl
  | cons c r =>
    unfold segEnd at h
    simp only [Bool.or_eq_true, beq_iff_eq] at h
    rcases h with (((rfl | rfl) | rfl) | rfl) | rfl <;>
      simp [peekStartsWith, List.isPrefixOf]

/-- `matchSegments` of a safe prefix with a delimiter boundary. -/
theorem matchSegments_print (xs rest : List Char)
    (h1 : ∀ c ∈ xs, isSafeUrlChar c = true)
    (h2 : ∀ c, rest.head? = some c → isSegmentChar c = false) :
    matchSegments (xs ++ rest) = xs := by
  unfold matchSegments
  exact takeWhile_append_bound _ xs rest
    (fun c hc => safe_isSegmentChar (h1 c hc)) h2

/-- The data of a joined string list. -/
theorem data_join (l : List String) :
    (String.join l).data = (l.map String.data).flatten := by
  have haux : ∀ (l : List String) (acc : String),
      (l.foldl (· ++ ·) acc).data = acc.data ++ (l.map String.data).flatten := by
    intro l
    induction l with
    | nil => intro acc; simp
    | cons x r ih =>
      intro acc
      rw [List.foldl_cons, ih, String.data_append]
      simp
  show (l.foldl (· ++ ·) "").data = _
  rw [haux l ""]
  rfl

/-- The printed matrix parameters, as characters. -/
theorem serializeParams_data (ps : List (String × String))
    (h : ps.all (fun kv => safeStr kv.1 && safeStrAllowEmpty kv.2) = true) :
    (serializeParams ps).data =
      (ps.map (fun kv => ';' :: (kv.1.data ++ '=' :: kv.2.data))).flatten := by
  unfold serializeParams
  rw [data_join, List.map_map]
  congr 1
  apply List.map_congr_left
  intro kv hkv
  have hw := List.all_eq_true.mp h kv hkv
  rw [Bool.and_eq_true] at hw
  show (";" ++ encode kv.1 ++ "=" ++ encode kv.2).data = _
  rw [encode_safe (safeStr_spec hw.1).2, encode_safe (safeStrAllowEmpty_spec hw.2)]
  rw [String.data_append, String.data_append, String.data_append]
  simp

/-- The printed matrix parameters are at least as long as the list. -/
theorem serializeParams_data_length (ps : List (String × String))
    (h : ps.all (fun kv => safeStr kv.1 && safeStrAllowEmpty kv.2) = true) :
    ps.length ≤ (serializeParams ps).data.length := by
  rw [serializeParams_data ps h]
  induction ps with
  | nil => simp
  | cons kv rest ih =>
    rw [List.map_cons, List.flatten_cons]
    simp only [List.length_append, List.length_cons]
    have := ih (by
      rw [List.all_cons, Bool.and_eq_true] at h
      exact h.2)
    omega

/-- `parseParam` of one printed matrix parameter. -/
theorem parseParam_print (acc : List (String × String)) (k v : String)
    (rest : List Char) (hk : safeStr k = true) (hv : safeStrAllowEmpty v = true)
    (hrest : ∀ c, rest.head? = some c → isSegmentChar c = false) :
    parseParam acc (k.data ++ '=' :: (v.data ++ rest)) =
      .ok (assignParam acc k v, rest) := by
  obtain ⟨hknil, hksafe⟩ := safeStr_spec hk
  have hvsafe := safeStrAllowEmpty_spec hv
  have hmk : matchSegments (k.data ++ '=' :: (v.data ++ rest)) = k.data :=
    matchSegments_print k.data _ hksafe (by
      intro c hc
      rw [List.head?_cons, Option.some.injEq] at hc
      subst hc
      decide)
  have hmv : matchSegments (v.data ++ rest) = v.data :=
    matchSegments_print v.data rest hvsafe hrest
  unfold parseParam
  rw [hmk]
  rw [if_neg (by simp [hknil])]
  rw [capture_print k.data ('=' :: (v.data ++ rest))]
  simp only [bind, Except.bind, peekStartsWith, List.isPrefixOf, beq_self_eq_true,
    Bool.and_true, Bool.true_and, if_true]
  rw [show capture ['='] ('=' :: (v.data ++ rest)) = .ok (v.data ++ rest) from
    capture_print ['='] (v.data ++ rest)]
  simp only [bind, Except.bind]
  by_cases hv0 : v = ""
  · subst hv0
    simp only [show ("" : String).data = [] from rfl, List.nil_append] at hmv ⊢
    rw [hmv]
    simp only [ne_eq, not_true_eq_false, if_false, pure, Except.pure]
    rw [show (⟨k.data⟩ : String) = k from rfl]
    rw [decode_safe hksafe]
    rfl
  · have hvd : v.data ≠ [] := by
      intro he
      exact hv0 (congrArg String.mk he)
    rw [hmv]
    rw [if_pos (by simpa using hvd)]
    rw [capture_print v.data rest]
    simp only [pure, Except.pure]
    rw [show (⟨k.data⟩ : String) = k from rfl,
      show (⟨v.data⟩ : String) = v from rfl]
    rw [decode_safe hksafe, decode_safe hvsafe]

/-- A missing key differs from every list element. -/
theorem forall_ne_of_contains_false {l : List String} {k : String}
    (h : l.contains k = false) : ∀ x ∈ l, (x == k) = false := by
  induction l with
  | nil => intro x hx; cases hx
  | cons y r ih =>
    rw [List.contains_cons, Bool.or_eq_false_iff] at h
    intro x hx
    rcases List.mem_cons.mp hx with rfl | hxr
    · refine beq_eq_false_iff_ne.mpr (fun he => ?_)
      rw [he] at h
      simp at h
    · exact ih h.2 x hxr

/-- The matrix-params loop over a printed parameter list. -/
theorem parseMatrixParamsF_print (ps : List (String × String)) :
    ∀ (fuel : Nat) (acc : List (String × String)) (rest : List Char),
      ps.all (fun kv => safeStr kv.1 && safeStrAllowEmpty kv.2) = true →
      nodupKeys (acc.map Prod.fst ++ ps.map Prod.fst) = true →
      segEnd rest = true →
      ps.length + 1 ≤ fuel →
      parseMatrixParamsF fuel acc ((serializeParams ps).data ++ rest) =
        .ok (acc ++ ps, rest) := by
  induction ps with
  | nil =>
    intro fuel acc rest h1 h2 h3 hf
    cases fuel with
    | zero => omega
    | succ f =>
      unfold parseMatrixParamsF
      rw [show (serializeParams []).data = [] from rfl, List.nil_append]
      rw [segEnd_not_semicolon h3]
      simp
  | cons kv more ih =>
    intro fuel acc rest h1 h2 h3 hf
    cases fuel with
    | zero => omega
    | succ f =>
      rw [List.all_cons, Bool.and_eq_true] at h1
      obtain ⟨hkv, hmore⟩ := h1
      rw [Bool.and_eq_true] at hkv
      have hinput : (serializeParams (kv :: more)).data ++ rest =
          ';' :: (kv.1.data ++ '=' :: (kv.2.data ++
            ((serializeParams more).data ++ rest))) := by
        rw [serializeParams_data (kv :: more) (by
          rw [List.all_cons, Bool.and_eq_true]
          exact ⟨by rw [Bool.and_eq_true]; exact hkv, hmore⟩)]
        rw [List.map_cons, List.flatten_cons, ← serializeParams_data more hmore]
        simp [List.append_assoc]
      rw [hinput]
      unfold parseMatrixParamsF
      rw [if_pos (by simp [peekStartsWith, List.isPrefixOf])]
      rw [capture_cons]
      simp only [bind, Except.bind]
      have hbnd : ∀ c, ((serializeParams more).data ++ rest).head? = some c →
          isSegmentChar c = false := by
        cases hm : more with
        | nil =>
          rw [show (serializeParams []).data = [] from rfl, List.nil_append]
          exact segEnd_head_not_segment h3
        | cons kv2 more2 =>
          rw [serializeParams_data _ (hm ▸ hmore), List.map_cons,
            List.flatten_cons, List.cons_append, List.cons_append]
          intro c hc
          rw [List.head?_cons, Option.some.injEq] at hc
          subst hc
          decide
      rw [parseParam_print acc kv.1 kv.2 _ hkv.1 hkv.2 hbnd]
      have hfresh : ∀ kv0 ∈ acc, (kv0.1 == kv.1) = false := by
        intro kv0 h0
        have hc : (acc.map Prod.fst).contains kv.1 = false :=
          nodupKeys_split h2
        exact forall_ne_of_contains_false hc kv0.1
          (List.mem_map.mpr ⟨kv0, h0, rfl⟩)
      rw [assignParam_fresh kv.2 hfresh]
      have h2' : nodupKeys ((acc ++ [kv]).map Prod.fst ++ more.map Prod.fst) =
          true := by
        rw [List.map_append]
        rw [show (([kv] : List (String × String)).map Prod.fst) = [kv.1] from rfl]
        rw [List.append_assoc]
        exact h2
      have hloop := ih f (acc ++ [kv]) rest hmore h2' h3 (by
        simp only [List.length_cons] at hf
        omega)
      show parseMatrixParamsF f (acc ++ [kv])
          ((serializeParams more).data ++ rest) = .ok (acc ++ kv :: more, rest)
      rw [hloop]
      simp

/-- `parseMatrixParams` of a printed parameter list. -/
theorem parseMatrixParams_print (ps : List (String × String)) (rest : List Char)
    (h1 : ps.all (fun kv => safeStr kv.1 && safeStrAllowEmpty kv.2) = true)
    (h2 : nodupKeys (ps.map Prod.fst) = true) (h3 : segEnd rest = true) :
    parseMatrixParams ((serializeParams ps).data ++ rest) = .ok (ps, rest) := by
  unfold parseMatrixParams
  have := parseMatrixParamsF_print ps
    (((serializeParams ps).data ++ rest).length + 1) [] rest h1 (by simpa) h3
    (by
      rw [List.length_append]
      have := serializeParams_data_length ps h1
      omega)
  simpa using this

/-- `parseSegments` of one printed segment. -/
theorem parseSegments_print (s : UrlSegment) (rest : List Char)
    (h : wfSegment s = true) (hrest : segEnd rest = true) :
    parseSegments ((serializePath s).data ++ rest) = .ok (s, rest) := by
  obtain ⟨p, ps⟩ := s
  unfold wfSegment at h
  rw [Bool.and_eq_true] at h
  obtain ⟨hp, hps⟩ := h
  unfold wfParams at hps
  rw [Bool.and_eq_true] at hps
  obtain ⟨hall, hnd⟩ := hps
  obtain ⟨hpnil, hpsafe⟩ := safeStr_spec hp
  have hdata : (serializePath ⟨p, ps⟩).data =
      p.data ++ (serializeParams ps).data := by
    show (encode p ++ serializeParams ps).data = _
    rw [encode_safe hpsafe, String.data_append]
  rw [hdata, List.append_assoc]
  have hbnd : ∀ c, ((serializeParams ps).data ++ rest).head? = some c →
      isSegmentChar c = false := by
    cases hm : ps with
    | nil =>
      rw [show (serializeParams []).data = [] from rfl, List.nil_append]
      exact segEnd_head_not_segment hrest
    | cons kv more =>
      rw [serializeParams_data _ (hm ▸ hall), List.map_cons,
        List.flatten_cons, List.cons_append, List.cons_append]
      intro c hc
      rw [List.head?_cons, Option.some.injEq] at hc
      subst hc
      decide
  have hm : matchSegments (p.data ++ ((serializeParams ps).data ++ rest)) =
      p.data := matchSegments_print p.data _ hpsafe hbnd
  unfold parseSegments
  rw [hm]
  rw [if_neg (by simp [hpnil])]
  rw [capture_print p.data ((serializeParams ps).data ++ rest)]
  simp only [bind, Except.bind]
  cases ps with
  | nil =>
    rw [show (serializeParams []).data = [] from rfl, List.nil_append]
    rw [segEnd_not_semicolon hrest]
    simp only [Bool.false_eq_true, if_false, pure, Except.pure]
    rw [show (⟨p.data⟩ : String) = p from rfl, decode_safe hpsafe]
  | cons kv more =>
    have hpeek : peekStartsWith [';']
        ((serializeParams (kv :: more)).data ++ rest) = true := by
      rw [serializeParams_data _ hall, List.map_cons, List.flatten_cons,
        List.cons_append, List.cons_append]
      simp [peekStartsWith, List.isPrefixOf]
    rw [hpeek]
    simp only [if_true]
    rw [parseMatrixParams_print (kv :: more) rest hall hnd hrest]
    simp only [bind, Except.bind]
    rw [show (⟨p.data⟩ : String) = p from rfl, decode_safe hpsafe]

/-- Stopping shape of the segment loop. -/
theorem pathsEnd_stop {rest : List Char} (h : pathsEnd rest = true) :
    (peekStartsWith ['/'] rest && !peekStartsWith ['/', '/'] rest &&
      !peekStartsWith ['/', '('] rest) = false := by
  unfold pathsEnd at h
  rw [Bool.or_eq_true, Bool.or_eq_true] at h
  rcases h with (h | h) | h
  · cases rest with
    | nil => rfl
    | cons c r =>
      unfold childEnd at h
      rw [Bool.or_eq_true, Bool.or_eq_true, Bool.or_eq_true] at h
      rcases h with ((h | h) | h) | h
      · rw [beq_iff_eq] at h
        subst h
        simp [peekStartsWith, List.isPrefixOf]
      · rw [beq_iff_eq] at h
        subst h
        simp [peekStartsWith, List.isPrefixOf]
      · rw [beq_iff_eq] at h
        subst h
        simp [peekStartsWith, List.isPrefixOf]
      · rw [Bool.and_eq_true, beq_iff_eq] at h
        obtain ⟨rfl, h2⟩ := h
        cases r with
        | nil => simp [peekStartsWith, List.isPrefixOf] at h2
        | cons c2 r2 =>
          simp only [peekStartsWith, List.isPrefixOf, Bool.and_true] at h2
          rw [beq_iff_eq] at h2
          subst h2
          simp [peekStartsWith, List.isPrefixOf]
  · cases rest with
    | nil => cases h
    | cons c r =>
      simp only [peekStartsWith, List.isPrefixOf, Bool.and_true] at h
      rw [beq_iff_eq] at h
      subst h
      simp [peekStartsWith, List.isPrefixOf]
  · rw [h]
    simp

/-- The end of a segment list is also a segment end. -/
theorem pathsEnd_segEnd {rest : List Char} (h : pathsEnd rest = true) :
    segEnd rest = true := by
  unfold pathsEnd at h
  rw [Bool.or_eq_true, Bool.or_eq_true] at h
  rcases h with (h | h) | h
  · cases rest with
    | nil => rfl
    | cons c r =>
      unfold childEnd at h
      unfold segEnd
      rw [Bool.or_eq_true, Bool.or_eq_true, Bool.or_eq_true] at h
      rcases h with ((h | h) | h) | h
      · simp [h]
      · simp [h]
      · simp [h]
      · rw [Bool.and_eq_true] at h
        simp [h.1]
  · cases rest with
    | nil => rfl
    | cons c r =>
      simp only [peekStartsWith, List.isPrefixOf, Bool.and_true] at h
      rw [beq_iff_eq] at h
      subst h
      rfl
  · cases rest with
    | nil => rfl
    | cons c r =>
      cases r with
      | nil => simp [peekStartsWith, List.isPrefixOf] at h
      | cons c2 r2 =>
        simp only [peekStartsWith, List.isPrefixOf, Bool.and_true] at h
        rw [Bool.and_eq_true, beq_iff_eq, beq_iff_eq] at h
        obtain ⟨rfl, rfl⟩ := h
        rfl

/-- The segment loop over the printed tail segments. -/
theorem parsePathsLoop_print (segs : List UrlSegment) :
    ∀ (fuel : Nat) (acc : List UrlSegment) (rest : List Char),
      segs.all wfSegment = true →
      pathsEnd rest = true →
      segs.length + 1 ≤ fuel →
      parsePathsLoop fuel acc (printTail segs ++ rest) = .ok (acc ++ segs, rest) := by
  induction segs with
  | nil =>
    intro fuel acc rest h1 h2 hf
    cases fuel with
    | zero => omega
    | succ f =>
      unfold parsePathsLoop
      rw [show printTail [] = [] from rfl, List.nil_append]
      rw [pathsEnd_stop h2]
      simp
  | cons s more ih =>
    intro fuel acc rest h1 h2 hf
    cases fuel with
    | zero => omega
    | succ f =>
      rw [List.all_cons, Bool.and_eq_true] at h1
      obtain ⟨hs, hmore⟩ := h1
      have hpnil : s.path.data ≠ [] := by
        have : safeStr s.path = true := by
          unfold wfSegment at hs
          rw [Bool.and_eq_true] at hs
          exact hs.1
        exact (safeStr_spec this).1
      have hpsafe : ∀ c ∈ s.path.data, isSafeUrlChar c = true := by
        have : safeStr s.path = true := by
          unfold wfSegment at hs
          rw [Bool.and_eq_true] at hs
          exact hs.1
        exact (safeStr_spec this).2
      obtain ⟨c0, cs0, hc0⟩ := List.exists_cons_of_ne_nil hpnil
      have hc0safe : isSafeUrlChar c0 = true := by
        apply hpsafe
        rw [hc0]
        exact List.mem_cons_self c0 cs0
      have hdata : (serializePath s).data =
          c0 :: (cs0 ++ (serializeParams s.parameters).data) := by
        show (encode s.path ++ serializeParams s.parameters).data = _
        rw [encode_safe hpsafe, String.data_append, hc0]
        rfl
      unfold parsePathsLoop printTail
      rw [List.map_cons, List.flatten_cons]
      rw [hdata]
      rw [show ((('/' :: (c0 :: (cs0 ++ (serializeParams s.parameters).data))) ++
          (more.map (fun s => '/' :: (serializePath s).data)).flatten) ++ rest) =
          '/' :: (c0 :: (cs0 ++ (serializeParams s.parameters).data ++
            ((more.map (fun s => '/' :: (serializePath s).data)).flatten ++ rest)))
        by simp [List.append_assoc]]
      rw [if_pos (by
        simp only [peekStartsWith, List.isPrefixOf, beq_self_eq_true,
          Bool.true_and, Bool.and_true]
        rw [show (('/' : Char) == c0) = (c0 == '/') from Bool.beq_comm,
          show (('(' : Char) == c0) = (c0 == '(') from Bool.beq_comm]
        rw [safe_char_ne c0 '/' hc0safe (by decide),
          safe_char_ne c0 '(' hc0safe (by decide)]
        rfl)]
      rw [show capture ['/'] ('/' :: (c0 :: (cs0 ++
          (serializeParams s.parameters).data ++
          ((more.map (fun s => '/' :: (serializePath s).data)).flatten ++ rest)))) =
          .ok (c0 :: (cs0 ++ (serializeParams s.parameters).data ++
            ((more.map (fun s => '/' :: (serializePath s).data)).flatten ++ rest)))
        from capture_print ['/'] _]
      simp only [bind, Except.bind]
      have hrest2 : segEnd
          ((more.map (fun s => '/' :: (serializePath s).data)).flatten ++ rest) =
          true := by
        cases more with
        | nil =>
          rw [List.map_nil, List.flatten_nil, List.nil_append]
          exact pathsEnd_segEnd h2
        | cons s2 more2 =>
          rw [List.map_cons, List.flatten_cons, List.cons_append, List.cons_append]
          rfl
      have hseg := parseSegments_print s
        ((more.map (fun s => '/' :: (serializePath s).data)).flatten ++ rest)
        hs hrest2
      rw [show c0 :: (cs0 ++ (serializeParams s.parameters).data ++
          ((more.map (fun s => '/' :: (serializePath s).data)).flatten ++ rest)) =
          (serializePath s).data ++
          ((more.map (fun s => '/' :: (serializePath s).data)).flatten ++ rest)
        by rw [hdata]; simp [List.append_assoc]]
      rw [hseg]
      simp only [bind, Except.bind]
      have := ih f (acc ++ [s]) rest hmore h2 (by
        simp only [List.length_cons] at hf
        omega)
      unfold printTail at this
      rw [this]
      simp

/-- A group end is also a possible segment-list end. -/
theorem childEnd_pathsEnd {rest : List Char} (h : childEnd rest = true) :
    pathsEnd rest = true := by
  unfold pathsEnd
  rw [h]
  rfl

/-- A group end is also a segment end. -/
theorem childEnd_segEnd {rest : List Char} (h : childEnd rest = true) :
    segEnd rest = true :=
  pathsEnd_segEnd (childEnd_pathsEnd h)

/-- A group end never starts with the own-children marker. -/
theorem childEnd_not_slashParen {rest : List Char} (h : childEnd rest = true) :
    peekStartsWith ['/', '('] rest = false := by
  cases rest with
  | nil => rfl
  | cons c r =>
    unfold childEnd at h
    rw [Bool.or_eq_true, Bool.or_eq_true, Bool.or_eq_true] at h
    rcases h with ((h | h) | h) | h
    · rw [beq_iff_eq] at h
      subst h
      simp [peekStartsWith, List.isPrefixOf]
    · rw [beq_iff_eq] at h
      subst h
      simp [peekStartsWith, List.isPrefixOf]
    · rw [beq_iff_eq] at h
      subst h
      simp [peekStartsWith, List.isPrefixOf]
    · rw [Bool.and_eq_true, beq_iff_eq] at h
      obtain ⟨rfl, h2⟩ := h
      cases r with
      | nil => simp [peekStartsWith, List.isPrefixOf] at h2
      | cons c2 r2 =>
        simp only [peekStartsWith, List.isPrefixOf, Bool.and_true] at h2
        rw [beq_iff_eq] at h2
        subst h2
        simp [peekStartsWith, List.isPrefixOf]

/-- A group end never starts with an opening paren. -/
theorem childEnd_not_paren {rest : List Char} (h : childEnd rest = true) :
    peekStartsWith ['('] rest = false := by
  cases rest with
  | nil => rfl
  | cons c r =>
    unfold childEnd at h
    rw [Bool.or_eq_true, Bool.or_eq_true, Bool.or_eq_true] at h
    rcases h with ((h | h) | h) | h
    · rw [beq_iff_eq] at h
      subst h
      simp [peekStartsWith, List.isPrefixOf]
    · rw [beq_iff_eq] at h
      subst h
      simp [peekStartsWith, List.isPrefixOf]
    · rw [beq_iff_eq] at h
      subst h
      simp [peekStartsWith, List.isPrefixOf]
    · rw [Bool.and_eq_true, beq_iff_eq] at h
      obtain ⟨rfl, _⟩ := h
      simp [peekStartsWith, List.isPrefixOf]

/-- A block delimiter is not a segment character. -/
theorem delim_not_segment {d : Char}
    (h : (d == '/' || d == ')' || d == ';') = true) : isSegmentChar d = false := by
  rw [Bool.or_eq_true, Bool.or_eq_true] at h
  rcases h with (h | h) | h <;>
    (rw [beq_iff_eq] at h; subst h; decide)

/-- A character list contains a character it visibly holds. -/
theorem char_contains_append_cons_self (r l2 : List Char) (x : Char) :
    (r ++ x :: l2).contains x = true := by
  induction r with
  | nil => simp [List.contains_cons]
  | cons y yr ih => simp [List.contains_cons, ih]

/-- The data of an intercalation, as a flattened list. -/
theorem intercalate_flatten_data (sep x : String) (l : List String) :
    (String.intercalate sep (x :: l)).data =
      x.data ++ (l.map (fun s => sep.data ++ s.data)).flatten := by
  induction l generalizing x with
  | nil =>
    rw [show String.intercalate sep [x] = x from rfl]
    simp
  | cons y r ih =>
    rw [show String.intercalate sep (x :: y :: r) =
      String.intercalate sep ((x ++ sep ++ y) :: r) from rfl, ih]
    simp [String.data_append, List.append_assoc]

/-- Peeling the first element off an intercalation of at least two. -/
theorem intercalate_cons_cons (sep x y : String) (l : List String) :
    (String.intercalate sep (x :: y :: l)).data =
      x.data ++ (sep.data ++ (String.intercalate sep (y :: l)).data) := by
  rw [intercalate_flatten_data, intercalate_flatten_data]
  simp [List.append_assoc]

/-- The serialized segment list of a group with at least one segment. -/
theorem serializePaths_data (s1 : UrlSegment) (more : List UrlSegment)
    (cs : UrlChildren) :
    (serializePaths (.mk (s1 :: more) cs)).data =
      (serializePath s1).data ++ printTail more := by
  unfold serializePaths
  rw [show (UrlSegmentGroup.mk (s1 :: more) cs).segments = s1 :: more from rfl]
  rw [List.map_cons, intercalate_flatten_data]
  unfold printTail
  rw [List.map_map]
  rfl

/-- Each printed tail segment contributes at least one character. -/
theorem printTail_length_ge (segs : List UrlSegment) :
    segs.length ≤ (printTail segs).length := by
  induction segs with
  | nil => simp [printTail]
  | cons s r ih =>
    unfold printTail at ih ⊢
    simp only [List.map_cons, List.flatten_cons, List.length_append,
      List.length_cons]
    omega

/-- Appending the empty children map is the identity. -/
theorem children_append_nil : ∀ (cs : UrlChildren), cs.append .nil = cs
  | .nil => rfl
  | .cons n g r => by
    unfold UrlChildren.append
    rw [children_append_nil r]

/-- Associativity of children-map append. -/
theorem children_append_assoc : ∀ (a b c : UrlChildren),
    (a.append b).append c = a.append (b.append c)
  | .nil, b, c => rfl
  | .cons n g r, b, c => by
    show UrlChildren.cons n g ((r.append b).append c) =
      UrlChildren.cons n g (r.append (b.append c))
    rw [children_append_assoc r b c]

/-- Keys of an appended children map. -/
theorem children_keys_append : ∀ (a b : UrlChildren),
    (a.append b).keys = a.keys ++ b.keys
  | .nil, b => rfl
  | .cons n g r, b => by
    show n :: (r.append b).keys = (n :: r.keys) ++ b.keys
    rw [children_keys_append r b]
    rfl

/-- `entriesChildren` over an appended block list. -/
theorem entriesChildren_append (l1 l2 : List BlockEntry) :
    entriesChildren (l1 ++ l2) =
      (entriesChildren l1).append (entriesChildren l2) := by
  induction l1 with
  | nil => rfl
  | cons e r ih =>
    rw [List.cons_append]
    show UrlChildren.cons (entryName e) (reparseG e.2) (entriesChildren (r ++ l2)) =
      (entriesChildren (e :: r)).append (entriesChildren l2)
    rw [ih]
    rfl

/-- The parser children of the primary block entries. -/
theorem entriesChildren_primary : ∀ (cs : UrlChildren),
    entriesChildren ((primaryEntriesL cs).map
      (fun g => ((none : Option String), g))) = reparsePrimaryEntries cs
  | .nil => rfl
  | .cons n g r => by
    rw [reparsePrimaryEntries]
    by_cases hn : n = PRIMARY_OUTLET
    · subst hn
      rw [primaryEntriesL, if_pos rfl, if_pos rfl, List.map_cons]
      unfold entriesChildren
      rw [entriesChildren_primary r]
      rfl
    · rw [primaryEntriesL, if_neg hn, if_neg hn]
      exact entriesChildren_primary r

/-- The parser children of the named block entries. -/
theorem entriesChildren_named : ∀ (cs : UrlChildren),
    entriesChildren ((namedEntriesL cs).map
      (fun e => (some e.1, e.2))) = reparseNamedEntries cs
  | .nil => rfl
  | .cons n g r => by
    rw [reparseNamedEntries]
    by_cases hn : n = PRIMARY_OUTLET
    · subst hn
      rw [namedEntriesL, if_pos rfl, if_pos rfl]
      exact entriesChildren_named r
    · rw [namedEntriesL, if_neg hn, if_neg hn, List.map_cons]
      unfold entriesChildren
      rw [entriesChildren_named r]
      rfl

/-- The parser children of all block entries of an inner group. -/
theorem entriesChildren_allEntries (cs : UrlChildren) :
    entriesChildren (allEntries cs) =
      (reparsePrimaryEntries cs).append (reparseNamedEntries cs) := by
  unfold allEntries
  rw [entriesChildren_append, entriesChildren_primary, entriesChildren_named]

/-- The parser children of the named-only block entries. -/
theorem entriesChildren_namedOnly (cs : UrlChildren) :
    entriesChildren (namedOnly cs) = reparseNamedEntries cs := by
  unfold namedOnly
  exact entriesChildren_named cs

/-- The primary blocks are the serializations of the primary entries. -/
theorem serializePrimaryBlocks_eq : ∀ (cs : UrlChildren),
    serializePrimaryBlocks cs =
      (primaryEntriesL cs).map (fun g => serializeSegment g false)
  | .nil => rfl
  | .cons n g r => by
    rw [serializePrimaryBlocks, primaryEntriesL]
    by_cases hn : n = PRIMARY_OUTLET
    · rw [if_pos hn, if_pos hn, List.map_cons, serializePrimaryBlocks_eq r]
    · rw [if_neg hn, if_neg hn, serializePrimaryBlocks_eq r]

/-- The named blocks are the name-prefixed serializations of the named
entries. -/
theorem serializeNamedBlocks_eq : ∀ (cs : UrlChildren),
    serializeNamedBlocks cs =
      (namedEntriesL cs).map (fun e => e.1 ++ ":" ++ serializeSegment e.2 false)
  | .nil => rfl
  | .cons n g r => by
    rw [serializeNamedBlocks, namedEntriesL]
    by_cases hn : n = PRIMARY_OUTLET
    · rw [if_pos hn, if_pos hn, serializeNamedBlocks_eq r]
    · rw [if_neg hn, if_neg hn, List.map_cons, serializeNamedBlocks_eq r]

/-- The serializer block texts of an inner group are the block texts of its
entry list. -/
theorem allEntries_blocks (cs : UrlChildren) :
    serializePrimaryBlocks cs ++ serializeNamedBlocks cs =
      (allEntries cs).map blockOf := by
  unfold allEntries
  rw [List.map_append, List.map_map, List.map_map,
    serializePrimaryBlocks_eq, serializeNamedBlocks_eq]
  rfl

/-- The serializer named-block texts are the block texts of the named-only
entry list. -/
theorem namedOnly_blocks (cs : UrlChildren) :
    serializeNamedBlocks cs = (namedOnly cs).map blockOf := by
  unfold namedOnly
  rw [List.map_map, serializeNamedBlocks_eq]
  rfl

/-- Primary entries of well-formed children are well-formed. -/
theorem wf_primaryEntries : ∀ (cs : UrlChildren), wfChildrenB cs = true →
    ∀ g ∈ primaryEntriesL cs, wfGroupB g = true
  | .nil, _, g, hg => by simp [primaryEntriesL] at hg
  | .cons n g0 r, h, g, hg => by
    rw [wfChildrenB, Bool.and_eq_true, Bool.and_eq_true] at h
    rw [primaryEntriesL] at hg
    by_cases hn : n = PRIMARY_OUTLET
    · rw [if_pos hn, List.mem_cons] at hg
      rcases hg with rfl | hg
      · exact h.1.2
      · exact wf_primaryEntries r h.2 g hg
    · rw [if_neg hn] at hg
      exact wf_primaryEntries r h.2 g hg

/-- Named entries of well-formed children have safe names and well-formed
groups. -/
theorem wf_namedEntries : ∀ (cs : UrlChildren), wfChildrenB cs = true →
    ∀ e ∈ namedEntriesL cs, safeStr e.1 = true ∧ wfGroupB e.2 = true
  | .nil, _, e, he => by simp [namedEntriesL] at he
  | .cons n g0 r, h, e, he => by
    rw [wfChildrenB, Bool.and_eq_true, Bool.and_eq_true] at h
    rw [namedEntriesL] at he
    by_cases hn : n = PRIMARY_OUTLET
    · rw [if_pos hn] at he
      exact wf_namedEntries r h.2 e he
    · rw [if_neg hn, List.mem_cons] at he
      rcases he with rfl | he
      · exact ⟨h.1.1, h.1.2⟩
      · exact wf_namedEntries r h.2 e he

/-- A primary entry is no larger than its children map. -/
theorem size_primaryEntries : ∀ (cs : UrlChildren),
    ∀ g ∈ primaryEntriesL cs, sizeG g ≤ sizeC cs
  | .nil, g, hg => by simp [primaryEntriesL] at hg
  | .cons n g0 r, g, hg => by
    rw [primaryEntriesL] at hg
    rw [sizeC]
    by_cases hn : n = PRIMARY_OUTLET
    · rw [if_pos hn, List.mem_cons] at hg
      rcases hg with rfl | hg
      · omega
      · have := size_primaryEntries r g hg
        omega
    · rw [if_neg hn] at hg
      have := size_primaryEntries r g hg
      omega

/-- A named entry is no larger than its children map. -/
theorem size_namedEntries : ∀ (cs : UrlChildren),
    ∀ e ∈ namedEntriesL cs, sizeG e.2 ≤ sizeC cs
  | .nil, e, he => by simp [namedEntriesL] at he
  | .cons n g0 r, e, he => by
    rw [namedEntriesL] at he
    rw [sizeC]
    by_cases hn : n = PRIMARY_OUTLET
    · rw [if_pos hn] at he
      have := size_namedEntries r e he
      omega
    · rw [if_neg hn, List.mem_cons] at he
      rcases he with rfl | he
      · show sizeG g0 ≤ 1 + sizeG g0 + sizeC r
        omega
      · have := size_namedEntries r e he
        omega

/-- Boolean containment agrees with membership. -/
theorem contains_iff_mem {α : Type} [BEq α] [LawfulBEq α] (l : List α) (x : α) :
    l.contains x = true ↔ x ∈ l := by
  induction l with
  | nil => simp [List.contains]
  | cons y r ih =>
    rw [List.contains_cons, Bool.or_eq_true, beq_iff_eq, List.mem_cons, ih]

/-- The boolean duplicate-freedom test agrees with `List.Nodup`. -/
theorem nodupKeys_iff (l : List String) : nodupKeys l = true ↔ l.Nodup := by
  induction l with
  | nil => simp [nodupKeys]
  | cons x r ih =>
    rw [nodupKeys, Bool.and_eq_true, Bool.not_eq_true', List.nodup_cons, ← ih]
    constructor
    · intro h
      refine ⟨fun hm => ?_, h.2⟩
      rw [← contains_iff_mem r x] at hm
      rw [hm] at h
      cases h.1
    · intro h
      refine ⟨?_, h.2⟩
      by_cases hc : r.contains x = true
      · exact absurd ((contains_iff_mem r x).mp hc) h.1
      · simpa using hc

/-- The names of all block entries are a permutation of the children
keys. -/
theorem allEntries_names_perm : ∀ (cs : UrlChildren),
    List.Perm ((allEntries cs).map entryName) cs.keys
  | .nil => List.Perm.refl _
  | .cons n g r => by
    rw [UrlChildren.keys]
    unfold allEntries
    rw [primaryEntriesL, namedEntriesL]
    by_cases hn : n = PRIMARY_OUTLET
    · rw [if_pos hn, if_pos hn, List.map_cons, List.cons_append, List.map_cons]
      subst hn
      exact List.Perm.cons _ (allEntries_names_perm r)
    · rw [if_neg hn, if_neg hn, List.map_cons, List.map_append, List.map_cons]
      refine List.Perm.trans List.perm_middle ?_
      show List.Perm (n :: (((primaryEntriesL r).map
          (fun g => ((none : Option String), g))).map entryName ++
        ((namedEntriesL r).map (fun e => (some e.1, e.2))).map entryName))
        (n :: r.keys)
      refine List.Perm.cons _ ?_
      have hr := allEntries_names_perm r
      unfold allEntries at hr
      rw [List.map_append] at hr
      exact hr

/-- Duplicate-free children keys give duplicate-free block names. -/
theorem nodup_allEntries_names (cs : UrlChildren)
    (h : nodupKeys cs.keys = true) :
    nodupKeys ((allEntries cs).map entryName) = true := by
  rw [nodupKeys_iff] at h ⊢
  exact (List.Perm.nodup_iff (allEntries_names_perm cs)).mpr h

/-- The names of all block entries split into the primary and the named
part. -/
theorem allEntries_names_split (cs : UrlChildren) :
    (allEntries cs).map entryName =
      ((primaryEntriesL cs).map (fun _ => PRIMARY_OUTLET)) ++
        ((namedOnly cs).map entryName) := by
  unfold allEntries namedOnly
  rw [List.map_append, List.map_map, List.map_map]
  rfl

/-- Duplicate-free children keys give duplicate-free named-only block
names. -/
theorem nodup_namedOnly_names (cs : UrlChildren)
    (h : nodupKeys cs.keys = true) :
    nodupKeys ((namedOnly cs).map entryName) = true := by
  have h2 := nodup_allEntries_names cs h
  rw [allEntries_names_split] at h2
  exact nodupKeys_append_right h2

/-- The serializer of a childless non-root group emits just the segment
list. -/
theorem serializeSegment_noChildren (segs : List UrlSegment) :
    serializeSegment (.mk segs .nil) false = serializePaths (.mk segs .nil) := rfl

/-- The serializer of a non-root group with children emits the segment list,
then the block list in parens, primary blocks first. -/
theorem serializeSegment_withChildren (segs : List UrlSegment) (n0 : String)
    (g0 : UrlSegmentGroup) (r0 : UrlChildren) :
    serializeSegment (.mk segs (.cons n0 g0 r0)) false =
      serializePaths (.mk segs (.cons n0 g0 r0)) ++ "/(" ++
        String.intercalate "//"
          ((allEntries (.cons n0 g0 r0)).map blockOf) ++ ")" := by
  have h1 : serializeSegment (.mk segs (.cons n0 g0 r0)) false =
      serializePaths (.mk segs (.cons n0 g0 r0)) ++ "/(" ++
        String.intercalate "//" (serializePrimaryBlocks (.cons n0 g0 r0) ++
          serializeNamedBlocks (.cons n0 g0 r0)) ++ ")" := by
    rw [serializeSegment]
    simp only [UrlSegmentGroup.hasChildren, UrlChildren.length]
    norm_num
  rw [h1, allEntries_blocks]

/-- The printed first segment, as characters. -/
theorem serializePath_data (s : UrlSegment)
    (hpsafe : ∀ c ∈ s.path.data, isSafeUrlChar c = true) :
    (serializePath s).data = s.path.data ++ (serializeParams s.parameters).data := by
  show (encode s.path ++ serializeParams s.parameters).data = _
  rw [encode_safe hpsafe, String.data_append]

/-- Decomposition of a printed non-root group followed by a block end: a
nonempty safe prefix (the first segment path) and then a delimiter. -/
theorem body_decomp (g : UrlSegmentGroup) (after : List Char)
    (hwf : wfGroupB g = true)
    (hafter : after.head? = some '/' ∨ after.head? = some ')') :
    ∃ p0 d tailC, (serializeSegment g false).data ++ after = p0 ++ d :: tailC ∧
      p0 ≠ [] ∧ (∀ c ∈ p0, isSafeUrlChar c = true) ∧
      (d == '/' || d == ')' || d == ';') = true := by
  obtain ⟨segs, cs⟩ := g
  rw [wfGroupB] at hwf
  rw [Bool.and_eq_true, Bool.and_eq_true, Bool.and_eq_true] at hwf
  obtain ⟨⟨⟨hne, hall⟩, hnodup⟩, hwfc⟩ := hwf
  cases segs with
  | nil => simp at hne
  | cons s1 more =>
    rw [List.all_cons, Bool.and_eq_true] at hall
    obtain ⟨hs1, hmore⟩ := hall
    have hp : safeStr s1.path = true := by
      unfold wfSegment at hs1
      rw [Bool.and_eq_true] at hs1
      exact hs1.1
    have hparams : s1.parameters.all
        (fun kv => safeStr kv.1 && safeStrAllowEmpty kv.2) = true := by
      unfold wfSegment at hs1
      rw [Bool.and_eq_true] at hs1
      have := hs1.2
      unfold wfParams at this
      rw [Bool.and_eq_true] at this
      exact this.1
    obtain ⟨hpne, hpsafe⟩ := safeStr_spec hp
    -- the shape of everything after the first path
    have hsuffix : ∃ suffix : List Char,
        (serializeSegment (.mk (s1 :: more) cs) false).data ++ after =
          s1.path.data ++ ((serializeParams s1.parameters).data ++
            (printTail more ++ suffix)) ∧
        (suffix.head? = some '/' ∨ suffix.head? = some ')') := by
      cases cs with
      | nil =>
        refine ⟨after, ?_, hafter⟩
        rw [serializeSegment_noChildren, serializePaths_data,
          serializePath_data s1 hpsafe]
        simp [List.append_assoc]
      | cons n0 g0 r0 =>
        refine ⟨'/' :: '(' :: ((String.intercalate "//"
          ((allEntries (.cons n0 g0 r0)).map blockOf)).data ++ (')' :: after)),
          ?_, Or.inl rfl⟩
        rw [serializeSegment_withChildren]
        rw [String.data_append, String.data_append, String.data_append]
        rw [serializePaths_data, serializePath_data s1 hpsafe]
        rw [show ("/(" : String).data = ['/', '('] from rfl,
          show (")" : String).data = [')'] from rfl]
        simp [List.append_assoc]
    obtain ⟨suffix, hrep, hsuf⟩ := hsuffix
    rw [hrep]
    cases hps : s1.parameters with
    | cons kv ps2 =>
      rw [hps] at hparams
      rw [serializeParams_data _ hparams, List.map_cons, List.flatten_cons]
      exact ⟨s1.path.data, ';',
        kv.1.data ++ '=' :: kv.2.data ++
          ((List.map (fun kv => ';' :: (kv.1.data ++ '=' :: kv.2.data))
            ps2).flatten ++ (printTail more ++ suffix)),
        by simp [List.append_assoc], hpne, hpsafe, by decide⟩
    | nil =>
      rw [show (serializeParams []).data = [] from rfl, List.nil_append]
      cases more with
      | cons s2 more2 =>
        unfold printTail
        rw [List.map_cons, List.flatten_cons]
        exact ⟨s1.path.data, '/',
          (serializePath s2).data ++
            ((List.map (fun s => '/' :: (serializePath s).data) more2).flatten ++
              suffix),
          by simp [List.append_assoc], hpne, hpsafe, by decide⟩
      | nil =>
        rw [show printTail [] = [] from rfl, List.nil_append]
        rcases hsuf with hsuf | hsuf
        · cases suffix with
          | nil => cases hsuf
          | cons c srest =>
            rw [List.head?_cons, Option.some.injEq] at hsuf
            subst hsuf
            exact ⟨s1.path.data, '/', srest, rfl, hpne, hpsafe, by decide⟩
        · cases suffix with
          | nil => cases hsuf
          | cons c srest =>
            rw [List.head?_cons, Option.some.injEq] at hsuf
            subst hsuf
            exact ⟨s1.path.data, ')', srest, rfl, hpne, hpsafe, by decide⟩

/-- One iteration of the paren block loop over one printed block: it stores
the block group under its outlet name and continues after the optional
separator. -/
theorem parseParensLoop_step (eo : Option String) (g' : UrlSegmentGroup)
    (after : List Char) (fuel : Nat) (allowPrimary : Bool) (acc : UrlChildren)
    (hG1 : ∀ (rest2 : List Char) (fuel2 : Nat), childEnd rest2 = true →
      2 + 5 * ((serializeSegment g' false).data ++ rest2).length ≤ fuel2 →
      parseChildren fuel2 ((serializeSegment g' false).data ++ rest2) =
        .ok (.cons PRIMARY_OUTLET (reparseG g') .nil, rest2))
    (hwfg : wfGroupB g' = true)
    (hname : ∀ nm, eo = some nm → safeStr nm = true)
    (hprim : allowPrimary = false → eo ≠ none)
    (hfresh : (acc.keys).contains (entryName (eo, g')) = false)
    (hchild : childEnd after = true)
    (hhead : after.head? = some '/' ∨ after.head? = some ')')
    (hfuel : 3 + 5 * ((blockOf (eo, g')).data ++ after).length ≤ fuel) :
    parseParensLoop fuel allowPrimary acc ((blockOf (eo, g')).data ++ after) =
      parseParensLoop (fuel - 1) allowPrimary
        (acc.append (.cons (entryName (eo, g')) (reparseG g') .nil))
        (if peekStartsWith ['/', '/'] after then after.drop 2 else after) := by
  cases fuel with
  | zero => omega
  | succ f2 =>
    rw [Nat.add_sub_cancel]
    obtain ⟨p0, d, tailC, hdec, hp0ne, hp0safe, hdset⟩ :=
      body_decomp g' after hwfg hhead
    obtain ⟨q0, qrest, hq⟩ := List.exists_cons_of_ne_nil hp0ne
    have hq0safe : isSafeUrlChar q0 = true := by
      apply hp0safe
      rw [hq]
      exact List.mem_cons_self q0 qrest
    have hdbound : ∀ c, (d :: tailC).head? = some c → isSegmentChar c = false := by
      intro c hc
      rw [List.head?_cons, Option.some.injEq] at hc
      subst hc
      exact delim_not_segment hdset
    have hdroplen : List.drop p0.length (p0 ++ d :: tailC) = d :: tailC :=
      List.drop_left p0 (d :: tailC)
    cases eo with
    | none =>
      cases allowPrimary with
      | false => exact absurd rfl (hprim rfl)
      | true =>
        have hfuel2 : 3 + 5 *
            ((serializeSegment g' false).data ++ after).length ≤ f2 + 1 := hfuel
        have hchildfuel : 2 + 5 *
            ((serializeSegment g' false).data ++ after).length ≤ f2 := by omega
        have hpeekR : peekStartsWith [')'] (p0 ++ d :: tailC) = false := by
          rw [hq]
          simp only [List.cons_append, peekStartsWith, List.isPrefixOf,
            Bool.and_true]
          rw [show ((')' : Char) == q0) = (q0 == ')') from Bool.beq_comm]
          exact safe_char_ne q0 ')' hq0safe (by decide)
        have hlen : (p0 ++ d :: tailC).length > 0 := by
          rw [hq]
          simp
        have hpath : matchSegments (p0 ++ d :: tailC) = p0 :=
          matchSegments_print p0 (d :: tailC) hp0safe hdbound
        have hcontains : p0.contains ':' = false := safe_not_contains_colon hp0safe
        generalize hR : parseParensLoop f2 true
          (acc.append (.cons (entryName ((none : Option String), g'))
            (reparseG g') .nil))
          (if peekStartsWith ['/', '/'] after then after.drop 2 else after) = R
        unfold parseParensLoop
        have hdec' : (blockOf (none, g')).data ++ after = p0 ++ d :: tailC := hdec
        rw [hdec']
        rw [hpeekR]
        rw [if_pos (by
          simp only [Bool.not_false, Bool.true_and, decide_eq_true_eq]
          exact hlen)]
        simp only [hpath, hdroplen, hdset, Bool.not_true, Bool.false_eq_true,
          if_false, hcontains, eq_self_iff_true, if_true]
        simp only [bind, Except.bind, pure, Except.pure]
        rw [show p0 ++ d :: tailC = (serializeSegment g' false).data ++ after
          from hdec.symm]
        rw [hG1 after f2 hchild hchildfuel]
        simp only [bind, Except.bind]
        rw [if_pos (show (UrlChildren.cons PRIMARY_OUTLET (reparseG g')
          UrlChildren.nil).length = 1 from rfl)]
        rw [show (UrlChildren.cons PRIMARY_OUTLET (reparseG g')
          UrlChildren.nil).lookup PRIMARY_OUTLET = some (reparseG g') from rfl]
        simp only [bind, Except.bind, pure, Except.pure]
        rw [assign_fresh acc PRIMARY_OUTLET (reparseG g') hfresh]
        rw [← hR]
        by_cases hsl : peekStartsWith ['/', '/'] after = true
        · rw [if_pos hsl, if_pos hsl]
          unfold capture
          rw [if_pos (by exact hsl)]
          rfl
        · rw [if_neg hsl, if_neg hsl]
          rfl
    | some nm =>
      have hnm : safeStr nm = true := hname nm rfl
      obtain ⟨hnmne, hnmsafe⟩ := safeStr_spec hnm
      obtain ⟨n0, nrest, hn⟩ := List.exists_cons_of_ne_nil hnmne
      have hn0safe : isSafeUrlChar n0 = true := by
        apply hnmsafe
        rw [hn]
        exact List.mem_cons_self n0 nrest
      have hblock : (blockOf (some nm, g')).data =
          nm.data ++ ':' :: (serializeSegment g' false).data := by
        show (nm ++ ":" ++ serializeSegment g' false).data = _
        rw [String.data_append, String.data_append]
        simp [List.append_assoc]
      have hinput : (blockOf (some nm, g')).data ++ after =
          (nm.data ++ ':' :: p0) ++ d :: tailC := by
        rw [hblock]
        simp only [List.append_assoc, List.cons_append]
        rw [hdec]
      have hinput2 : (nm.data ++ ':' :: p0) ++ d :: tailC =
          nm.data ++ ':' :: ((serializeSegment g' false).data ++ after) := by
        rw [List.append_assoc, List.cons_append, hdec]
      have hlen3 : ((blockOf (some nm, g')).data ++ after).length =
          nm.data.length + 1 + ((serializeSegment g' false).data ++ after).length := by
        rw [hblock]
        simp [List.length_append]
        omega
      have hchildfuel : 2 + 5 *
          ((serializeSegment g' false).data ++ after).length ≤ f2 := by
        rw [hlen3] at hfuel
        omega
      have hpeekR : peekStartsWith [')']
          ((nm.data ++ ':' :: p0) ++ d :: tailC) = false := by
        rw [hn]
        simp only [List.cons_append, peekStartsWith, List.isPrefixOf,
          Bool.and_true]
        rw [show ((')' : Char) == n0) = (n0 == ')') from Bool.beq_comm]
        exact safe_char_ne n0 ')' hn0safe (by decide)
      have hlen : ((nm.data ++ ':' :: p0) ++ d :: tailC).length > 0 := by
        rw [hn]
        simp
      have hpath : matchSegments ((nm.data ++ ':' :: p0) ++ d :: tailC) =
          nm.data ++ ':' :: p0 := by
        apply takeWhile_append_bound isSegmentChar _ _ _ hdbound
        intro c hc
        rw [List.mem_append, List.mem_cons] at hc
        rcases hc with hc | hc | hc
        · exact safe_isSegmentChar (hnmsafe c hc)
        · subst hc
          decide
        · exact safe_isSegmentChar (hp0safe c hc)
      have hcontains : (nm.data ++ ':' :: p0).contains ':' = true :=
        char_contains_append_cons_self nm.data p0 ':'
      have houtlet : (nm.data ++ ':' :: p0).takeWhile (fun c => !(c == ':')) =
          nm.data := by
        apply takeWhile_append_bound
        · intro c hc
          rw [safe_char_ne c ':' (hnmsafe c hc) (by decide)]
          rfl
        · intro c hc
          rw [List.head?_cons, Option.some.injEq] at hc
          subst hc
          rfl
      have hdroplen2 : List.drop (nm.data ++ ':' :: p0).length
          ((nm.data ++ ':' :: p0) ++ d :: tailC) = d :: tailC :=
        List.drop_left _ _
      generalize hR : parseParensLoop f2 allowPrimary
        (acc.append (.cons (entryName (some nm, g')) (reparseG g') .nil))
        (if peekStartsWith ['/', '/'] after then after.drop 2 else after) = R
      unfold parseParensLoop
      rw [hinput]
      rw [hpeekR]
      rw [if_pos (by
        simp only [Bool.not_false, Bool.true_and, decide_eq_true_eq]
        exact hlen)]
      simp only [hpath, hdroplen2, hdset, Bool.not_true, Bool.false_eq_true,
        if_false, hcontains, eq_self_iff_true, if_true]
      rw [houtlet]
      rw [show (nm.data ++ ':' :: p0) ++ d :: tailC =
        nm.data ++ (':' :: ((serializeSegment g' false).data ++ after))
        from hinput2]
      rw [capture_print nm.data (':' :: ((serializeSegment g' false).data ++ after))]
      simp only [bind, Except.bind, pure, Except.pure]
      rw [capture_cons ':' ((serializeSegment g' false).data ++ after)]
      simp only [bind, Except.bind]
      rw [hG1 after f2 hchild hchildfuel]
      simp only [bind, Except.bind]
      rw [if_pos (show (UrlChildren.cons PRIMARY_OUTLET (reparseG g')
        UrlChildren.nil).length = 1 from rfl)]
      rw [show (UrlChildren.cons PRIMARY_OUTLET (reparseG g')
        UrlChildren.nil).lookup PRIMARY_OUTLET = some (reparseG g') from rfl]
      simp only [bind, Except.bind, pure, Except.pure]
      rw [show ({ data := nm.data } : String) = nm from rfl]
      rw [assign_fresh acc nm (reparseG g') hfresh]
      rw [← hR]
      by_cases hsl : peekStartsWith ['/', '/'] after = true
      · rw [if_pos hsl, if_pos hsl]
        unfold capture
        rw [if_pos (by exact hsl)]
        rfl
      · rw [if_neg hsl, if_neg hsl]
        rfl

/-- A printed block is never empty. -/
theorem blockOf_ne_nil (eo : Option String) (g' : UrlSegmentGroup)
    (hwf : wfGroupB g' = true)
    (hname : ∀ nm, eo = some nm → safeStr nm = true) :
    (blockOf (eo, g')).data ≠ [] := by
  have hseg : (serializeSegment g' false).data ≠ [] := by
    intro hnil
    obtain ⟨p0, d, tl, hdec, hp0ne, _, _⟩ := body_decomp g' [')'] hwf (Or.inr rfl)
    rw [hnil, List.nil_append] at hdec
    have := congrArg List.length hdec
    simp only [List.length_cons, List.length_append, List.length_nil] at this
    have hp0 : p0.length = 0 := by omega
    exact hp0ne (List.eq_nil_of_length_eq_zero hp0)
  cases eo with
  | none => exact hseg
  | some nm =>
    have hblock : (blockOf (some nm, g')).data =
        nm.data ++ ':' :: (serializeSegment g' false).data := by
      show (nm ++ ":" ++ serializeSegment g' false).data = _
      rw [String.data_append, String.data_append]
      simp [List.append_assoc]
    rw [hblock]
    simp

/-- The paren block loop consumes a printed block list up to the closing
paren and stores every block under its outlet name, in order. -/
theorem parseParensLoop_print (es : List BlockEntry) :
    ∀ (fuel : Nat) (allowPrimary : Bool) (acc : UrlChildren) (rest : List Char),
    (∀ e ∈ es, ∀ (rest2 : List Char) (fuel2 : Nat), childEnd rest2 = true →
      2 + 5 * ((serializeSegment e.2 false).data ++ rest2).length ≤ fuel2 →
      parseChildren fuel2 ((serializeSegment e.2 false).data ++ rest2) =
        .ok (.cons PRIMARY_OUTLET (reparseG e.2) .nil, rest2)) →
    (∀ e ∈ es, wfGroupB e.2 = true) →
    (∀ e ∈ es, ∀ nm, e.1 = some nm → safeStr nm = true) →
    (allowPrimary = false → ∀ e ∈ es, e.1 ≠ none) →
    nodupKeys (acc.keys ++ es.map entryName) = true →
    5 + 5 * ((String.intercalate "//" (es.map blockOf)).data ++
      ')' :: rest).length ≤ fuel →
    parseParensLoop fuel allowPrimary acc
      ((String.intercalate "//" (es.map blockOf)).data ++ ')' :: rest) =
      .ok (acc.append (entriesChildren es), rest) := by
  induction es with
  | nil =>
    intro fuel allowPrimary acc rest hG hwfe hnames hprim hnodup hfuel
    rw [show (String.intercalate "//" (([] : List BlockEntry).map blockOf)).data
      = [] from rfl, List.nil_append] at hfuel ⊢
    cases fuel with
    | zero => omega
    | succ f =>
      unfold parseParensLoop
      rw [show peekStartsWith [')'] (')' :: rest) = true by
        simp [peekStartsWith, List.isPrefixOf]]
      simp only [Bool.not_true, Bool.false_and, Bool.false_eq_true, if_false]
      rw [capture_cons ')' rest]
      simp only [bind, Except.bind]
      rw [show entriesChildren ([] : List BlockEntry) = .nil from rfl,
        children_append_nil]
  | cons e tail ih =>
    intro fuel allowPrimary acc rest hG hwfe hnames hprim hnodup hfuel
    obtain ⟨eo, g'⟩ := e
    have hm : (eo, g') ∈ (eo, g') :: tail := List.mem_cons_self _ _
    have hG1 := hG (eo, g') hm
    have hwfg : wfGroupB g' = true := hwfe (eo, g') hm
    have hname : ∀ nm, eo = some nm → safeStr nm = true :=
      fun nm h => hnames (eo, g') hm nm h
    have hprimE : allowPrimary = false → eo ≠ none :=
      fun hfp => hprim hfp (eo, g') hm
    have hfresh : (acc.keys).contains (entryName (eo, g')) = false := by
      rw [List.map_cons] at hnodup
      exact nodupKeys_split hnodup
    have hblocklen : 1 ≤ (blockOf (eo, g')).data.length := by
      have := blockOf_ne_nil eo g' hwfg hname
      cases hb : (blockOf (eo, g')).data with
      | nil => exact absurd hb this
      | cons c r => simp
    have hacc1keys : (acc.append
        (.cons (entryName (eo, g')) (reparseG g') .nil)).keys =
        acc.keys ++ [entryName (eo, g')] := by
      rw [children_keys_append]
      rfl
    cases tail with
    | nil =>
      have hform : (String.intercalate "//"
          (((eo, g') :: []).map blockOf)).data ++ ')' :: rest =
          (blockOf (eo, g')).data ++ ')' :: rest := by
        rw [List.map_cons, List.map_nil,
          show String.intercalate "//" [blockOf (eo, g')] = blockOf (eo, g')
            from rfl]
      rw [hform] at hfuel ⊢
      have hchild : childEnd (')' :: rest) = true := rfl
      have hstep := parseParensLoop_step eo g' (')' :: rest) fuel allowPrimary acc
        hG1 hwfg hname hprimE hfresh hchild (Or.inr rfl) (by omega)
      rw [hstep]
      rw [show peekStartsWith ['/', '/'] (')' :: rest) = false by
        simp [peekStartsWith, List.isPrefixOf]]
      simp only [Bool.false_eq_true, if_false]
      have := ih (fuel - 1) allowPrimary
        (acc.append (.cons (entryName (eo, g')) (reparseG g') .nil)) rest
        (by intro e2 he2; cases he2) (by intro e2 he2; cases he2)
        (by intro e2 he2; cases he2) (by intro h e2 he2; cases he2)
        (by
          rw [hacc1keys, List.map_nil, List.append_nil]
          rw [List.map_cons, List.map_nil] at hnodup
          simpa using hnodup)
        (by
          rw [show (String.intercalate "//"
            (([] : List BlockEntry).map blockOf)).data = [] from rfl,
            List.nil_append]
          simp only [List.length_append, List.length_cons] at hfuel ⊢
          omega)
      rw [show (String.intercalate "//"
        (([] : List BlockEntry).map blockOf)).data = [] from rfl,
        List.nil_append] at this
      rw [this]
      rw [children_append_assoc]
      rfl
    | cons t1 ts =>
      have hform : (String.intercalate "//"
          (((eo, g') :: t1 :: ts).map blockOf)).data ++ ')' :: rest =
          (blockOf (eo, g')).data ++ ('/' :: '/' ::
            ((String.intercalate "//" ((t1 :: ts).map blockOf)).data ++
              ')' :: rest)) := by
        rw [List.map_cons, List.map_cons, intercalate_cons_cons,
          show ("//" : String).data = ['/', '/'] from rfl]
        simp [List.append_assoc]
      rw [hform] at hfuel ⊢
      have hchild : childEnd ('/' :: '/' ::
          ((String.intercalate "//" ((t1 :: ts).map blockOf)).data ++
            ')' :: rest)) = true := by
        simp [childEnd, peekStartsWith, List.isPrefixOf]
      have hstep := parseParensLoop_step eo g'
        ('/' :: '/' :: ((String.intercalate "//" ((t1 :: ts).map blockOf)).data ++
          ')' :: rest)) fuel allowPrimary acc
        hG1 hwfg hname hprimE hfresh hchild (Or.inl rfl) (by omega)
      rw [hstep]
      rw [show peekStartsWith ['/', '/'] ('/' :: '/' ::
          ((String.intercalate "//" ((t1 :: ts).map blockOf)).data ++
            ')' :: rest)) = true by
        simp [peekStartsWith, List.isPrefixOf]]
      simp only [if_true]
      rw [show ('/' :: '/' ::
          ((String.intercalate "//" ((t1 :: ts).map blockOf)).data ++
            ')' :: rest)).drop 2 =
          (String.intercalate "//" ((t1 :: ts).map blockOf)).data ++
            ')' :: rest from rfl]
      have := ih (fuel - 1) allowPrimary
        (acc.append (.cons (entryName (eo, g')) (reparseG g') .nil)) rest
        (fun e2 he2 => hG e2 (List.mem_cons_of_mem _ he2))
        (fun e2 he2 => hwfe e2 (List.mem_cons_of_mem _ he2))
        (fun e2 he2 => hnames e2 (List.mem_cons_of_mem _ he2))
        (fun h e2 he2 => hprim h e2 (List.mem_cons_of_mem _ he2))
        (by
          rw [hacc1keys, List.append_assoc]
          rw [List.map_cons] at hnodup
          simpa using hnodup)
        (by
          simp only [List.length_append, List.length_cons] at hfuel ⊢
          omega)
      rw [this]
      rw [children_append_assoc]
      rfl

/-- `parseChildren` over one printed non-root group: it returns a single
primary entry holding the reparsed group. -/
theorem parseChildren_print : ∀ (n : Nat) (g : UrlSegmentGroup)
    (rest : List Char) (fuel : Nat),
    sizeG g ≤ n → wfGroupB g = true → childEnd rest = true →
    2 + 5 * ((serializeSegment g false).data ++ rest).length ≤ fuel →
    parseChildren fuel ((serializeSegment g false).data ++ rest) =
      .ok (.cons PRIMARY_OUTLET (reparseG g) .nil, rest) := by
  intro n
  induction n with
  | zero =>
    intro g rest fuel hsize hwf hrest hfuel
    obtain ⟨segs, cs⟩ := g
    rw [sizeG] at hsize
    omega
  | succ n ih =>
    intro g rest fuel hsize hwf hrest hfuel
    obtain ⟨segs, cs⟩ := g
    rw [wfGroupB] at hwf
    rw [Bool.and_eq_true, Bool.and_eq_true, Bool.and_eq_true] at hwf
    obtain ⟨⟨⟨hne, hall⟩, hnodup⟩, hwfc⟩ := hwf
    cases segs with
    | nil => simp at hne
    | cons s1 more =>
      rw [List.all_cons, Bool.and_eq_true] at hall
      obtain ⟨hs1, hmore⟩ := hall
      have hp : safeStr s1.path = true := by
        unfold wfSegment at hs1
        rw [Bool.and_eq_true] at hs1
        exact hs1.1
      obtain ⟨hpne, hpsafe⟩ := safeStr_spec hp
      obtain ⟨c0, cs0, hc0⟩ := List.exists_cons_of_ne_nil hpne
      have hc0safe : isSafeUrlChar c0 = true := by
        apply hpsafe
        rw [hc0]
        exact List.mem_cons_self c0 cs0
      have hconsform : ∀ X : List Char, (serializePath s1).data ++ X =
          c0 :: (cs0 ++ ((serializeParams s1.parameters).data ++ X)) := by
        intro X
        rw [serializePath_data s1 hpsafe, hc0]
        simp [List.append_assoc]
      have hsplen : 1 ≤ (serializePath s1).data.length := by
        have h := hconsform []
        rw [List.append_nil] at h
        rw [h]
        simp
      cases fuel with
      | zero => omega
      | succ f =>
        cases cs with
        | nil =>
          have hpaths : (serializeSegment
              (.mk (s1 :: more) .nil) false).data ++ rest =
              (serializePath s1).data ++ (printTail more ++ rest) := by
            rw [serializeSegment_noChildren, serializePaths_data]
            simp [List.append_assoc]
          rw [hpaths] at hfuel ⊢
          have hlenpos : ¬ ((serializePath s1).data ++
              (printTail more ++ rest)).length = 0 := by
            rw [hconsform]
            simp
          have hnoslash : peekStartsWith ['/'] ((serializePath s1).data ++
              (printTail more ++ rest)) = false := by
            rw [hconsform]
            simp only [peekStartsWith, List.isPrefixOf, Bool.and_true]
            rw [show (('/' : Char) == c0) = (c0 == '/') from Bool.beq_comm]
            exact safe_char_ne c0 '/' hc0safe (by decide)
          have hnoparen : peekStartsWith ['('] ((serializePath s1).data ++
              (printTail more ++ rest)) = false := by
            rw [hconsform]
            simp only [peekStartsWith, List.isPrefixOf, Bool.and_true]
            rw [show (('(' : Char) == c0) = (c0 == '(') from Bool.beq_comm]
            exact safe_char_ne c0 '(' hc0safe (by decide)
          have hbound : segEnd (printTail more ++ rest) = true := by
            cases more with
            | nil =>
              rw [show printTail [] = [] from rfl, List.nil_append]
              exact childEnd_segEnd hrest
            | cons s2 more2 =>
              unfold printTail
              rw [List.map_cons, List.flatten_cons, List.cons_append,
                List.cons_append]
              rfl
          unfold parseChildren
          rw [if_neg hlenpos]
          rw [hnoslash]
          simp only [Bool.false_eq_true, if_false]
          rw [hnoparen]
          simp only [Bool.not_false, eq_self_iff_true, if_true]
          rw [parseSegments_print s1 (printTail more ++ rest) hs1 hbound]
          simp only [bind, Except.bind]
          rw [parsePathsLoop_print more f [s1] rest hmore
            (childEnd_pathsEnd hrest) (by
              have hpt := printTail_length_ge more
              simp only [List.length_append] at hfuel
              omega)]
          simp only [bind, Except.bind, pure, Except.pure]
          rw [show peekStartsWith ['/', '('] rest = false from
            childEnd_not_slashParen hrest]
          simp only [Bool.false_eq_true, if_false]
          rw [show peekStartsWith ['('] rest = false from
            childEnd_not_paren hrest]
          simp only [Bool.false_eq_true, if_false]
          rw [if_pos (by simp)]
          rfl
        | cons n0 g0 r0 =>
          have hsizeC : sizeC (.cons n0 g0 r0) ≤ n := by
            rw [sizeG] at hsize
            omega
          have hdata : (serializeSegment
              (.mk (s1 :: more) (.cons n0 g0 r0)) false).data ++ rest =
              (serializePath s1).data ++ (printTail more ++ ('/' :: '(' ::
                ((String.intercalate "//"
                  ((allEntries (.cons n0 g0 r0)).map blockOf)).data ++
                  ')' :: rest))) := by
            rw [serializeSegment_withChildren, String.data_append,
              String.data_append, String.data_append, serializePaths_data,
              show ("/(" : String).data = ['/', '('] from rfl,
              show (")" : String).data = [')'] from rfl]
            simp [List.append_assoc]
          rw [hdata] at hfuel ⊢
          have hlenpos : ¬ ((serializePath s1).data ++ (printTail more ++
              ('/' :: '(' :: ((String.intercalate "//"
                ((allEntries (.cons n0 g0 r0)).map blockOf)).data ++
                ')' :: rest)))).length = 0 := by
            rw [hconsform]
            simp
          have hnoslash : peekStartsWith ['/'] ((serializePath s1).data ++
              (printTail more ++ ('/' :: '(' :: ((String.intercalate "//"
                ((allEntries (.cons n0 g0 r0)).map blockOf)).data ++
                ')' :: rest)))) = false := by
            rw [hconsform]
            simp only [peekStartsWith, List.isPrefixOf, Bool.and_true]
            rw [show (('/' : Char) == c0) = (c0 == '/') from Bool.beq_comm]
            exact safe_char_ne c0 '/' hc0safe (by decide)
          have hnoparen : peekStartsWith ['('] ((serializePath s1).data ++
              (printTail more ++ ('/' :: '(' :: ((String.intercalate "//"
                ((allEntries (.cons n0 g0 r0)).map blockOf)).data ++
                ')' :: rest)))) = false := by
            rw [hconsform]
            simp only [peekStartsWith, List.isPrefixOf, Bool.and_true]
            rw [show (('(' : Char) == c0) = (c0 == '(') from Bool.beq_comm]
            exact safe_char_ne c0 '(' hc0safe (by decide)
          have hbound : segEnd (printTail more ++ ('/' :: '(' ::
              ((String.intercalate "//"
                ((allEntries (.cons n0 g0 r0)).map blockOf)).data ++
                ')' :: rest))) = true := by
            cases more with
            | nil => rfl
            | cons s2 more2 =>
              unfold printTail
              rw [List.map_cons, List.flatten_cons, List.cons_append,
                List.cons_append]
              rfl
          have hpathsEnd : pathsEnd ('/' :: '(' ::
              ((String.intercalate "//"
                ((allEntries (.cons n0 g0 r0)).map blockOf)).data ++
                ')' :: rest)) = true := by
            simp [pathsEnd, peekStartsWith, List.isPrefixOf]
          unfold parseChildren
          rw [if_neg hlenpos]
          rw [hnoslash]
          simp only [Bool.false_eq_true, if_false]
          rw [hnoparen]
          simp only [Bool.not_false, eq_self_iff_true, if_true]
          rw [parseSegments_print s1 _ hs1 hbound]
          simp only [bind, Except.bind]
          rw [parsePathsLoop_print more f [s1] _ hmore hpathsEnd (by
            have hpt := printTail_length_ge more
            simp only [List.length_append, List.length_cons] at hfuel
            omega)]
          simp only [bind, Except.bind, pure, Except.pure]
          rw [show peekStartsWith ['/', '('] ('/' :: '(' ::
              ((String.intercalate "//"
                ((allEntries (.cons n0 g0 r0)).map blockOf)).data ++
                ')' :: rest)) = true by
            simp [peekStartsWith, List.isPrefixOf]]
          simp only [eq_self_iff_true, if_true]
          rw [capture_cons '/' ('(' :: ((String.intercalate "//"
            ((allEntries (.cons n0 g0 r0)).map blockOf)).data ++ ')' :: rest))]
          simp only [bind, Except.bind]
          cases f with
          | zero =>
            simp only [List.length_append, List.length_cons] at hfuel
            omega
          | succ f2 =>
            unfold parseParens
            rw [capture_cons '(' ((String.intercalate "//"
              ((allEntries (.cons n0 g0 r0)).map blockOf)).data ++ ')' :: rest)]
            simp only [bind, Except.bind]
            rw [parseParensLoop_print (allEntries (.cons n0 g0 r0)) f2 true
              UrlChildren.nil rest
              (by
                intro e he rest2 fuel2 hce hfe
                unfold allEntries at he
                rw [List.mem_append] at he
                rcases he with he | he
                · rw [List.mem_map] at he
                  obtain ⟨g1, hg1, rfl⟩ := he
                  exact ih g1 rest2 fuel2
                    (le_trans (size_primaryEntries _ g1 hg1) hsizeC)
                    (wf_primaryEntries _ hwfc g1 hg1) hce hfe
                · rw [List.mem_map] at he
                  obtain ⟨p, hp2, rfl⟩ := he
                  exact ih p.2 rest2 fuel2
                    (le_trans (size_namedEntries _ p hp2) hsizeC)
                    ((wf_namedEntries _ hwfc p hp2).2) hce hfe)
              (by
                intro e he
                unfold allEntries at he
                rw [List.mem_append] at he
                rcases he with he | he
                · rw [List.mem_map] at he
                  obtain ⟨g1, hg1, rfl⟩ := he
                  exact wf_primaryEntries _ hwfc g1 hg1
                · rw [List.mem_map] at he
                  obtain ⟨p, hp2, rfl⟩ := he
                  exact (wf_namedEntries _ hwfc p hp2).2)
              (by
                intro e he nm hnm
                unfold allEntries at he
                rw [List.mem_append] at he
                rcases he with he | he
                · rw [List.mem_map] at he
                  obtain ⟨g1, hg1, rfl⟩ := he
                  cases hnm
                · rw [List.mem_map] at he
                  obtain ⟨p, hp2, rfl⟩ := he
                  rw [Option.some.injEq] at hnm
                  exact hnm ▸ (wf_namedEntries _ hwfc p hp2).1)
              (by intro h; cases h)
              (by simpa using nodup_allEntries_names _ hnodup)
              (by
                simp only [List.length_append, List.length_cons] at hfuel ⊢
                omega)]
            simp only [bind, Except.bind, pure, Except.pure]
            rw [show peekStartsWith ['('] rest = false from
              childEnd_not_paren hrest]
            simp only [Bool.false_eq_true, if_false]
            rw [if_pos (by simp)]
            rw [show UrlChildren.nil.append
              (entriesChildren (allEntries (.cons n0 g0 r0))) =
              entriesChildren (allEntries (.cons n0 g0 r0)) from rfl]
            rw [entriesChildren_allEntries]
            rfl

/-- The keys of the parser children of a block list are the block names. -/
theorem keys_entriesChildren : ∀ (es : List BlockEntry),
    (entriesChildren es).keys = es.map entryName
  | [] => rfl
  | e :: r => by
    show (entryName e) :: (entriesChildren r).keys = _
    rw [keys_entriesChildren r, List.map_cons]

/-- The named-only block names never include the primary outlet. -/
theorem namedOnly_names_not_primary : ∀ (cs : UrlChildren),
    ((namedOnly cs).map entryName).contains PRIMARY_OUTLET = false
  | .nil => rfl
  | .cons n g r => by
    unfold namedOnly namedEntriesL
    by_cases hn : n = PRIMARY_OUTLET
    · rw [if_pos hn]
      exact namedOnly_names_not_primary r
    · rw [if_neg hn, List.map_cons, List.map_cons, List.contains_cons]
      have h1 : (PRIMARY_OUTLET == entryName
          ((fun e => ((some e.1 : Option String), e.2)) (n, g))) = false := by
        show (PRIMARY_OUTLET == n) = false
        exact beq_eq_false_iff_ne.mpr (fun h => hn h.symm)
      rw [h1, Bool.false_or]
      exact namedOnly_names_not_primary r

/-- Children whose keys avoid the primary outlet have no primary entry. -/
theorem primaryEntries_nil : ∀ (cs : UrlChildren),
    (cs.keys).contains PRIMARY_OUTLET = false → primaryEntriesL cs = []
  | .nil, _ => rfl
  | .cons n g r, h => by
    rw [UrlChildren.keys, List.contains_cons, Bool.or_eq_false_iff] at h
    rw [primaryEntriesL, if_neg (fun he => by
      rw [he] at h
      simp at h)]
    exact primaryEntries_nil r h.2

/-- With duplicate-free keys there is at most one primary entry. -/
theorem primaryEntries_le_one : ∀ (cs : UrlChildren), nodupKeys cs.keys = true →
    primaryEntriesL cs = [] ∨ ∃ g1, primaryEntriesL cs = [g1]
  | .nil, _ => Or.inl rfl
  | .cons n g r, h => by
    rw [UrlChildren.keys] at h
    rw [nodupKeys, Bool.and_eq_true] at h
    by_cases hn : n = PRIMARY_OUTLET
    · subst hn
      rw [primaryEntriesL, if_pos rfl]
      right
      refine ⟨g, ?_⟩
      rw [primaryEntries_nil r (by simpa using h.1)]
    · rw [primaryEntriesL, if_neg hn]
      exact primaryEntries_le_one r h.2

/-- A children map with no entries at all is empty. -/
theorem entries_nil_nil : ∀ (cs : UrlChildren),
    primaryEntriesL cs = [] → namedEntriesL cs = [] → cs = .nil
  | .nil, _, _ => rfl
  | .cons n g r, hp, hnm => by
    by_cases hn : n = PRIMARY_OUTLET
    · rw [primaryEntriesL, if_pos hn] at hp
      cases hp
    · rw [namedEntriesL, if_neg hn] at hnm
      cases hnm

/-- The serializer of the root group with children: the primary block bare,
the named blocks parenthesised after it. -/
theorem serializeSegment_root (n0 : String) (g0 : UrlSegmentGroup)
    (r0 : UrlChildren) :
    serializeSegment (.mk [] (.cons n0 g0 r0)) true =
      (if (serializeNamedBlocks (.cons n0 g0 r0)).length > 0 then
        (serializePrimaryBlocks (.cons n0 g0 r0)).headD "" ++ "(" ++
          String.intercalate "//" (serializeNamedBlocks (.cons n0 g0 r0)) ++ ")"
      else (serializePrimaryBlocks (.cons n0 g0 r0)).headD "") := by
  rw [serializeSegment]
  simp only [UrlSegmentGroup.hasChildren, UrlChildren.length]
  norm_num

/-- `parseChildren` over a printed primary block followed by a parenthesised
named block list, as the root serialization emits them. -/
theorem parseChildren_primary_named (g1 : UrlSegmentGroup)
    (nes : List BlockEntry) (rest : List Char) (fuel : Nat)
    (hwf1 : wfGroupB g1 = true)
    (hGnes : ∀ e ∈ nes, ∀ (rest2 : List Char) (fuel2 : Nat),
      childEnd rest2 = true →
      2 + 5 * ((serializeSegment e.2 false).data ++ rest2).length ≤ fuel2 →
      parseChildren fuel2 ((serializeSegment e.2 false).data ++ rest2) =
        .ok (.cons PRIMARY_OUTLET (reparseG e.2) .nil, rest2))
    (hwfnes : ∀ e ∈ nes, wfGroupB e.2 = true)
    (hnamesnes : ∀ e ∈ nes, ∀ nm, e.1 = some nm → safeStr nm = true)
    (hallnamed : ∀ e ∈ nes, e.1 ≠ none)
    (hnodupN : nodupKeys (nes.map entryName) = true)
    (_hrest : childEnd rest = true)
    (hfuel : 2 + 5 * ((serializeSegment g1 false).data ++ ('(' ::
      ((String.intercalate "//" (nes.map blockOf)).data ++
        ')' :: rest))).length ≤ fuel) :
    parseChildren fuel ((serializeSegment g1 false).data ++ ('(' ::
      ((String.intercalate "//" (nes.map blockOf)).data ++ ')' :: rest))) =
      .ok ((entriesChildren nes).assign PRIMARY_OUTLET (reparseG g1), rest) := by
  obtain ⟨segs, cs⟩ := g1
  rw [wfGroupB] at hwf1
  rw [Bool.and_eq_true, Bool.and_eq_true, Bool.and_eq_true] at hwf1
  obtain ⟨⟨⟨hne, hall⟩, hnodup⟩, hwfc⟩ := hwf1
  cases segs with
  | nil => simp at hne
  | cons s1 more =>
    rw [List.all_cons, Bool.and_eq_true] at hall
    obtain ⟨hs1, hmore⟩ := hall
    have hp : safeStr s1.path = true := by
      unfold wfSegment at hs1
      rw [Bool.and_eq_true] at hs1
      exact hs1.1
    obtain ⟨hpne, hpsafe⟩ := safeStr_spec hp
    obtain ⟨c0, cs0, hc0⟩ := List.exists_cons_of_ne_nil hpne
    have hc0safe : isSafeUrlChar c0 = true := by
      apply hpsafe
      rw [hc0]
      exact List.mem_cons_self c0 cs0
    have hconsform : ∀ X : List Char, (serializePath s1).data ++ X =
        c0 :: (cs0 ++ ((serializeParams s1.parameters).data ++ X)) := by
      intro X
      rw [serializePath_data s1 hpsafe, hc0]
      simp [List.append_assoc]
    have hnodupN0 : nodupKeys (UrlChildren.nil.keys ++ nes.map entryName) =
        true := by simpa using hnodupN
    have hprimN : false = false → ∀ e ∈ nes, e.1 ≠ none := fun _ => hallnamed
    cases fuel with
    | zero => omega
    | succ f =>
      cases cs with
      | nil =>
        have hpaths : (serializeSegment
            (.mk (s1 :: more) .nil) false).data ++ ('(' ::
              ((String.intercalate "//" (nes.map blockOf)).data ++
                ')' :: rest)) =
            (serializePath s1).data ++ (printTail more ++ ('(' ::
              ((String.intercalate "//" (nes.map blockOf)).data ++
                ')' :: rest))) := by
          rw [serializeSegment_noChildren, serializePaths_data]
          simp [List.append_assoc]
        rw [hpaths] at hfuel ⊢
        have hlenpos : ¬ ((serializePath s1).data ++ (printTail more ++ ('(' ::
            ((String.intercalate "//" (nes.map blockOf)).data ++
              ')' :: rest)))).length = 0 := by
          rw [hconsform]
          simp
        have hnoslash : peekStartsWith ['/'] ((serializePath s1).data ++
            (printTail more ++ ('(' ::
              ((String.intercalate "//" (nes.map blockOf)).data ++
                ')' :: rest)))) = false := by
          rw [hconsform]
          simp only [peekStartsWith, List.isPrefixOf, Bool.and_true]
          rw [show (('/' : Char) == c0) = (c0 == '/') from Bool.beq_comm]
          exact safe_char_ne c0 '/' hc0safe (by decide)
        have hnoparen : peekStartsWith ['('] ((serializePath s1).data ++
            (printTail more ++ ('(' ::
              ((String.intercalate "//" (nes.map blockOf)).data ++
                ')' :: rest)))) = false := by
          rw [hconsform]
          simp only [peekStartsWith, List.isPrefixOf, Bool.and_true]
          rw [show (('(' : Char) == c0) = (c0 == '(') from Bool.beq_comm]
          exact safe_char_ne c0 '(' hc0safe (by decide)
        have hbound : segEnd (printTail more ++ ('(' ::
            ((String.intercalate "//" (nes.map blockOf)).data ++
              ')' :: rest))) = true := by
          cases more with
          | nil => rfl
          | cons s2 more2 =>
            unfold printTail
            rw [List.map_cons, List.flatten_cons, List.cons_append,
              List.cons_append]
            rfl
        have hpathsEnd : pathsEnd ('(' ::
            ((String.intercalate "//" (nes.map blockOf)).data ++
              ')' :: rest)) = true := by
          simp [pathsEnd, peekStartsWith, List.isPrefixOf]
        unfold parseChildren
        rw [if_neg hlenpos]
        rw [hnoslash]
        simp only [Bool.false_eq_true, if_false]
        rw [hnoparen]
        simp only [Bool.not_false, eq_self_iff_true, if_true]
        rw [parseSegments_print s1 _ hs1 hbound]
        simp only [bind, Except.bind]
        rw [parsePathsLoop_print more f [s1] _ hmore hpathsEnd (by
          have hpt := printTail_length_ge more
          simp only [List.length_append, List.length_cons] at hfuel
          omega)]
        simp only [bind, Except.bind, pure, Except.pure]
        rw [show peekStartsWith ['/', '('] ('(' ::
            ((String.intercalate "//" (nes.map blockOf)).data ++
              ')' :: rest)) = false by
          simp [peekStartsWith, List.isPrefixOf]]
        simp only [Bool.false_eq_true, if_false]
        rw [show peekStartsWith ['('] ('(' ::
            ((String.intercalate "//" (nes.map blockOf)).data ++
              ')' :: rest)) = true by
          simp [peekStartsWith, List.isPrefixOf]]
        simp only [eq_self_iff_true, if_true]
        cases f with
        | zero =>
          simp only [List.length_append, List.length_cons] at hfuel
          omega
        | succ f2 =>
          unfold parseParens
          rw [capture_cons '('
            ((String.intercalate "//" (nes.map blockOf)).data ++ ')' :: rest)]
          simp only [bind, Except.bind]
          rw [parseParensLoop_print nes f2 false UrlChildren.nil rest
            hGnes hwfnes hnamesnes hprimN hnodupN0 (by
              simp only [List.length_append, List.length_cons] at hfuel ⊢
              omega)]
          simp only [bind, Except.bind, pure, Except.pure]
          rw [if_pos (by simp)]
          rfl
      | cons n0 g0 r0 =>
        have hdata : (serializeSegment
            (.mk (s1 :: more) (.cons n0 g0 r0)) false).data ++ ('(' ::
              ((String.intercalate "//" (nes.map blockOf)).data ++
                ')' :: rest)) =
            (serializePath s1).data ++ (printTail more ++ ('/' :: '(' ::
              ((String.intercalate "//"
                ((allEntries (.cons n0 g0 r0)).map blockOf)).data ++
                ')' :: ('(' ::
                  ((String.intercalate "//" (nes.map blockOf)).data ++
                    ')' :: rest))))) := by
          rw [serializeSegment_withChildren, String.data_append,
            String.data_append, String.data_append, serializePaths_data,
            show ("/(" : String).data = ['/', '('] from rfl,
            show (")" : String).data = [')'] from rfl]
          simp [List.append_assoc]
        rw [hdata] at hfuel ⊢
        have hlenpos : ¬ ((serializePath s1).data ++ (printTail more ++
            ('/' :: '(' :: ((String.intercalate "//"
              ((allEntries (.cons n0 g0 r0)).map blockOf)).data ++
              ')' :: ('(' ::
                ((String.intercalate "//" (nes.map blockOf)).data ++
                  ')' :: rest)))))).length = 0 := by
          rw [hconsform]
          simp
        have hnoslash : peekStartsWith ['/'] ((serializePath s1).data ++
            (printTail more ++ ('/' :: '(' :: ((String.intercalate "//"
              ((allEntries (.cons n0 g0 r0)).map blockOf)).data ++
              ')' :: ('(' ::
                ((String.intercalate "//" (nes.map blockOf)).data ++
                  ')' :: rest)))))) = false := by
          rw [hconsform]
          simp only [peekStartsWith, List.isPrefixOf, Bool.and_true]
          rw [show (('/' : Char) == c0) = (c0 == '/') from Bool.beq_comm]
          exact safe_char_ne c0 '/' hc0safe (by decide)
        have hnoparen : peekStartsWith ['('] ((serializePath s1).data ++
            (printTail more ++ ('/' :: '(' :: ((String.intercalate "//"
              ((allEntries (.cons n0 g0 r0)).map blockOf)).data ++
              ')' :: ('(' ::
                ((String.intercalate "//" (nes.map blockOf)).data ++
                  ')' :: rest)))))) = false := by
          rw [hconsform]
          simp only [peekStartsWith, List.isPrefixOf, Bool.and_true]
          rw [show (('(' : Char) == c0) = (c0 == '(') from Bool.beq_comm]
          exact safe_char_ne c0 '(' hc0safe (by decide)
        have hbound : segEnd (printTail more ++ ('/' :: '(' ::
            ((String.intercalate "//"
              ((allEntries (.cons n0 g0 r0)).map blockOf)).data ++
              ')' :: ('(' ::
                ((String.intercalate "//" (nes.map blockOf)).data ++
                  ')' :: rest))))) = true := by
          cases more with
          | nil => rfl
          | cons s2 more2 =>
            unfold printTail
            rw [List.map_cons, List.flatten_cons, List.cons_append,
              List.cons_append]
            rfl
        have hpathsEnd : pathsEnd ('/' :: '(' ::
            ((String.intercalate "//"
              ((allEntries (.cons n0 g0 r0)).map blockOf)).data ++
              ')' :: ('(' ::
                ((String.intercalate "//" (nes.map blockOf)).data ++
                  ')' :: rest)))) = true := by
          simp [pathsEnd, peekStartsWith, List.isPrefixOf]
        unfold parseChildren
        rw [if_neg hlenpos]
        rw [hnoslash]
        simp only [Bool.false_eq_true, if_false]
        rw [hnoparen]
        simp only [Bool.not_false, eq_self_iff_true, if_true]
        rw [parseSegments_print s1 _ hs1 hbound]
        simp only [bind, Except.bind]
        rw [parsePathsLoop_print more f [s1] _ hmore hpathsEnd (by
          have hpt := printTail_length_ge more
          simp only [List.length_append, List.length_cons] at hfuel
          omega)]
        simp only [bind, Except.bind, pure, Except.pure]
        rw [show peekStartsWith ['/', '('] ('/' :: '(' ::
            ((String.intercalate "//"
              ((allEntries (.cons n0 g0 r0)).map blockOf)).data ++
              ')' :: ('(' ::
                ((String.intercalate "//" (nes.map blockOf)).data ++
                  ')' :: rest)))) = true by
          simp [peekStartsWith, List.isPrefixOf]]
        simp only [eq_self_iff_true, if_true]
        rw [capture_cons '/' ('(' :: ((String.intercalate "//"
          ((allEntries (.cons n0 g0 r0)).map blockOf)).data ++
          ')' :: ('(' :: ((String.intercalate "//" (nes.map blockOf)).data ++
            ')' :: rest))))]
        simp only [bind, Except.bind]
        cases f with
        | zero =>
          simp only [List.length_append, List.length_cons] at hfuel
          omega
        | succ f2 =>
          unfold parseParens
          rw [capture_cons '(' ((String.intercalate "//"
            ((allEntries (.cons n0 g0 r0)).map blockOf)).data ++
            ')' :: ('(' :: ((String.intercalate "//" (nes.map blockOf)).data ++
              ')' :: rest)))]
          simp only [bind, Except.bind]
          rw [parseParensLoop_print (allEntries (.cons n0 g0 r0)) f2 true
            UrlChildren.nil ('(' ::
              ((String.intercalate "//" (nes.map blockOf)).data ++ ')' :: rest))
            (by
              intro e he rest2 fuel2 hce hfe
              unfold allEntries at he
              rw [List.mem_append] at he
              rcases he with he | he
              · rw [List.mem_map] at he
                obtain ⟨gm, hgm, rfl⟩ := he
                exact parseChildren_print (sizeG gm) gm rest2 fuel2 (le_refl _)
                  (wf_primaryEntries _ hwfc gm hgm) hce hfe
              · rw [List.mem_map] at he
                obtain ⟨pm, hpm, rfl⟩ := he
                exact parseChildren_print (sizeG pm.2) pm.2 rest2 fuel2
                  (le_refl _) ((wf_namedEntries _ hwfc pm hpm).2) hce hfe)
            (by
              intro e he
              unfold allEntries at he
              rw [List.mem_append] at he
              rcases he with he | he
              · rw [List.mem_map] at he
                obtain ⟨gm, hgm, rfl⟩ := he
                exact wf_primaryEntries _ hwfc gm hgm
              · rw [List.mem_map] at he
                obtain ⟨pm, hpm, rfl⟩ := he
                exact (wf_namedEntries _ hwfc pm hpm).2)
            (by
              intro e he nm hnm
              unfold allEntries at he
              rw [List.mem_append] at he
              rcases he with he | he
              · rw [List.mem_map] at he
                obtain ⟨gm, hgm, rfl⟩ := he
                cases hnm
              · rw [List.mem_map] at he
                obtain ⟨pm, hpm, rfl⟩ := he
                rw [Option.some.injEq] at hnm
                exact hnm ▸ (wf_namedEntries _ hwfc pm hpm).1)
            (by intro h; cases h)
            (by simpa using nodup_allEntries_names _ hnodup)
            (by
              simp only [List.length_append, List.length_cons] at hfuel ⊢
              omega)]
          simp only [bind, Except.bind, pure, Except.pure]
          rw [show peekStartsWith ['('] ('(' ::
              ((String.intercalate "//" (nes.map blockOf)).data ++
                ')' :: rest)) = true by
            simp [peekStartsWith, List.isPrefixOf]]
          simp only [eq_self_iff_true, if_true]
          rw [capture_cons '('
            ((String.intercalate "//" (nes.map blockOf)).data ++ ')' :: rest)]
          simp only [bind, Except.bind]
          rw [parseParensLoop_print nes f2 false UrlChildren.nil rest
            hGnes hwfnes hnamesnes hprimN hnodupN0 (by
              simp only [List.length_append, List.length_cons] at hfuel ⊢
              omega)]
          simp only [bind, Except.bind, pure, Except.pure]
          rw [if_pos (by simp)]
          rw [show UrlChildren.nil.append
            (entriesChildren (allEntries (.cons n0 g0 r0))) =
            entriesChildren (allEntries (.cons n0 g0 r0)) from rfl]
          rw [show UrlChildren.nil.append (entriesChildren nes) =
            entriesChildren nes from rfl]
          rw [entriesChildren_allEntries]
          rfl

/-- A printed non-root group starts with a safe character. -/
theorem serializeSegment_head (g : UrlSegmentGroup) (hwf : wfGroupB g = true) :
    ∃ c0 Z, (serializeSegment g false).data = c0 :: Z ∧
      isSafeUrlChar c0 = true := by
  obtain ⟨segs, cs⟩ := g
  rw [wfGroupB] at hwf
  rw [Bool.and_eq_true, Bool.and_eq_true, Bool.and_eq_true] at hwf
  obtain ⟨⟨⟨hne, hall⟩, hnodup⟩, hwfc⟩ := hwf
  cases segs with
  | nil => simp at hne
  | cons s1 more =>
    rw [List.all_cons, Bool.and_eq_true] at hall
    obtain ⟨hs1, hmore⟩ := hall
    have hp : safeStr s1.path = true := by
      unfold wfSegment at hs1
      rw [Bool.and_eq_true] at hs1
      exact hs1.1
    obtain ⟨hpne, hpsafe⟩ := safeStr_spec hp
    obtain ⟨c0, cs0, hc0⟩ := List.exists_cons_of_ne_nil hpne
    have hc0safe : isSafeUrlChar c0 = true := by
      apply hpsafe
      rw [hc0]
      exact List.mem_cons_self c0 cs0
    have hsp : (serializePath s1).data =
        c0 :: (cs0 ++ (serializeParams s1.parameters).data) := by
      rw [serializePath_data s1 hpsafe, hc0]
      rfl
    cases cs with
    | nil =>
      refine ⟨c0, cs0 ++ (serializeParams s1.parameters).data ++ printTail more,
        ?_, hc0safe⟩
      rw [serializeSegment_noChildren, serializePaths_data, hsp]
      simp [List.append_assoc]
    | cons n0 g0 r0 =>
      refine ⟨c0, cs0 ++ (serializeParams s1.parameters).data ++
        (printTail more ++ ('/' :: '(' :: ((String.intercalate "//"
          ((allEntries (.cons n0 g0 r0)).map blockOf)).data ++ [')']))),
        ?_, hc0safe⟩
      rw [serializeSegment_withChildren, String.data_append,
        String.data_append, String.data_append, serializePaths_data, hsp,
        show ("/(" : String).data = ['/', '('] from rfl,
        show (")" : String).data = [')'] from rfl]
      simp [List.append_assoc]

/-- `parseChildren` over a bare parenthesised named block list, as the root
serialization emits when the primary outlet is absent. -/
theorem parseChildren_namedRoot (nes : List BlockEntry) (rest : List Char)
    (fuel : Nat)
    (hGnes : ∀ e ∈ nes, ∀ (rest2 : List Char) (fuel2 : Nat),
      childEnd rest2 = true →
      2 + 5 * ((serializeSegment e.2 false).data ++ rest2).length ≤ fuel2 →
      parseChildren fuel2 ((serializeSegment e.2 false).data ++ rest2) =
        .ok (.cons PRIMARY_OUTLET (reparseG e.2) .nil, rest2))
    (hwfnes : ∀ e ∈ nes, wfGroupB e.2 = true)
    (hnamesnes : ∀ e ∈ nes, ∀ nm, e.1 = some nm → safeStr nm = true)
    (hallnamed : ∀ e ∈ nes, e.1 ≠ none)
    (hnodupN : nodupKeys (nes.map entryName) = true)
    (hfuel : 2 + 5 * ('(' :: ((String.intercalate "//"
      (nes.map blockOf)).data ++ ')' :: rest)).length ≤ fuel) :
    parseChildren fuel ('(' ::
      ((String.intercalate "//" (nes.map blockOf)).data ++ ')' :: rest)) =
      .ok (entriesChildren nes, rest) := by
  have hnodupN0 : nodupKeys (UrlChildren.nil.keys ++ nes.map entryName) =
      true := by simpa using hnodupN
  cases fuel with
  | zero => omega
  | succ f =>
    unfold parseChildren
    rw [if_neg (by simp)]
    rw [show peekStartsWith ['/'] ('(' ::
        ((String.intercalate "//" (nes.map blockOf)).data ++ ')' :: rest)) =
        false by simp [peekStartsWith, List.isPrefixOf]]
    simp only [Bool.false_eq_true, if_false]
    rw [show peekStartsWith ['('] ('(' ::
        ((String.intercalate "//" (nes.map blockOf)).data ++ ')' :: rest)) =
        true by simp [peekStartsWith, List.isPrefixOf]]
    simp only [Bool.not_true, Bool.false_eq_true, if_false]
    simp only [bind, Except.bind, pure, Except.pure]
    rw [show peekStartsWith ['/', '('] ('(' ::
        ((String.intercalate "//" (nes.map blockOf)).data ++ ')' :: rest)) =
        false by simp [peekStartsWith, List.isPrefixOf]]
    simp only [Bool.false_eq_true, if_false]
    rw [show peekStartsWith ['('] ('(' ::
        ((String.intercalate "//" (nes.map blockOf)).data ++ ')' :: rest)) =
        true by simp [peekStartsWith, List.isPrefixOf]]
    simp only [eq_self_iff_true, if_true]
    cases f with
    | zero =>
      simp only [List.length_append, List.length_cons] at hfuel
      omega
    | succ f2 =>
      unfold parseParens
      rw [capture_cons '('
        ((String.intercalate "//" (nes.map blockOf)).data ++ ')' :: rest)]
      simp only [bind, Except.bind]
      rw [parseParensLoop_print nes f2 false UrlChildren.nil rest
        hGnes hwfnes hnamesnes (fun _ => hallnamed) hnodupN0 (by
          simp only [List.length_append, List.length_cons] at hfuel ⊢
          omega)]
      simp only [bind, Except.bind, pure, Except.pure]
      rw [if_neg (by simp [UrlChildren.length])]
      rfl

/-- `parseRootSegment` over a printed root: it rebuilds the children with
the named entries first and the primary entry last. -/
theorem parseRootSegment_print (cs : UrlChildren) (rest : List Char)
    (fuel : Nat)
    (hwfc : wfChildrenB cs = true) (hnodup : nodupKeys cs.keys = true)
    (hrest : rest = [] ∨ rest.head? = some '?' ∨ rest.head? = some '#')
    (hfuel : 2 + 5 * ((serializeSegment (.mk [] cs) true).data ++
      rest).length ≤ fuel) :
    parseRootSegment fuel
      ('/' :: ((serializeSegment (.mk [] cs) true).data ++ rest)) =
      .ok (.mk [] (reparseRoot cs), rest) := by
  have hchild : childEnd rest = true := by
    rcases hrest with rfl | h | h
    · rfl
    · cases rest with
      | nil => cases h
      | cons c r =>
        rw [List.head?_cons, Option.some.injEq] at h
        subst h
        rfl
    · cases rest with
      | nil => cases h
      | cons c r =>
        rw [List.head?_cons, Option.some.injEq] at h
        subst h
        rfl
  unfold parseRootSegment
  rw [show peekStartsWith ['/']
      ('/' :: ((serializeSegment (.mk [] cs) true).data ++ rest)) = true by
    simp [peekStartsWith, List.isPrefixOf]]
  simp only [eq_self_iff_true, if_true]
  rw [show ('/' :: ((serializeSegment (.mk [] cs) true).data ++ rest)).drop 1 =
    (serializeSegment (.mk [] cs) true).data ++ rest from rfl]
  cases cs with
  | nil =>
    rw [show (serializeSegment (.mk [] .nil) true).data = [] from rfl,
      List.nil_append] at hfuel ⊢
    rw [if_pos (by
      rcases hrest with rfl | h | h
      · simp
      · cases rest with
        | nil => cases h
        | cons c r =>
          rw [List.head?_cons, Option.some.injEq] at h
          subst h
          simp [peekStartsWith, List.isPrefixOf]
      · cases rest with
        | nil => cases h
        | cons c r =>
          rw [List.head?_cons, Option.some.injEq] at h
          subst h
          simp [peekStartsWith, List.isPrefixOf])]
    rfl
  | cons n0 g0 r0 =>
    have hGno : ∀ e ∈ namedOnly (.cons n0 g0 r0),
        ∀ (rest2 : List Char) (fuel2 : Nat), childEnd rest2 = true →
        2 + 5 * ((serializeSegment e.2 false).data ++ rest2).length ≤ fuel2 →
        parseChildren fuel2 ((serializeSegment e.2 false).data ++ rest2) =
          .ok (.cons PRIMARY_OUTLET (reparseG e.2) .nil, rest2) := by
      intro e he rest2 fuel2 hce hfe
      unfold namedOnly at he
      rw [List.mem_map] at he
      obtain ⟨pm, hpm, rfl⟩ := he
      exact parseChildren_print (sizeG pm.2) pm.2 rest2 fuel2 (le_refl _)
        ((wf_namedEntries _ hwfc pm hpm).2) hce hfe
    have hwfno : ∀ e ∈ namedOnly (.cons n0 g0 r0), wfGroupB e.2 = true := by
      intro e he
      unfold namedOnly at he
      rw [List.mem_map] at he
      obtain ⟨pm, hpm, rfl⟩ := he
      exact (wf_namedEntries _ hwfc pm hpm).2
    have hnamesno : ∀ e ∈ namedOnly (.cons n0 g0 r0),
        ∀ nm, e.1 = some nm → safeStr nm = true := by
      intro e he nm hnm
      unfold namedOnly at he
      rw [List.mem_map] at he
      obtain ⟨pm, hpm, rfl⟩ := he
      rw [Option.some.injEq] at hnm
      exact hnm ▸ (wf_namedEntries _ hwfc pm hpm).1
    have hallno : ∀ e ∈ namedOnly (.cons n0 g0 r0), e.1 ≠ none := by
      intro e he
      unfold namedOnly at he
      rw [List.mem_map] at he
      obtain ⟨pm, hpm, rfl⟩ := he
      simp
    have hnodupno : nodupKeys ((namedOnly (.cons n0 g0 r0)).map entryName) =
        true := nodup_namedOnly_names _ hnodup
    rcases primaryEntries_le_one _ hnodup with hP | ⟨g1, hP⟩
    · cases hN : namedEntriesL (.cons n0 g0 r0) with
      | nil => exact UrlChildren.noConfusion (entries_nil_nil _ hP hN)
      | cons ne1 nrest =>
        have htext : (serializeSegment
            (.mk [] (.cons n0 g0 r0)) true).data ++ rest =
            '(' :: ((String.intercalate "//"
              ((namedOnly (.cons n0 g0 r0)).map blockOf)).data ++
              ')' :: rest) := by
          rw [serializeSegment_root, if_pos (by
            rw [namedOnly_blocks]
            unfold namedOnly
            rw [hN]
            simp)]
          rw [serializePrimaryBlocks_eq, hP, List.map_nil, namedOnly_blocks]
          rw [show (([] : List String).headD "") = "" from rfl]
          rw [String.data_append, String.data_append, String.data_append]
          rw [show ("" : String).data = [] from rfl,
            show ("(" : String).data = ['('] from rfl,
            show (")" : String).data = [')'] from rfl]
          simp [List.append_assoc]
        rw [htext] at hfuel ⊢
        rw [if_neg (by
          simp [peekStartsWith, List.isPrefixOf])]
        rw [parseChildren_namedRoot (namedOnly (.cons n0 g0 r0)) rest fuel
          hGno hwfno hnamesno hallno hnodupno hfuel]
        simp only [bind, Except.bind]
        have hrp : reparsePrimaryEntries (.cons n0 g0 r0) = .nil := by
          rw [← entriesChildren_primary, hP]
          rfl
        have hrn : reparseNamedEntries (.cons n0 g0 r0) =
            entriesChildren (namedOnly (.cons n0 g0 r0)) :=
          (entriesChildren_namedOnly _).symm
        unfold reparseRoot
        rw [hrp, hrn, children_append_nil]
    · have hg1mem : g1 ∈ primaryEntriesL (.cons n0 g0 r0) := by
        rw [hP]
        exact List.mem_cons_self _ _
      have hwf1 : wfGroupB g1 = true := wf_primaryEntries _ hwfc g1 hg1mem
      obtain ⟨c0, Z, hhead, hc0safe⟩ := serializeSegment_head g1 hwf1
      have hrp : reparsePrimaryEntries (.cons n0 g0 r0) =
          .cons PRIMARY_OUTLET (reparseG g1) .nil := by
        rw [← entriesChildren_primary, hP]
        rfl
      cases hN : namedEntriesL (.cons n0 g0 r0) with
      | nil =>
        have htext : serializeSegment (.mk [] (.cons n0 g0 r0)) true =
            serializeSegment g1 false := by
          rw [serializeSegment_root, if_neg (by
            rw [namedOnly_blocks]
            unfold namedOnly
            rw [hN]
            simp)]
          rw [serializePrimaryBlocks_eq, hP]
          rfl
        rw [htext] at hfuel ⊢
        rw [if_neg (by
          rw [hhead]
          simp only [List.cons_append, List.length_cons, peekStartsWith,
            List.isPrefixOf, Bool.and_true]
          intro hg
          rw [show (('?' : Char) == c0) = (c0 == '?') from Bool.beq_comm,
            show (('#' : Char) == c0) = (c0 == '#') from Bool.beq_comm,
            safe_char_ne c0 '?' hc0safe (by decide),
            safe_char_ne c0 '#' hc0safe (by decide)] at hg
          simp at hg)]
        rw [parseChildren_print (sizeG g1) g1 rest fuel (le_refl _) hwf1
          hchild hfuel]
        simp only [bind, Except.bind]
        have hrn : reparseNamedEntries (.cons n0 g0 r0) = .nil := by
          rw [← entriesChildren_namedOnly]
          unfold namedOnly
          rw [hN]
          rfl
        unfold reparseRoot
        rw [hrp, hrn]
        rfl
      | cons ne1 nrest =>
        have htext : (serializeSegment
            (.mk [] (.cons n0 g0 r0)) true).data ++ rest =
            (serializeSegment g1 false).data ++ ('(' ::
              ((String.intercalate "//"
                ((namedOnly (.cons n0 g0 r0)).map blockOf)).data ++
                ')' :: rest)) := by
          rw [serializeSegment_root, if_pos (by
            rw [namedOnly_blocks]
            unfold namedOnly
            rw [hN]
            simp)]
          rw [serializePrimaryBlocks_eq, hP, namedOnly_blocks]
          rw [List.map_cons, List.map_nil]
          rw [show (([serializeSegment g1 false]).headD "") =
            serializeSegment g1 false from rfl]
          rw [String.data_append, String.data_append, String.data_append]
          rw [show ("(" : String).data = ['('] from rfl,
            show (")" : String).data = [')'] from rfl]
          simp [List.append_assoc]
        rw [htext] at hfuel ⊢
        rw [if_neg (by
          rw [hhead]
          simp only [List.cons_append, List.length_cons, peekStartsWith,
            List.isPrefixOf, Bool.and_true]
          intro hg
          rw [show (('?' : Char) == c0) = (c0 == '?') from Bool.beq_comm,
            show (('#' : Char) == c0) = (c0 == '#') from Bool.beq_comm,
            safe_char_ne c0 '?' hc0safe (by decide),
            safe_char_ne c0 '#' hc0safe (by decide)] at hg
          simp at hg)]
        rw [parseChildren_primary_named g1 (namedOnly (.cons n0 g0 r0)) rest
          fuel hwf1 hGno hwfno hnamesno hallno hnodupno hchild hfuel]
        simp only [bind, Except.bind]
        have hfreshP : ((entriesChildren
            (namedOnly (.cons n0 g0 r0))).keys).contains PRIMARY_OUTLET =
            false := by
          rw [keys_entriesChildren]
          exact namedOnly_names_not_primary _
        rw [assign_fresh _ _ _ hfreshP]
        have hrn : reparseNamedEntries (.cons n0 g0 r0) =
            entriesChildren (namedOnly (.cons n0 g0 r0)) :=
          (entriesChildren_namedOnly _).symm
        unfold reparseRoot
        rw [hrp, hrn]

/-- `ampJoin` of a cons. -/
theorem ampJoin_cons : ∀ (x : List Char) (l : List (List Char)),
    ampJoin (x :: l) = x ++ ampTail l
  | x, [] => by simp [ampJoin, ampTail]
  | x, y :: r => by
    rw [show ampJoin (x :: y :: r) = x ++ '&' :: ampJoin (y :: r) from rfl]
    rw [ampJoin_cons y r]
    unfold ampTail
    rw [List.map_cons, List.flatten_cons]
    simp

/-- Ampersand intercalation as an `ampJoin`. -/
theorem intercalate_amp_data : ∀ (l : List String),
    (String.intercalate "&" l).data = ampJoin (l.map String.data)
  | [] => rfl
  | x :: l => by
    rw [intercalate_flatten_data, List.map_cons, ampJoin_cons]
    unfold ampTail
    rw [List.map_map]
    rfl

/-- `ampJoin` of appended nonempty fragment lists. -/
theorem ampJoin_append : ∀ (la lb : List (List Char)), la ≠ [] → lb ≠ [] →
    ampJoin (la ++ lb) = ampJoin la ++ '&' :: ampJoin lb
  | [], _, ha, _ => absurd rfl ha
  | [x], lb, _, hb => by
    cases lb with
    | nil => exact absurd rfl hb
    | cons y r =>
      rw [show ([x] ++ y :: r) = x :: y :: r from rfl]
      rw [show ampJoin (x :: y :: r) = x ++ '&' :: ampJoin (y :: r) from rfl]
      rfl
  | x1 :: x2 :: xr, lb, _, hb => by
    rw [show ((x1 :: x2 :: xr) ++ lb) = x1 :: x2 :: (xr ++ lb) from rfl]
    rw [show ampJoin (x1 :: x2 :: (xr ++ lb)) =
      x1 ++ '&' :: ampJoin (x2 :: (xr ++ lb)) from rfl]
    rw [show (x2 :: (xr ++ lb) : List (List Char)) = (x2 :: xr) ++ lb from rfl]
    rw [ampJoin_append (x2 :: xr) lb (by simp) hb]
    rw [show ampJoin (x1 :: x2 :: xr) = x1 ++ '&' :: ampJoin (x2 :: xr) from rfl]
    simp [List.append_assoc]

/-- Each tail fragment contributes at least one character. -/
theorem ampTail_length_ge (l : List (List Char)) :
    l.length ≤ (ampTail l).length := by
  induction l with
  | nil => simp [ampTail]
  | cons x r ih =>
    unfold ampTail at ih ⊢
    simp only [List.map_cons, List.flatten_cons, List.length_append,
      List.length_cons]
    omega

/-- The printed text of one `key=value` unit. -/
theorem unitStr_data (k v : String)
    (hk : ∀ c ∈ k.data, isSafeUrlChar c = true)
    (hv : ∀ c ∈ v.data, isSafeUrlChar c = true) :
    (encode k ++ "=" ++ encode v).data = unitData (k, v) := by
  rw [String.data_append, String.data_append, encode_safe hk, encode_safe hv]
  unfold unitData
  simp [List.append_assoc]

/-- The components of a well-formed query. -/
theorem wfQuery_spec {q : QueryParams} (h : wfQuery q = true) :
    (∀ kv ∈ q, safeStr kv.1 = true ∧ (match kv.2 with
      | .str v => safeStrAllowEmpty v = true
      | .arr l => 2 ≤ l.length ∧ ∀ v ∈ l, safeStrAllowEmpty v = true)) ∧
    nodupKeys (q.map Prod.fst) = true := by
  unfold wfQuery at h
  rw [Bool.and_eq_true] at h
  constructor
  · intro kv hkv
    have h2 := List.all_eq_true.mp h.1 kv hkv
    rw [Bool.and_eq_true] at h2
    refine ⟨h2.1, ?_⟩
    obtain ⟨k, val⟩ := kv
    cases val with
    | str v => exact h2.2
    | arr l =>
      have h3 := h2.2
      rw [Bool.and_eq_true] at h3
      exact ⟨by simpa using h3.1, List.all_eq_true.mp h3.2⟩
  · exact h.2

/-- The print group of one query entry is never empty. -/
theorem kv_group_ne (kv : String × QueryVal)
    (hv : match kv.2 with
      | .str _ => True
      | .arr l => l ≠ []) :
    (match kv.2 with
      | .str v => [(kv.1, v)]
      | .arr l => l.map (fun v => (kv.1, v))) ≠ [] := by
  obtain ⟨k, val⟩ := kv
  cases val with
  | str v => simp
  | arr l =>
    cases l with
    | nil => exact absurd rfl hv
    | cons v vs => simp

/-- The printed text of one query entry is the amp-join of its units. -/
theorem kv_group_data (kv : String × QueryVal) (hk : safeStr kv.1 = true)
    (hv : match kv.2 with
      | .str v => safeStrAllowEmpty v = true
      | .arr l => l ≠ [] ∧ ∀ v ∈ l, safeStrAllowEmpty v = true) :
    ((match kv.2 with
      | .arr l => String.intercalate "&"
          (l.map fun v => encode kv.1 ++ "=" ++ encode v)
      | .str v => encode kv.1 ++ "=" ++ encode v) : String).data =
    ampJoin ((match kv.2 with
      | .str v => [(kv.1, v)]
      | .arr l => l.map (fun v => (kv.1, v))).map unitData) := by
  obtain ⟨k, val⟩ := kv
  have hksafe := (safeStr_spec hk).2
  cases val with
  | str v =>
    show (encode k ++ "=" ++ encode v).data = ampJoin [unitData (k, v)]
    rw [unitStr_data k v hksafe (safeStrAllowEmpty_spec hv)]
    rfl
  | arr l =>
    obtain ⟨hlne, hlsafe⟩ := hv
    show (String.intercalate "&"
      (l.map fun v => encode k ++ "=" ++ encode v)).data = _
    rw [intercalate_amp_data, List.map_map, List.map_map]
    congr 1
    apply List.map_congr_left
    intro v hvm
    show (encode k ++ "=" ++ encode v).data = unitData (k, v)
    exact unitStr_data k v hksafe (safeStrAllowEmpty_spec (hlsafe v hvm))

/-- The print group of a well-formed query entry, as its unit list. -/
theorem queryUnits_cons (kv : String × QueryVal) (q : QueryParams) :
    queryUnits (kv :: q) =
      (match kv.2 with
        | .str v => [(kv.1, v)]
        | .arr l => l.map (fun v => (kv.1, v))) ++ queryUnits q := by
  unfold queryUnits
  rw [List.map_cons, List.flatten_cons]

/-- A well-formed nonempty query has at least one unit. -/
theorem queryUnits_ne_nil (q : QueryParams)
    (hsafe : ∀ kv ∈ q, safeStr kv.1 = true ∧ (match kv.2 with
      | .str v => safeStrAllowEmpty v = true
      | .arr l => 2 ≤ l.length ∧ ∀ v ∈ l, safeStrAllowEmpty v = true))
    (hne : q ≠ []) : queryUnits q ≠ [] := by
  cases q with
  | nil => exact absurd rfl hne
  | cons kv r =>
    rw [queryUnits_cons]
    have h1 := hsafe kv (List.mem_cons_self _ _)
    intro hnil
    rcases List.append_eq_nil.mp hnil with ⟨h2, _⟩
    refine kv_group_ne kv ?_ h2
    obtain ⟨k, val⟩ := kv
    cases val with
    | str v => trivial
    | arr l =>
      intro hl
      have := h1.2.1
      rw [hl] at this
      simp at this

/-- The body of the printed query is the amp-join of all units. -/
theorem query_body_data : ∀ (q : QueryParams),
    (∀ kv ∈ q, safeStr kv.1 = true ∧ (match kv.2 with
      | .str v => safeStrAllowEmpty v = true
      | .arr l => 2 ≤ l.length ∧ ∀ v ∈ l, safeStrAllowEmpty v = true)) →
    q ≠ [] →
    (String.intercalate "&" (q.map (fun kv =>
      match kv.2 with
      | .arr l => String.intercalate "&"
          (l.map fun v => encode kv.1 ++ "=" ++ encode v)
      | .str v => encode kv.1 ++ "=" ++ encode v))).data =
      ampJoin ((queryUnits q).map unitData)
  | [], _, hne => absurd rfl hne
  | kv :: q', hsafe, _ => by
    have h1 := hsafe kv (List.mem_cons_self _ _)
    have hgne : (match kv.2 with
        | .str v => [(kv.1, v)]
        | .arr l => l.map (fun v => (kv.1, v))) ≠ [] := by
      refine kv_group_ne kv ?_
      obtain ⟨k, val⟩ := kv
      cases val with
      | str v => trivial
      | arr l =>
        intro hl
        have := h1.2.1
        rw [hl] at this
        simp at this
    have hgdata := kv_group_data kv h1.1 (by
      obtain ⟨k, val⟩ := kv
      cases val with
      | str v => exact h1.2
      | arr l =>
        refine ⟨?_, h1.2.2⟩
        intro hl
        have := h1.2.1
        rw [hl] at this
        simp at this)
    rw [queryUnits_cons, List.map_append]
    cases hq' : q' with
    | nil =>
      rw [List.map_cons, List.map_nil]
      rw [show String.intercalate "&" [(match kv.2 with
        | .arr l => String.intercalate "&"
            (l.map fun v => encode kv.1 ++ "=" ++ encode v)
        | .str v => encode kv.1 ++ "=" ++ encode v)] =
        (match kv.2 with
        | .arr l => String.intercalate "&"
            (l.map fun v => encode kv.1 ++ "=" ++ encode v)
        | .str v => encode kv.1 ++ "=" ++ encode v) from rfl]
      rw [hgdata]
      rw [show queryUnits [] = [] from rfl, List.map_nil, List.append_nil]
    | cons kv2 q2 =>
      rw [List.map_cons, List.map_cons, intercalate_cons_cons,
        show ("&" : String).data = ['&'] from rfl]
      have hrec := query_body_data (kv2 :: q2)
        (fun kv3 h3 => hsafe kv3 (by
          rw [hq']
          exact List.mem_cons_of_mem _ h3)) (by simp)
      simp only [List.map_cons] at hrec
      rw [hrec]
      rw [hgdata]
      rw [ampJoin_append _ _ (by simpa using hgne) (by
        have := queryUnits_ne_nil (kv2 :: q2)
          (fun kv3 h3 => hsafe kv3 (by
            rw [hq']
            exact List.mem_cons_of_mem _ h3)) (by simp)
        simpa using this)]
      simp

/-- The printed query of a well-formed nonempty query map. -/
theorem serializeQueryParams_data (q : QueryParams) (hwfq : wfQuery q = true)
    (hne : q ≠ []) :
    (serializeQueryParams q).data =
      '?' :: ampJoin ((queryUnits q).map unitData) := by
  obtain ⟨hsafe, _⟩ := wfQuery_spec hwfq
  unfold serializeQueryParams
  rw [if_pos (by
    cases q with
    | nil => exact absurd rfl hne
    | cons kv r => simp)]
  rw [String.data_append]
  rw [query_body_data q hsafe hne]
  rfl

/-- `parseQueryParam` over one printed unit. -/
theorem parseQueryParam_print (ps : QueryParams) (k v : String)
    (rest : List Char)
    (hk : safeStr k = true) (hv : safeStrAllowEmpty v = true)
    (hb : rest = [] ∨ rest.head? = some '&' ∨ rest.head? = some '#') :
    parseQueryParam ps (unitData (k, v) ++ rest) =
      .ok (addQueryParam ps k v, rest) := by
  obtain ⟨hknil, hksafe⟩ := safeStr_spec hk
  have hvsafe := safeStrAllowEmpty_spec hv
  have hbv : ∀ c, rest.head? = some c → isQueryParamValueChar c = false := by
    intro c hc
    rcases hb with rfl | h | h
    · cases hc
    · rw [h, Option.some.injEq] at hc
      subst hc
      decide
    · rw [h, Option.some.injEq] at hc
      subst hc
      decide
  have hinput : unitData (k, v) ++ rest = k.data ++ '=' :: (v.data ++ rest) := by
    unfold unitData
    simp [List.append_assoc]
  rw [hinput]
  have hmk : matchQueryParams (k.data ++ '=' :: (v.data ++ rest)) = k.data := by
    unfold matchQueryParams
    apply takeWhile_append_bound _ _ _
      (fun c hc => safe_isSegmentChar (hksafe c hc))
    intro c hc
    rw [List.head?_cons, Option.some.injEq] at hc
    subst hc
    decide
  have hmv : matchUrlQueryParamValue (v.data ++ rest) = v.data := by
    unfold matchUrlQueryParamValue
    exact takeWhile_append_bound _ _ _
      (fun c hc => safe_isQueryParamValueChar (hvsafe c hc)) hbv
  unfold parseQueryParam
  rw [hmk]
  rw [if_neg (by simp [hknil])]
  rw [capture_print k.data ('=' :: (v.data ++ rest))]
  simp only [bind, Except.bind, peekStartsWith, List.isPrefixOf,
    beq_self_eq_true, Bool.and_true, Bool.true_and, if_true]
  rw [show capture ['='] ('=' :: (v.data ++ rest)) = .ok (v.data ++ rest) from
    capture_print ['='] (v.data ++ rest)]
  simp only [bind, Except.bind]
  by_cases hv0 : v = ""
  · subst hv0
    simp only [show ("" : String).data = [] from rfl, List.nil_append] at hmv ⊢
    rw [hmv]
    simp only [ne_eq, not_true_eq_false, if_false, pure, Except.pure]
    rw [show (⟨k.data⟩ : String) = k from rfl]
    rw [decode_safe hksafe]
    rfl
  · have hvd : v.data ≠ [] := fun he => hv0 (congrArg String.mk he)
    rw [hmv]
    rw [if_pos (by simpa using hvd)]
    rw [capture_print v.data rest]
    simp only [pure, Except.pure]
    rw [show (⟨k.data⟩ : String) = k from rfl,
      show (⟨v.data⟩ : String) = v from rfl]
    rw [decode_safe hksafe, decode_safe hvsafe]

/-- The query loop over the printed tail units. -/
theorem parseQueryParamsLoop_print (us : List (String × String)) :
    ∀ (fuel : Nat) (ps : QueryParams) (rest : List Char),
      (∀ u ∈ us, safeStr u.1 = true ∧ safeStrAllowEmpty u.2 = true) →
      (rest = [] ∨ rest.head? = some '#') →
      us.length + 1 ≤ fuel →
      parseQueryParamsLoop fuel ps (ampTail (us.map unitData) ++ rest) =
        .ok (applyUnits ps us, rest) := by
  induction us with
  | nil =>
    intro fuel ps rest hsafe hb hf
    cases fuel with
    | zero => omega
    | succ f =>
      unfold parseQueryParamsLoop
      rw [show ampTail (([] : List (String × String)).map unitData) = []
        from rfl, List.nil_append]
      rcases hb with rfl | h
      · simp [applyUnits]
      · cases rest with
        | nil => cases h
        | cons c r =>
          rw [List.head?_cons, Option.some.injEq] at h
          subst h
          simp [peekStartsWith, List.isPrefixOf, applyUnits]
  | cons u us ih =>
    intro fuel ps rest hsafe hb hf
    obtain ⟨uk, uv⟩ := u
    cases fuel with
    | zero => omega
    | succ f =>
      have hinput : ampTail (((uk, uv) :: us).map unitData) ++ rest =
          '&' :: (unitData (uk, uv) ++ (ampTail (us.map unitData) ++ rest)) := by
        unfold ampTail
        rw [List.map_cons, List.map_cons, List.flatten_cons]
        simp [List.append_assoc]
      rw [hinput]
      unfold parseQueryParamsLoop
      rw [if_pos (by simp [peekStartsWith, List.isPrefixOf])]
      rw [capture_cons '&'
        (unitData (uk, uv) ++ (ampTail (us.map unitData) ++ rest))]
      simp only [bind, Except.bind]
      have hu := hsafe (uk, uv) (List.mem_cons_self _ _)
      rw [parseQueryParam_print ps uk uv (ampTail (us.map unitData) ++ rest)
        hu.1 hu.2 (by
          cases us with
          | nil =>
            rw [show ampTail (([] : List (String × String)).map unitData) = []
              from rfl, List.nil_append]
            rcases hb with rfl | h
            · exact Or.inl rfl
            · exact Or.inr (Or.inr h)
          | cons u2 us2 =>
            right
            left
            rw [show ampTail (((u2 :: us2)).map unitData) =
              '&' :: (unitData u2 ++ ampTail (us2.map unitData)) by
              unfold ampTail
              rw [List.map_cons, List.map_cons, List.flatten_cons]
              simp [List.append_assoc]]
            rfl)]
      simp only [bind, Except.bind]
      have := ih f (addQueryParam ps uk uv) rest
        (fun u2 h2 => hsafe u2 (List.mem_cons_of_mem _ h2)) hb (by
          simp only [List.length_cons] at hf
          omega)
      rw [this]
      rfl

/-- Fresh key: `addQueryParam` appends a plain entry. -/
theorem addQueryParam_fresh (acc : QueryParams) (k v : String)
    (h : ∀ kv ∈ acc, kv.1 ≠ k) :
    addQueryParam acc k v = acc ++ [(k, .str v)] := by
  induction acc with
  | nil => rfl
  | cons kv0 r ih =>
    unfold addQueryParam
    rw [if_neg (h kv0 (List.mem_cons_self _ _))]
    rw [ih (fun kv2 h2 => h kv2 (List.mem_cons_of_mem _ h2))]
    rfl

/-- Repeated key at the last entry: a plain value becomes a two-element
array. -/
theorem addQueryParam_last_str (acc : QueryParams) (k v0 v : String)
    (h : ∀ kv ∈ acc, kv.1 ≠ k) :
    addQueryParam (acc ++ [(k, .str v0)]) k v = acc ++ [(k, .arr [v0, v])] := by
  induction acc with
  | nil =>
    show addQueryParam [(k, .str v0)] k v = _
    unfold addQueryParam
    rw [if_pos rfl]
    rfl
  | cons kv0 r ih =>
    rw [List.cons_append]
    unfold addQueryParam
    rw [if_neg (h kv0 (List.mem_cons_self _ _))]
    rw [ih (fun kv2 h2 => h kv2 (List.mem_cons_of_mem _ h2))]
    rfl

/-- Repeated key at the last entry: an array value gets the new element
appended. -/
theorem addQueryParam_last_arr (acc : QueryParams) (k : String)
    (l : List String) (v : String)
    (h : ∀ kv ∈ acc, kv.1 ≠ k) :
    addQueryParam (acc ++ [(k, .arr l)]) k v =
      acc ++ [(k, .arr (l ++ [v]))] := by
  induction acc with
  | nil =>
    show addQueryParam [(k, .arr l)] k v = _
    unfold addQueryParam
    rw [if_pos rfl]
    rfl
  | cons kv0 r ih =>
    rw [List.cons_append]
    unfold addQueryParam
    rw [if_neg (h kv0 (List.mem_cons_self _ _))]
    rw [ih (fun kv2 h2 => h kv2 (List.mem_cons_of_mem _ h2))]
    rfl

/-- `applyUnits` over an appended unit list. -/
theorem applyUnits_append (acc : QueryParams)
    (us1 us2 : List (String × String)) :
    applyUnits acc (us1 ++ us2) = applyUnits (applyUnits acc us1) us2 := by
  unfold applyUnits
  rw [List.foldl_append]

/-- Accumulating the remaining array elements onto the last entry. -/
theorem applyUnits_arr_tail : ∀ (vs : List String) (acc : QueryParams)
    (k : String) (l : List String), (∀ kv ∈ acc, kv.1 ≠ k) →
    applyUnits (acc ++ [(k, .arr l)]) (vs.map (fun v => (k, v))) =
      acc ++ [(k, .arr (l ++ vs))]
  | [], acc, k, l, _ => by simp [applyUnits]
  | v :: vs, acc, k, l, h => by
    rw [List.map_cons]
    show applyUnits (addQueryParam (acc ++ [(k, .arr l)]) k v)
      (vs.map (fun v => (k, v))) = _
    rw [addQueryParam_last_arr acc k l v h]
    rw [applyUnits_arr_tail vs acc k (l ++ [v]) h]
    simp

/-- Replaying the print units of one entry onto a fresh accumulator appends
exactly that entry. -/
theorem applyUnits_group (kv : String × QueryVal) (acc : QueryParams)
    (h : ∀ p ∈ acc, p.1 ≠ kv.1)
    (hwfv : match kv.2 with
      | .str _ => True
      | .arr l => 2 ≤ l.length) :
    applyUnits acc (match kv.2 with
      | .str v => [(kv.1, v)]
      | .arr l => l.map (fun v => (kv.1, v))) = acc ++ [kv] := by
  obtain ⟨k, val⟩ := kv
  cases val with
  | str v =>
    show applyUnits (addQueryParam acc k v) [] = _
    show addQueryParam acc k v = _
    exact addQueryParam_fresh acc k v h
  | arr l =>
    have hlen : 2 ≤ l.length := hwfv
    cases l with
    | nil => simp at hlen
    | cons v1 l1 =>
      cases l1 with
      | nil => simp at hlen
      | cons v2 vs =>
        show applyUnits (addQueryParam (addQueryParam acc k v1) k v2)
          (vs.map (fun v => (k, v))) = _
        rw [addQueryParam_fresh acc k v1 h]
        rw [addQueryParam_last_str acc k v1 v2 h]
        rw [applyUnits_arr_tail vs acc k [v1, v2] h]
        rfl

/-- Replaying all print units rebuilds the query map exactly. -/
theorem applyUnits_rebuild : ∀ (q acc : QueryParams),
    (∀ kv ∈ q, match kv.2 with
      | .str _ => True
      | .arr l => 2 ≤ l.length) →
    (∀ p ∈ acc, ∀ kv ∈ q, p.1 ≠ kv.1) →
    nodupKeys (q.map Prod.fst) = true →
    applyUnits acc (queryUnits q) = acc ++ q
  | [], acc, _, _, _ => by simp [applyUnits, queryUnits]
  | kv :: q', acc, hwfv, hfresh, hnodup => by
    rw [queryUnits_cons, applyUnits_append]
    rw [applyUnits_group kv acc
      (fun p hp => hfresh p hp kv (List.mem_cons_self _ _))
      (hwfv kv (List.mem_cons_self _ _))]
    rw [List.map_cons] at hnodup
    rw [nodupKeys, Bool.and_eq_true] at hnodup
    rw [applyUnits_rebuild q' (acc ++ [kv])
      (fun kv2 h2 => hwfv kv2 (List.mem_cons_of_mem _ h2))
      (by
        intro p hp kv2 h2
        rw [List.mem_append] at hp
        rcases hp with hp | hp
        · exact hfresh p hp kv2 (List.mem_cons_of_mem _ h2)
        · rw [List.mem_singleton] at hp
          subst hp
          have hall := forall_ne_of_contains_false (by
            simpa using hnodup.1) kv2.1 (List.mem_map_of_mem Prod.fst h2)
          intro he
          rw [beq_eq_false_iff_ne] at hall
          exact hall he.symm)
      hnodup.2]
    simp

/-- `parseQueryParams` over the printed query of a well-formed map. -/
theorem parseQueryParams_print (q : QueryParams) (rest : List Char)
    (hwfq : wfQuery q = true)
    (hb : rest = [] ∨ rest.head? = some '#') :
    parseQueryParams ((serializeQueryParams q).data ++ rest) =
      .ok (q, rest) := by
  obtain ⟨hsafe, hnodup⟩ := wfQuery_spec hwfq
  by_cases hqe : q = []
  · subst hqe
    rw [show (serializeQueryParams []).data = [] from rfl, List.nil_append]
    unfold parseQueryParams
    rw [show peekStartsWith ['?'] rest = false by
      rcases hb with rfl | h
      · rfl
      · cases rest with
        | nil => rfl
        | cons c r =>
          rw [List.head?_cons, Option.some.injEq] at h
          subst h
          simp [peekStartsWith, List.isPrefixOf]]
    simp
  · have hqne : q ≠ [] := hqe
    rw [serializeQueryParams_data q hwfq hqne]
    have hune := queryUnits_ne_nil q hsafe hqne
    obtain ⟨u1, urest, hu⟩ := List.exists_cons_of_ne_nil hune
    have husafe : ∀ u ∈ queryUnits q,
        safeStr u.1 = true ∧ safeStrAllowEmpty u.2 = true := by
      intro u hum
      unfold queryUnits at hum
      rw [List.mem_flatten] at hum
      obtain ⟨grp, hgrp, humem⟩ := hum
      rw [List.mem_map] at hgrp
      obtain ⟨kv, hkvm, rfl⟩ := hgrp
      have hkv := hsafe kv hkvm
      obtain ⟨k, val⟩ := kv
      cases val with
      | str v =>
        rw [List.mem_singleton] at humem
        subst humem
        exact ⟨hkv.1, hkv.2⟩
      | arr l =>
        rw [List.mem_map] at humem
        obtain ⟨v, hvm, rfl⟩ := humem
        exact ⟨hkv.1, hkv.2.2 v hvm⟩
    rw [hu]
    rw [List.map_cons, ampJoin_cons]
    unfold parseQueryParams
    rw [List.cons_append]
    rw [show peekStartsWith ['?'] ('?' ::
        ((unitData u1 ++ ampTail (urest.map unitData)) ++ rest)) = true by
      simp [peekStartsWith, List.isPrefixOf]]
    simp only [if_true]
    rw [capture_cons '?'
      ((unitData u1 ++ ampTail (urest.map unitData)) ++ rest)]
    simp only [bind, Except.bind]
    have hu1 := husafe u1 (by
      rw [hu]
      exact List.mem_cons_self _ _)
    obtain ⟨u1k, u1v⟩ := u1
    rw [List.append_assoc]
    rw [parseQueryParam_print [] u1k u1v
      (ampTail (urest.map unitData) ++ rest) hu1.1 hu1.2 (by
        cases urest with
        | nil =>
          rw [show ampTail (([] : List (String × String)).map unitData) = []
            from rfl, List.nil_append]
          rcases hb with rfl | h
          · exact Or.inl rfl
          · exact Or.inr (Or.inr h)
        | cons u2 us2 =>
          right
          left
          rw [show ampTail (((u2 :: us2)).map unitData) =
            '&' :: (unitData u2 ++ ampTail (us2.map unitData)) by
            unfold ampTail
            rw [List.map_cons, List.map_cons, List.flatten_cons]
            simp [List.append_assoc]]
          rfl)]
    simp only [bind, Except.bind]
    rw [parseQueryParamsLoop_print urest
      ((ampTail (urest.map unitData) ++ rest).length + 1)
      (addQueryParam [] u1k u1v) rest
      (fun u2 h2 => husafe u2 (by
        rw [hu]
        exact List.mem_cons_of_mem _ h2)) hb (by
        have h1 := ampTail_length_ge (urest.map unitData)
        rw [List.length_map] at h1
        rw [List.length_append]
        omega)]
    have hfold : applyUnits (addQueryParam [] u1k u1v) urest =
        applyUnits [] (queryUnits q) := by
      rw [hu]
      rfl
    rw [hfold]
    rw [applyUnits_rebuild q []
      (fun kv hkvm => by
        have := (hsafe kv hkvm).2
        obtain ⟨k, val⟩ := kv
        cases val with
        | str v => trivial
        | arr l => exact this.1)
      (fun p hp => by cases hp) hnodup]
    rfl

/-- `parseFragment` over the printed fragment. -/
theorem parseFragment_print (f : Option String)
    (hf : match f with
      | none => True
      | some s => safeStrAllowEmpty s = true) :
    parseFragment ((match f with
      | some s => "#" ++ encodeURIModel s
      | none => ("" : String)).data) = .ok f := by
  cases f with
  | none => rfl
  | some s =>
    have hsafe := safeStrAllowEmpty_spec hf
    show parseFragment (("#" ++ encodeURIModel s).data) = _
    rw [String.data_append, encodeURIModel_safe hsafe]
    unfold parseFragment
    rw [show (("#" : String).data ++ s.data) = '#' :: s.data from rfl]
    rw [show peekStartsWith ['#'] ('#' :: s.data) = true by
      simp [peekStartsWith, List.isPrefixOf]]
    simp only [eq_self_iff_true, if_true]
    rw [show ('#' :: s.data).drop 1 = s.data from rfl]
    rw [show (⟨s.data⟩ : String) = s from rfl]
    rw [decodeURIModel_safe hsafe]

/-- Equality test of query values is reflexive. -/
theorem queryVal_beq_refl : ∀ (v : QueryVal), QueryVal.beq v v = true
  | .str s => beq_self_eq_true s
  | .arr l => beq_self_eq_true l

/-- Equality test of query maps is reflexive. -/
theorem queryParams_beq_refl : ∀ (q : QueryParams), (q == q) = true
  | [] => rfl
  | kv :: r => by
    obtain ⟨k, v⟩ := kv
    show (((k == k) && QueryVal.beq v v) && (r == r)) = true
    rw [beq_self_eq_true k, queryVal_beq_refl v, queryParams_beq_refl r]
    rfl

/-- Equality test of optional fragments is reflexive. -/
theorem fragment_beq_refl : ∀ (f : Option String), (f == f) = true
  | none => rfl
  | some s => by
    show (s == s) = true
    exact beq_self_eq_true s

/-- The sub-map test distributes over append. -/
theorem eqvSub_append : ∀ (a b full : UrlChildren),
    eqvSub (a.append b) full = (eqvSub a full && eqvSub b full)
  | .nil, b, full => by
    show eqvSub b full = (true && eqvSub b full)
    rw [Bool.true_and]
  | .cons n g r, b, full => by
    show ((match full.lookup n with
      | some g2 => eqvG g g2
      | none => false) && eqvSub (r.append b) full) = _
    rw [eqvSub_append r b full]
    show _ = (((match full.lookup n with
      | some g2 => eqvG g g2
      | none => false) && eqvSub r full) && eqvSub b full)
    rw [Bool.and_assoc]

/-- Entry keys are the children keys. -/
theorem entriesL_keys : ∀ (cs : UrlChildren),
    cs.entriesL.map Prod.fst = cs.keys
  | .nil => rfl
  | .cons n g r => by
    show n :: r.entriesL.map Prod.fst = n :: r.keys
    rw [entriesL_keys r]

/-- With duplicate-free keys, lookup finds each entry. -/
theorem lookup_of_entry : ∀ (cs : UrlChildren), nodupKeys cs.keys = true →
    ∀ p ∈ cs.entriesL, cs.lookup p.1 = some p.2
  | .nil, _, p, hp => by cases hp
  | .cons n g r, h, p, hp => by
    rw [UrlChildren.keys, nodupKeys, Bool.and_eq_true] at h
    rw [show (UrlChildren.cons n g r).entriesL = (n, g) :: r.entriesL from rfl,
      List.mem_cons] at hp
    rcases hp with rfl | hp
    · show (if n = n then some g else r.lookup n) = some g
      rw [if_pos rfl]
    · have hne : ¬ n = p.1 := by
        intro he
        have hmem : p.1 ∈ r.keys := by
          rw [← entriesL_keys r]
          exact List.mem_map_of_mem Prod.fst hp
        rw [← he] at hmem
        have hc : r.keys.contains n = true := (contains_iff_mem _ _).mpr hmem
        rw [hc] at h
        simp at h
      show (if n = p.1 then some g else r.lookup p.1) = some p.2
      rw [if_neg hne]
      exact lookup_of_entry r h.2 p hp

/-- Entry groups are no larger than their children map. -/
theorem size_entriesL : ∀ (cs : UrlChildren),
    ∀ p ∈ cs.entriesL, sizeG p.2 ≤ sizeC cs
  | .nil, p, hp => by cases hp
  | .cons n g r, p, hp => by
    rw [show (UrlChildren.cons n g r).entriesL = (n, g) :: r.entriesL from rfl,
      List.mem_cons] at hp
    rw [sizeC]
    rcases hp with rfl | hp
    · show sizeG g ≤ 1 + sizeG g + sizeC r
      omega
    · have := size_entriesL r p hp
      omega

/-- Entry groups of well-formed children are well-formed. -/
theorem wf_entriesL : ∀ (cs : UrlChildren), wfChildrenB cs = true →
    ∀ p ∈ cs.entriesL, wfGroupB p.2 = true
  | .nil, _, p, hp => by cases hp
  | .cons n g r, h, p, hp => by
    rw [wfChildrenB, Bool.and_eq_true, Bool.and_eq_true] at h
    rw [show (UrlChildren.cons n g r).entriesL = (n, g) :: r.entriesL from rfl,
      List.mem_cons] at hp
    rcases hp with rfl | hp
    · exact h.1.2
    · exact wf_entriesL r h.2 p hp

/-- The reparsed primary entries are a sub-map of the original children. -/
theorem eqvSub_reparsePrim : ∀ (cs full : UrlChildren),
    (∀ p ∈ cs.entriesL, full.lookup p.1 = some p.2 ∧
      eqvG (reparseG p.2) p.2 = true) →
    eqvSub (reparsePrimaryEntries cs) full = true
  | .nil, full, _ => rfl
  | .cons n g r, full, h => by
    rw [reparsePrimaryEntries]
    have hrec := eqvSub_reparsePrim r full
      (fun p hp => h p (List.mem_cons_of_mem _ hp))
    by_cases hn : n = PRIMARY_OUTLET
    · rw [if_pos hn]
      have h1 := h (n, g) (List.mem_cons_self _ _)
      have hlk : full.lookup n = some g := h1.1
      show ((match full.lookup n with
        | some g2 => eqvG (reparseG g) g2
        | none => false) && eqvSub (reparsePrimaryEntries r) full) = true
      rw [hlk]
      show (eqvG (reparseG g) g && eqvSub (reparsePrimaryEntries r) full) = true
      rw [h1.2, hrec]
      rfl
    · rw [if_neg hn]
      exact hrec

/-- The reparsed named entries are a sub-map of the original children. -/
theorem eqvSub_reparseNamed : ∀ (cs full : UrlChildren),
    (∀ p ∈ cs.entriesL, full.lookup p.1 = some p.2 ∧
      eqvG (reparseG p.2) p.2 = true) →
    eqvSub (reparseNamedEntries cs) full = true
  | .nil, full, _ => rfl
  | .cons n g r, full, h => by
    rw [reparseNamedEntries]
    have hrec := eqvSub_reparseNamed r full
      (fun p hp => h p (List.mem_cons_of_mem _ hp))
    by_cases hn : n = PRIMARY_OUTLET
    · rw [if_pos hn]
      exact hrec
    · rw [if_neg hn]
      have h1 := h (n, g) (List.mem_cons_self _ _)
      have hlk : full.lookup n = some g := h1.1
      show ((match full.lookup n with
        | some g2 => eqvG (reparseG g) g2
        | none => false) && eqvSub (reparseNamedEntries r) full) = true
      rw [hlk]
      show (eqvG (reparseG g) g && eqvSub (reparseNamedEntries r) full) = true
      rw [h1.2, hrec]
      rfl

/-- The reparse split preserves the number of entries. -/
theorem reparse_length : ∀ (cs : UrlChildren),
    (reparsePrimaryEntries cs).length + (reparseNamedEntries cs).length =
      cs.length
  | .nil => rfl
  | .cons n g r => by
    rw [reparsePrimaryEntries, reparseNamedEntries]
    have := reparse_length r
    by_cases hn : n = PRIMARY_OUTLET
    · rw [if_pos hn, if_pos hn]
      show (reparsePrimaryEntries r).length + 1 +
        (reparseNamedEntries r).length = r.length + 1
      omega
    · rw [if_neg hn, if_neg hn]
      show (reparsePrimaryEntries r).length +
        ((reparseNamedEntries r).length + 1) = r.length + 1
      omega

/-- Length of an appended children map. -/
theorem children_length_append : ∀ (a b : UrlChildren),
    (a.append b).length = a.length + b.length
  | .nil, b => by
    show b.length = UrlChildren.length .nil + b.length
    rw [show UrlChildren.length .nil = 0 from rfl]
    omega
  | .cons n g r, b => by
    show (r.append b).length + 1 = (r.length + 1) + b.length
    rw [children_length_append r b]
    omega

/-- The reparsed group is structurally equal to the original, in the JS
sense that ignores children insertion order. -/
theorem eqvG_reparse : ∀ (n : Nat) (g : UrlSegmentGroup), sizeG g ≤ n →
    wfGroupB g = true → eqvG (reparseG g) g = true := by
  intro n
  induction n with
  | zero =>
    intro g hsize hwf
    obtain ⟨segs, cs⟩ := g
    rw [sizeG] at hsize
    omega
  | succ n ih =>
    intro g hsize hwf
    obtain ⟨segs, cs⟩ := g
    rw [sizeG] at hsize
    rw [wfGroupB] at hwf
    rw [Bool.and_eq_true, Bool.and_eq_true, Bool.and_eq_true] at hwf
    obtain ⟨⟨⟨hne, hall⟩, hnodup⟩, hwfc⟩ := hwf
    have hentry : ∀ p ∈ cs.entriesL, cs.lookup p.1 = some p.2 ∧
        eqvG (reparseG p.2) p.2 = true := by
      intro p hp
      refine ⟨lookup_of_entry cs hnodup p hp, ?_⟩
      refine ih p.2 ?_ (wf_entriesL cs hwfc p hp)
      have := size_entriesL cs p hp
      omega
    show ((segs == segs) &&
      (((reparsePrimaryEntries cs).append (reparseNamedEntries cs)).length ==
        cs.length) &&
      eqvSub ((reparsePrimaryEntries cs).append (reparseNamedEntries cs))
        cs) = true
    rw [beq_self_eq_true segs]
    rw [show (((reparsePrimaryEntries cs).append
        (reparseNamedEntries cs)).length == cs.length) = true by
      rw [children_length_append, reparse_length]
      exact beq_self_eq_true _]
    rw [eqvSub_append]
    rw [eqvSub_reparsePrim cs cs hentry, eqvSub_reparseNamed cs cs hentry]
    rfl

/-- The reparsed root is structurally equal to the original root. -/
theorem eqvG_reparseRoot (cs : UrlChildren)
    (hnodup : nodupKeys cs.keys = true) (hwfc : wfChildrenB cs = true) :
    eqvG (.mk [] (reparseRoot cs)) (.mk [] cs) = true := by
  have hentry : ∀ p ∈ cs.entriesL, cs.lookup p.1 = some p.2 ∧
      eqvG (reparseG p.2) p.2 = true := by
    intro p hp
    refine ⟨lookup_of_entry cs hnodup p hp, ?_⟩
    exact eqvG_reparse (sizeG p.2) p.2 (le_refl _) (wf_entriesL cs hwfc p hp)
  show ((([] : List UrlSegment) == []) &&
    ((reparseRoot cs).length == cs.length) &&
    eqvSub (reparseRoot cs) cs) = true
  rw [show ((reparseRoot cs).length == cs.length) = true by
    unfold reparseRoot
    rw [children_length_append]
    rw [show (reparseNamedEntries cs).length +
      (reparsePrimaryEntries cs).length =
      (reparsePrimaryEntries cs).length +
        (reparseNamedEntries cs).length from by omega]
    rw [reparse_length]
    exact beq_self_eq_true _]
  unfold reparseRoot
  rw [eqvSub_append]
  rw [eqvSub_reparsePrim cs cs hentry, eqvSub_reparseNamed cs cs hentry]
  rfl

/-- The reparsed tree is structurally equal to the original tree. -/
theorem eqvTree_reparse (t : UrlTree) (hwf : wfTree t = true) :
    eqvTree (reparseTree t) t = true := by
  obtain ⟨root, q, frag⟩ := t
  obtain ⟨segs, cs⟩ := root
  unfold wfTree at hwf
  rw [Bool.and_eq_true, Bool.and_eq_true, Bool.and_eq_true,
    Bool.and_eq_true] at hwf
  obtain ⟨⟨⟨⟨hseg, hnodup⟩, hwfc⟩, hq⟩, hfrag⟩ := hwf
  cases segs with
  | cons s r => simp [UrlSegmentGroup.segments] at hseg
  | nil =>
    show (eqvG (.mk [] (reparseRoot cs)) (.mk [] cs) &&
      (q == q) && (frag == frag)) = true
    rw [eqvG_reparseRoot cs hnodup hwfc, queryParams_beq_refl q,
      fragment_beq_refl frag]
    rfl

/-- The characters of a serialized tree: leading slash, then the root, the
query and the fragment. -/
theorem serialize_data (cs : UrlChildren) (q : QueryParams)
    (frag : Option String) :
    (DefaultUrlSerializer.serialize ⟨.mk [] cs, q, frag⟩).data =
      '/' :: ((serializeSegment (.mk [] cs) true).data ++
        ((serializeQueryParams q).data ++ (match frag with
          | some f => "#" ++ encodeURIModel f
          | none => ("" : String)).data)) := by
  unfold DefaultUrlSerializer.serialize
  rw [String.data_append, String.data_append, String.data_append]
  simp [List.append_assoc]

/-- `parse` with the intermediate remainder inlined. -/
theorem parse_eq (url : String) : DefaultUrlSerializer.parse url = (do
    let (root, rem1) ← parseRootSegment (5 * url.data.length + 8) url.data
    let (qp, rem2) ← parseQueryParams rem1
    let frag ← parseFragment rem2
    .ok ⟨root, qp, frag⟩ : Except String UrlTree) := rfl

/-- The full parse of a serialized well-formed tree. -/
theorem parse_serialize (cs : UrlChildren) (q : QueryParams)
    (frag : Option String)
    (hwf : wfTree ⟨.mk [] cs, q, frag⟩ = true) :
    DefaultUrlSerializer.parse
      (DefaultUrlSerializer.serialize ⟨.mk [] cs, q, frag⟩) =
      .ok ⟨.mk [] (reparseRoot cs), q, frag⟩ := by
  have hwf2 := hwf
  unfold wfTree at hwf2
  rw [Bool.and_eq_true, Bool.and_eq_true, Bool.and_eq_true,
    Bool.and_eq_true] at hwf2
  obtain ⟨⟨⟨⟨hseg, hnodup⟩, hwfc⟩, hq⟩, hfrag⟩ := hwf2
  have hfragb : (match frag with
      | some f => "#" ++ encodeURIModel f
      | none => ("" : String)).data = [] ∨
      (match frag with
        | some f => "#" ++ encodeURIModel f
        | none => ("" : String)).data.head? = some '#' := by
    cases frag with
    | none => exact Or.inl rfl
    | some s =>
      right
      show (("#" ++ encodeURIModel s) : String).data.head? = some '#'
      rw [String.data_append]
      rfl
  have hrest : (serializeQueryParams q).data ++ (match frag with
      | some f => "#" ++ encodeURIModel f
      | none => ("" : String)).data = [] ∨
      ((serializeQueryParams q).data ++ (match frag with
        | some f => "#" ++ encodeURIModel f
        | none => ("" : String)).data).head? = some '?' ∨
      ((serializeQueryParams q).data ++ (match frag with
        | some f => "#" ++ encodeURIModel f
        | none => ("" : String)).data).head? = some '#' := by
    by_cases hqe : q = []
    · subst hqe
      rw [show (serializeQueryParams []).data = [] from rfl, List.nil_append]
      rcases hfragb with h | h
      · exact Or.inl h
      · exact Or.inr (Or.inr h)
    · rw [serializeQueryParams_data q hq hqe, List.cons_append]
      exact Or.inr (Or.inl rfl)
  rw [parse_eq]
  rw [serialize_data cs q frag]
  rw [parseRootSegment_print cs _ _ hwfc hnodup hrest (by
    simp only [List.length_cons]
    omega)]
  simp only [bind, Except.bind]
  rw [parseQueryParams_print q _ hq hfragb]
  simp only [bind, Except.bind]
  cases frag with
  | none => rw [parseFragment_print none trivial]
  | some s => rw [parseFragment_print (some s) (by exact hfrag)]

/-- C1 (counterexample): the claimed roundtrip does not hold for every
UrlTree.  A query parameter whose value is a one-element array serializes
as a plain `key=value` pair, and parsing that back yields a plain string
value, so the parsed tree is not structurally equal to the original even
under the order-insensitive JS equality: arrays are only preserved when
they have at least two elements. -/
theorem C1_counterexample :
    DefaultUrlSerializer.serialize
      ⟨.mk [] .nil, [("k", .arr ["v"])], none⟩ = "/?k=v" ∧
    DefaultUrlSerializer.parse "/?k=v" =
      .ok ⟨.mk [] .nil, [("k", .str "v")], none⟩ ∧
    eqvTree ⟨.mk [] .nil, [("k", .str "v")], none⟩
      ⟨.mk [] .nil, [("k", .arr ["v"])], none⟩ = false := by
  refine ⟨rfl, rfl, rfl⟩

/-- C1 (amended): for every well-formed UrlTree t (nonempty segment paths
of safe characters, safe distinct matrix and query keys, query arrays of
at least two elements, safe fragment), parse (serialize t) succeeds and
returns exactly reparseTree t, the tree t with every children map
reordered as the parser reinserts its entries (at the root the primary
entry moves to the back, in inner groups to the front); that tree is
structurally equal to t in the JS sense: same segments and matrix params
at every position, query-param values and arrays preserved in order, the
fragment preserved, and children maps equal as key-to-group maps.  An
empty query map and an absent fragment emit nothing during
serialization. -/
theorem C1_roundtrip (t : UrlTree) (hwf : wfTree t = true) :
    DefaultUrlSerializer.parse (DefaultUrlSerializer.serialize t) =
      .ok (reparseTree t) ∧
    eqvTree (reparseTree t) t = true ∧
    (t.queryParams = [] → serializeQueryParams t.queryParams = "") ∧
    (t.fragment = none → (match t.fragment with
      | some f => "#" ++ encodeURIModel f
      | none => ("" : String)) = "") := by
  obtain ⟨root, q, frag⟩ := t
  obtain ⟨segs, cs⟩ := root
  have hwf2 := hwf
  unfold wfTree at hwf2
  rw [Bool.and_eq_true, Bool.and_eq_true, Bool.and_eq_true,
    Bool.and_eq_true] at hwf2
  obtain ⟨⟨⟨⟨hseg, hnodup⟩, hwfc⟩, hq⟩, hfrag⟩ := hwf2
  cases segs with
  | cons s r => simp [UrlSegmentGroup.segments] at hseg
  | nil =>
    refine ⟨parse_serialize cs q frag hwf,
      eqvTree_reparse ⟨.mk [] cs, q, frag⟩ hwf, ?_, ?_⟩
    · intro h
      have h2 : q = [] := h
      show serializeQueryParams q = ""
      rw [h2]
      rfl
    · intro h
      cases frag with
      | none => rfl
      | some s => exact Option.noConfusion (h : some s = none)

/-- Witness for C1: the tree behind `/a;x=1/(aux:b)(left:c)?k=v&m=1&m=2#frag`
is well-formed and round-trips. -/
theorem C1_roundtrip_witness :
    wfTree ⟨.mk [] (.cons "primary" (.mk [⟨"a", [("x", "1")]⟩]
        (.cons "aux" (.mk [⟨"b", []⟩] .nil) .nil))
      (.cons "left" (.mk [⟨"c", []⟩] .nil) .nil)),
     [("k", .str "v"), ("m", .arr ["1", "2"])], some "frag"⟩ = true ∧
    (DefaultUrlSerializer.parse (DefaultUrlSerializer.serialize
        ⟨.mk [] (.cons "primary" (.mk [⟨"a", [("x", "1")]⟩]
            (.cons "aux" (.mk [⟨"b", []⟩] .nil) .nil))
          (.cons "left" (.mk [⟨"c", []⟩] .nil) .nil)),
         [("k", .str "v"), ("m", .arr ["1", "2"])], some "frag"⟩) =
      .ok (reparseTree
        ⟨.mk [] (.cons "primary" (.mk [⟨"a", [("x", "1")]⟩]
            (.cons "aux" (.mk [⟨"b", []⟩] .nil) .nil))
          (.cons "left" (.mk [⟨"c", []⟩] .nil) .nil)),
         [("k", .str "v"), ("m", .arr ["1", "2"])], some "frag"⟩) ∧
    eqvTree (reparseTree
        ⟨.mk [] (.cons "primary" (.mk [⟨"a", [("x", "1")]⟩]
            (.cons "aux" (.mk [⟨"b", []⟩] .nil) .nil))
          (.cons "left" (.mk [⟨"c", []⟩] .nil) .nil)),
         [("k", .str "v"), ("m", .arr ["1", "2"])], some "frag"⟩)
      ⟨.mk [] (.cons "primary" (.mk [⟨"a", [("x", "1")]⟩]
          (.cons "aux" (.mk [⟨"b", []⟩] .nil) .nil))
        (.cons "left" (.mk [⟨"c", []⟩] .nil) .nil)),
       [("k", .str "v"), ("m", .arr ["1", "2"])], some "frag"⟩ = true ∧
    ((⟨.mk [] (.cons "primary" (.mk [⟨"a", [("x", "1")]⟩]
          (.cons "aux" (.mk [⟨"b", []⟩] .nil) .nil))
        (.cons "left" (.mk [⟨"c", []⟩] .nil) .nil)),
       [("k", .str "v"), ("m", .arr ["1", "2"])], some "frag"⟩ :
        UrlTree).queryParams = [] →
      serializeQueryParams (⟨.mk [] (.cons "primary"
          (.mk [⟨"a", [("x", "1")]⟩]
            (.cons "aux" (.mk [⟨"b", []⟩] .nil) .nil))
          (.cons "left" (.mk [⟨"c", []⟩] .nil) .nil)),
         [("k", .str "v"), ("m", .arr ["1", "2"])], some "frag"⟩ :
          UrlTree).queryParams = "") ∧
    ((⟨.mk [] (.cons "primary" (.mk [⟨"a", [("x", "1")]⟩]
          (.cons "aux" (.mk [⟨"b", []⟩] .nil) .nil))
        (.cons "left" (.mk [⟨"c", []⟩] .nil) .nil)),
       [("k", .str "v"), ("m", .arr ["1", "2"])], some "frag"⟩ :
        UrlTree).fragment = none →
      (match (⟨.mk [] (.cons "primary" (.mk [⟨"a", [("x", "1")]⟩]
            (.cons "aux" (.mk [⟨"b", []⟩] .nil) .nil))
          (.cons "left" (.mk [⟨"c", []⟩] .nil) .nil)),
         [("k", .str "v"), ("m", .arr ["1", "2"])], some "frag"⟩ :
          UrlTree).fragment with
        | some f => "#" ++ encodeURIModel f
        | none => ("" : String)) = "")) :=
  ⟨by rfl,
   C1_roundtrip ⟨.mk [] (.cons "primary" (.mk [⟨"a", [("x", "1")]⟩]
        (.cons "aux" (.mk [⟨"b", []⟩] .nil) .nil))
      (.cons "left" (.mk [⟨"c", []⟩] .nil) .nil)),
     [("k", .str "v"), ("m", .arr ["1", "2"])], some "frag"⟩ (by rfl)⟩

end RouterSpec
